import Mathlib

/-!
# Nachos: synchronisation primitives and physical page management

A shallow embedding of `kernel/synch.cc` (semaphores, locks, condition variables), of
`vm/physMem.cc` (the physical page table, the free page list and the clock page replacement)
and of `vm/pagefaultmanager.cc` (the page fault routine), followed by theorems about the
embedded code.

Conventions of the embedding.

* Every routine of `synch.cc` saves the interrupt status, switches interrupts off, works, and
  restores the saved status on its single exit path.  On the uniprocessor the body is therefore
  one atomic transition; the embedding gives that transition and leaves the (unchanged)
  interrupt status out of the state.
* `Thread*` and `AddrSpace*` pointers are opaque handles (natural numbers); a pointer that may be
  `NULL` is an `Option`.
* A C `int` is taken in `ℤ`.  The counters of this code (`value`, `count`, `local_i_clock`) move
  by one per step, so the theorems speak about runs that stay inside the `int` range, where no
  signed overflow (undefined behaviour in C++) occurs.
* `DEBUG` output and the statistics counters (`stat->incrMemoryAccess()`) are not part of the
  state.
-/

namespace Nachos

/-! ## Collaborators that are outside the translated files -/

/-- Opaque handle of a kernel thread (`Thread*`, never `NULL` for a running thread). -/
abbrev Thread := Nat

/-- Opaque handle of an address space (`AddrSpace*`). -/
abbrev AddrSpace := Nat

/-- Modelled from the spec: `Append` of the kernel list class (`Listint` / `List`, utility code
whose source is not among the translated files).  The wait queue is "an ordered sequence ...
FIFO, insertion order = wake order": `Append` puts the item at the tail. -/
def Listint.Append {α : Type} (q : List α) (x : α) : List α := q ++ [x]

/-- Modelled from the spec: `Prepend` of the kernel list class puts the item at the head
("LIFO reinsertion" of a released frame). -/
def Listint.Prepend {α : Type} (q : List α) (x : α) : List α := x :: q

/-- Modelled from the spec: `IsEmpty` of the kernel list class. -/
def Listint.IsEmpty {α : Type} (q : List α) : Bool := q.isEmpty

/-- Modelled from the spec: `Remove` of the kernel list class takes the item at the head
("remove the head (FIFO)"); on an empty list there is nothing to return. -/
def Listint.Remove {α : Type} : List α → Option (α × List α)
  | [] => none
  | x :: rest => some (x, rest)

/-- Modelled from the spec: the scheduler, "consumed only through a make runnable operation".
The state kept is the sequence of threads handed to `ReadyToRun`, in call order. -/
structure Scheduler where
  readyList : List Thread
deriving DecidableEq, Repr

/-- Modelled from the spec: `Scheduler::ReadyToRun(thread)` makes a sleeping thread runnable. -/
def Scheduler.ReadyToRun (g_scheduler : Scheduler) (thread : Thread) : Scheduler :=
  { readyList := g_scheduler.readyList ++ [thread] }

/-! ## `kernel/synch.cc` -/

/-- Fields of `class Semaphore` that carry state: the counter and the queue of sleeping threads. -/
structure Semaphore where
  value : Int
  queue : List Thread
deriving DecidableEq, Repr

/-- Constructor `Semaphore::Semaphore(debugName, initialValue)`. -/
def Semaphore.create (initialValue : Int) : Semaphore :=
  { value := initialValue, queue := [] }

/-- Method `Semaphore::P()`, called by `g_current_thread`: decrement, and when the new value is negative
append the caller to the queue, where it sleeps. -/
def Semaphore.P (s : Semaphore) (g_current_thread : Thread) : Semaphore :=
  let s1 : Semaphore := { s with value := s.value - 1 }
  if s1.value < 0 then
    { s1 with queue := Listint.Append s1.queue g_current_thread }
  else s1

/-- Method `Semaphore::V()`: increment, and when the queue is not empty remove its first thread and hand
it to `ReadyToRun`. -/
def Semaphore.V (s : Semaphore) (g_scheduler : Scheduler) : Semaphore × Scheduler :=
  let s1 : Semaphore := { s with value := s.value + 1 }
  if Listint.IsEmpty s1.queue then (s1, g_scheduler)
  else
    match Listint.Remove s1.queue with
    | some (thread_R2R, rest) => ({ s1 with queue := rest }, g_scheduler.ReadyToRun thread_R2R)
    | none => (s1, g_scheduler)

/-- Fields of `class Lock` that carry state. -/
structure Lock where
  free : Bool
  owner : Option Thread
  sleepqueue : List Thread
deriving DecidableEq, Repr

/-- Constructor `Lock::Lock(debugName)`: the lock is initially free. -/
def Lock.create : Lock :=
  { free := true, owner := none, sleepqueue := [] }

/-- Method `Lock::Acquire()`, called by `g_current_thread`. -/
def Lock.Acquire (l : Lock) (g_current_thread : Thread) : Lock :=
  if l.free then
    { l with owner := some g_current_thread, free := false }
  else
    { l with sleepqueue := Listint.Append l.sleepqueue g_current_thread }

/-- Method `Lock::Release()`, called by `g_current_thread`.  The body reads the caller only for the
`DEBUG` lines: there is no test of `owner` against `g_current_thread`. -/
def Lock.Release (l : Lock) (_g_current_thread : Thread) (g_scheduler : Scheduler) :
    Lock × Scheduler :=
  if Listint.IsEmpty l.sleepqueue then
    ({ l with owner := none, free := true }, g_scheduler)
  else
    match Listint.Remove l.sleepqueue with
    | some (thread_R2R, rest) =>
        ({ owner := some thread_R2R, free := false, sleepqueue := rest },
          g_scheduler.ReadyToRun thread_R2R)
    | none => (l, g_scheduler)

/-- Method `Lock::isHeldByCurrentThread()`: `g_current_thread == owner`. -/
def Lock.isHeldByCurrentThread (l : Lock) (g_current_thread : Thread) : Bool :=
  decide (some g_current_thread = l.owner)

/-- Fields of `class Condition` that carry state. -/
structure Condition where
  waitqueue : List Thread
deriving DecidableEq, Repr

/-- Constructor `Condition::Condition(debugName)`. -/
def Condition.create : Condition := { waitqueue := [] }

/-- Method `Condition::Wait()`, called by `g_current_thread`: always enqueue and sleep. -/
def Condition.Wait (c : Condition) (g_current_thread : Thread) : Condition :=
  { waitqueue := Listint.Append c.waitqueue g_current_thread }

/-- Method `Condition::Signal()`: wake up the first thread of the wait queue, if any. -/
def Condition.Signal (c : Condition) (g_scheduler : Scheduler) : Condition × Scheduler :=
  if Listint.IsEmpty c.waitqueue then (c, g_scheduler)
  else
    match Listint.Remove c.waitqueue with
    | some (thread_R2R, rest) => ({ waitqueue := rest }, g_scheduler.ReadyToRun thread_R2R)
    | none => (c, g_scheduler)

/-! ### Sequences of calls on one primitive -/

/-- One call on a semaphore: `P` by a given thread, or `V`. -/
inductive SemCall where
  | P (caller : Thread)
  | V
deriving DecidableEq, Repr

/-- Effect of one call on a semaphore and the scheduler. -/
def Semaphore.call (st : Semaphore × Scheduler) : SemCall → Semaphore × Scheduler
  | SemCall.P t => (st.1.P t, st.2)
  | SemCall.V => st.1.V st.2

/-- Effect of a finite sequence of calls, first call first. -/
def Semaphore.calls (st : Semaphore × Scheduler) (cs : List SemCall) : Semaphore × Scheduler :=
  cs.foldl Semaphore.call st

/-- Number of `P` calls in a sequence. -/
def SemCall.countP (cs : List SemCall) : Nat :=
  (cs.filter (fun c => decide (c ≠ SemCall.V))).length

/-- Number of `V` calls in a sequence. -/
def SemCall.countV (cs : List SemCall) : Nat :=
  (cs.filter (fun c => decide (c = SemCall.V))).length

/-- The effect of `k` successive `V` calls. -/
def Semaphore.Vs (k : Nat) (st : Semaphore × Scheduler) : Semaphore × Scheduler :=
  (fun p => Semaphore.V p.1 p.2)^[k] st

/-- Successive `Release` calls, one per listed caller. -/
def Lock.Releases (callers : List Thread) (st : Lock × Scheduler) : Lock × Scheduler :=
  callers.foldl (fun p c => Lock.Release p.1 c p.2) st

/-- The effect of `k` successive `Signal` calls. -/
def Condition.Signals (k : Nat) (st : Condition × Scheduler) : Condition × Scheduler :=
  (fun p => Condition.Signal p.1 p.2)^[k] st

/-- One call on a lock, with the calling thread. -/
inductive LockCall where
  | Acquire (caller : Thread)
  | Release (caller : Thread)
deriving DecidableEq, Repr

/-- A lock in use: the lock, the scheduler, and the threads that are inside the critical section,
that is, those that have returned from `Acquire` and have not called `Release` since. -/
structure LockUse where
  lock : Lock
  sched : Scheduler
  inside : List Thread
deriving DecidableEq, Repr

/-- A freshly constructed lock, nobody inside. -/
def LockUse.create : LockUse :=
  { lock := Lock.create, sched := { readyList := [] }, inside := [] }

/-- One call.  `Acquire` returns to its caller at once exactly when it found the lock free
(otherwise the caller sleeps inside `Acquire`); `Release` ends the critical section of its
caller, and every thread it hands to `ReadyToRun` resumes after its `Sleep()` and returns from
`Acquire`. -/
def LockUse.call (u : LockUse) : LockCall → LockUse
  | LockCall.Acquire t =>
      { lock := u.lock.Acquire t
        sched := u.sched
        inside := if u.lock.free then t :: u.inside else u.inside }
  | LockCall.Release t =>
      let r := u.lock.Release t u.sched
      { lock := r.1
        sched := r.2
        inside := r.2.readyList.drop u.sched.readyList.length ++
          u.inside.filter (fun x => decide (x ≠ t)) }

/-- Effect of a finite sequence of calls, first call first. -/
def LockUse.calls (u : LockUse) (cs : List LockCall) : LockUse :=
  cs.foldl LockUse.call u

/-- Every `Release` of the sequence is issued by the thread that owns the lock at that
moment. -/
def LockUse.releasedByOwner : LockUse → List LockCall → Bool
  | _, [] => true
  | u, LockCall.Acquire t :: cs => LockUse.releasedByOwner (u.call (LockCall.Acquire t)) cs
  | u, LockCall.Release t :: cs =>
      decide (u.lock.owner = some t) && LockUse.releasedByOwner (u.call (LockCall.Release t)) cs

/-- The lock invariant of the data model. -/
def Lock.wellFormed (l : Lock) : Prop :=
  (l.free = true ↔ l.owner = none) ∧ (l.sleepqueue ≠ [] → l.free = false)

/-- The threads inside the critical section are the owner, if any, and nobody else. -/
def LockUse.exclusive (u : LockUse) : Prop :=
  u.lock.wellFormed ∧ u.inside = u.lock.owner.toList

/-! ## `vm/physMem.cc` -/

/-- Ways in which a run of the embedded code stops without returning.  The first four are what
the C++ does (a failed `ASSERT`, an array index outside `tpr`, a `NULL` dereference, `%` by zero);
`fuel` is no behaviour of the code: it marks a run of the embedding that was cut off while the
`while` loop of `EvictPage` was still going. -/
inductive Fault where
  | assertion
  | outOfBounds
  | nullPointer
  | divideByZero
  | fuel
deriving DecidableEq, Repr

/-- Modelled from the spec: one "Virtual Page Entry" of a translation table (class
`TranslationTable` is outside the translated files): bits valid, io-in-progress, on-swap,
referenced (U), modified (M), the mapped physical frame and the backing-store locator. -/
structure PageEntry where
  valid : Bool
  io : Bool
  swap : Bool
  U : Bool
  M : Bool
  physicalPage : Int
  addrDisk : Int
deriving DecidableEq, Repr

/-- Modelled from the spec: a translation table, "an abstract per-virtual-page record". -/
abbrev TranslationTable := Int → PageEntry

/-- Modelled from the spec: accessor of the referenced bit. -/
def TranslationTable.getBitU (tt : TranslationTable) (virtualPage : Int) : Bool :=
  (tt virtualPage).U

/-- Modelled from the spec: mutator clearing the referenced bit. -/
def TranslationTable.clearBitU (tt : TranslationTable) (virtualPage : Int) : TranslationTable :=
  Function.update tt virtualPage { tt virtualPage with U := false }

/-- Modelled from the spec: accessor of the modified bit. -/
def TranslationTable.getBitM (tt : TranslationTable) (virtualPage : Int) : Bool :=
  (tt virtualPage).M

/-- Modelled from the spec: mutator clearing the valid bit. -/
def TranslationTable.clearBitValid (tt : TranslationTable) (virtualPage : Int) :
    TranslationTable :=
  Function.update tt virtualPage { tt virtualPage with valid := false }

/-- Modelled from the spec: mutator setting the on-swap bit. -/
def TranslationTable.setBitSwap (tt : TranslationTable) (virtualPage : Int) : TranslationTable :=
  Function.update tt virtualPage { tt virtualPage with swap := true }

/-- Modelled from the spec: mutator of the backing-store locator. -/
def TranslationTable.setAddrDisk (tt : TranslationTable) (virtualPage : Int) (addr : Int) :
    TranslationTable :=
  Function.update tt virtualPage { tt virtualPage with addrDisk := addr }

/-- Modelled from the spec: the swap collaborator, `PutPageSwap(hintSlot, pageBuffer) → slot`.
The slot answered by the n-th write is `slotOf n`; `written` lists the frames whose content was
handed over, in call order. -/
structure SwapManager where
  slotOf : Nat → Int
  written : List Int

/-- Modelled from the spec: one `PutPageSwap(-1, buffer of frame)` call, giving the slot. -/
def SwapManager.PutPageSwap (sw : SwapManager) (frame : Int) : Int × SwapManager :=
  (sw.slotOf sw.written.length, { sw with written := sw.written ++ [frame] })

/-- The record `struct tpr_c` kept for each physical page. -/
structure tpr_c where
  free : Bool
  locked : Bool
  virtualPage : Int
  owner : Option AddrSpace
deriving DecidableEq, Repr

/-- The state the routines of `PhysicalMemManager` work on: its own members `tpr` (an array of
`g_cfg->NumPhysPages` records), `free_page_list` and `i_clock`, and the two things they reach
through pointers: the `translationTable` member of each address space (`none` for `NULL`) and
`g_swap_manager`. -/
structure PhysicalMemManager where
  tpr : List tpr_c
  free_page_list : List Int
  i_clock : Int
  translationTable : AddrSpace → Option TranslationTable
  g_swap_manager : SwapManager

namespace PhysicalMemManager

/-- The configured number of physical pages `g_cfg->NumPhysPages`, the size of `tpr`. -/
def NumPhysPages (m : PhysicalMemManager) : Int := m.tpr.length

/-- Reading `tpr[i]`: an index outside the array is a fault. -/
def frame (m : PhysicalMemManager) (i : Int) : Except Fault tpr_c :=
  if 0 ≤ i then
    match m.tpr[i.toNat]? with
    | some r => Except.ok r
    | none => Except.error Fault.outOfBounds
  else Except.error Fault.outOfBounds

/-- Writing `tpr[i]` (used after `tpr[i]` has been read, hence in range). -/
def setFrame (m : PhysicalMemManager) (i : Int) (r : tpr_c) : PhysicalMemManager :=
  { m with tpr := m.tpr.set i.toNat r }

/-- Writing the translation table of address space `a`. -/
def setTable (m : PhysicalMemManager) (a : AddrSpace) (tt : TranslationTable) :
    PhysicalMemManager :=
  { m with translationTable := Function.update m.translationTable a (some tt) }

/-- The statement `if (owner->translationTable != NULL)
owner->translationTable->clearBitValid(virtualPage)` for a non-`NULL` owner `a`. -/
def clearValidIfTable (m : PhysicalMemManager) (a : AddrSpace) (virtualPage : Int) :
    PhysicalMemManager :=
  match m.translationTable a with
  | some tt => m.setTable a (tt.clearBitValid virtualPage)
  | none => m

/-- Constructor `PhysicalMemManager::PhysicalMemManager()`: every record is set free, unlocked
and ownerless and its number is appended to the free list; `i_clock` is -1.  `virtualPage` is
not initialised by the constructor, `garbage i` stands for whatever frame `i` holds there. -/
def create (NumPhysPages : Nat) (garbage : Nat → Int)
    (translationTable : AddrSpace → Option TranslationTable) (g_swap_manager : SwapManager) :
    PhysicalMemManager :=
  { tpr := (List.range NumPhysPages).map
      (fun i => { free := true, locked := false, owner := none, virtualPage := garbage i })
    free_page_list :=
      (List.range NumPhysPages).foldl (fun l i => Listint.Append l (Int.ofNat i)) []
    i_clock := -1
    translationTable := translationTable
    g_swap_manager := g_swap_manager }

/-- Method `RemovePhysicalToVirtualMapping(num_page)`. -/
def RemovePhysicalToVirtualMapping (m : PhysicalMemManager) (num_page : Int) :
    Except Fault PhysicalMemManager :=
  match m.frame num_page with
  | Except.error e => Except.error e
  | Except.ok r =>
    if r.free then Except.error Fault.assertion
    else
      let m1 := m.setFrame num_page { r with free := true, locked := false }
      match r.owner with
      | none => Except.error Fault.nullPointer
      | some a =>
        let m2 := m1.clearValidIfTable a r.virtualPage
        Except.ok { m2 with free_page_list := Listint.Prepend m2.free_page_list num_page }

/-- Method `UnlockPage(num_page)`. -/
def UnlockPage (m : PhysicalMemManager) (num_page : Int) : Except Fault PhysicalMemManager :=
  if ¬ (num_page < m.NumPhysPages) then Except.error Fault.assertion
  else
    match m.frame num_page with
    | Except.error e => Except.error e
    | Except.ok r =>
      if r.locked ≠ true then Except.error Fault.assertion
      else if r.free ≠ false then Except.error Fault.assertion
      else Except.ok (m.setFrame num_page { r with locked := false })

/-- Method `ChangeOwner(numPage, owner)`; `addrspace` is `owner->GetProcessOwner()->addrspace`
of the thread passed in. -/
def ChangeOwner (m : PhysicalMemManager) (numPage : Int) (addrspace : Option AddrSpace) :
    Except Fault PhysicalMemManager :=
  match m.frame numPage with
  | Except.error e => Except.error e
  | Except.ok r => Except.ok (m.setFrame numPage { r with owner := addrspace })

/-- Method `FindFreePage()`: the page number, or -1 when the free list is empty. -/
def FindFreePage (m : PhysicalMemManager) : Except Fault (Int × PhysicalMemManager) :=
  if Listint.IsEmpty m.free_page_list then Except.ok (-1, m)
  else
    match Listint.Remove m.free_page_list with
    | none => Except.ok (-1, m)
    | some (page, rest) =>
      let m1 := { m with free_page_list := rest }
      match m1.frame page with
      | Except.error e => Except.error e
      | Except.ok r =>
        if r.free then Except.ok (page, m1.setFrame page { r with free := false })
        else Except.error Fault.assertion

/-- The local variables of `EvictPage` that live across iterations of its `while` loop, with the
state they work on. -/
structure ClockScan where
  m : PhysicalMemManager
  local_i_clock : Int
  count : Int

/-- What one iteration of the loop leaves behind: the loop variables, `found`, and the
translation table (by its address space) and virtual page last looked at (`tt`, `pVirt`). -/
structure ScanStep where
  next : ClockScan
  found : Bool
  tt : AddrSpace
  pVirt : Int

/-- The `if(!found)` block closing an iteration: advance the hand modulo `NumPhysPages-1`. -/
def EvictPage_advance (m : PhysicalMemManager) (local_i_clock count : Int) (found : Bool)
    (tt : AddrSpace) (pVirt : Int) : Except Fault ScanStep :=
  if found then
    Except.ok { next := { m := m, local_i_clock := local_i_clock, count := count }
                found := found, tt := tt, pVirt := pVirt }
  else if m.NumPhysPages - 1 = 0 then Except.error Fault.divideByZero
  else
    Except.ok { next := { m := m
                          local_i_clock := Int.tmod (local_i_clock + 1) (m.NumPhysPages - 1)
                          count := count + 1 }
                found := found, tt := tt, pVirt := pVirt }

/-- One iteration of the `while(!found)` loop of `EvictPage`.  `pPhys` is a copy of the record
`tpr[local_i_clock]`.  `Yield()` gives the processor away and comes back; no other thread is
part of the embedding, so it leaves the state as it is. -/
def EvictPage_body (c : ClockScan) : Except Fault ScanStep :=
  match c.m.frame c.local_i_clock with
  | Except.error e => Except.error e
  | Except.ok pPhys =>
    let pVirt := pPhys.virtualPage
    match pPhys.owner with
    | none => Except.error Fault.nullPointer
    | some a =>
      match c.m.translationTable a with
      | none => Except.error Fault.nullPointer
      | some tt =>
        let found := !tt.getBitU pVirt && (pPhys.locked == false)
        let m1 := c.m.setTable a (tt.clearBitU pVirt)
        if c.count = m1.NumPhysPages - 1 then
          let m2 := { m1 with i_clock := c.local_i_clock }
          if m2.NumPhysPages - 1 = 0 then Except.error Fault.divideByZero
          else
            EvictPage_advance m2 (Int.tmod m2.i_clock (m2.NumPhysPages - 1)) 0 found a pVirt
        else EvictPage_advance m1 c.local_i_clock c.count found a pVirt

/-- The statements of `EvictPage` after the loop: store the hand, set `locked` in the copy
`pPhys` (the record in `tpr` is not written), write the page to swap when its M bit is set. -/
def EvictPage_finish (c : ClockScan) (a : AddrSpace) (pVirt : Int) :
    Except Fault (Int × PhysicalMemManager) :=
  let m1 := { c.m with i_clock := c.local_i_clock }
  match m1.translationTable a with
  | none => Except.error Fault.nullPointer
  | some tt =>
    if tt.getBitM pVirt then
      let r := m1.g_swap_manager.PutPageSwap c.local_i_clock
      let m2 := { m1 with g_swap_manager := r.2 }
      Except.ok (c.local_i_clock, m2.setTable a ((tt.setAddrDisk pVirt r.1).setBitSwap pVirt))
    else Except.ok (c.local_i_clock, m1)

/-- The `while(!found)` loop followed by the closing statements; `fuel` bounds the number of
iterations the embedding follows. -/
def EvictPage_loop : Nat → ClockScan → Except Fault (Int × PhysicalMemManager)
  | 0, _ => Except.error Fault.fuel
  | fuel + 1, c =>
    match EvictPage_body c with
    | Except.error e => Except.error e
    | Except.ok st =>
      if st.found then EvictPage_finish st.next st.tt st.pVirt
      else EvictPage_loop fuel st.next

/-- Method `EvictPage()`: the clock algorithm, started at the stored hand `i_clock`. -/
def EvictPage (fuel : Nat) (m : PhysicalMemManager) : Except Fault (Int × PhysicalMemManager) :=
  EvictPage_loop fuel { m := m, local_i_clock := m.i_clock, count := 0 }

/-- The loop variables after `k` iterations none of which selected a frame; `none` when the
loop does not get that far (a fault, or a frame selected earlier). -/
def EvictPage_scan : Nat → ClockScan → Option ClockScan
  | 0, c => some c
  | k + 1, c =>
    match EvictPage_body c with
    | Except.error _ => none
    | Except.ok st =>
      if st.found then none else EvictPage_scan k st.next

/-- Method `AddPhysicalToVirtualMapping(owner, virtualPage)`. -/
def AddPhysicalToVirtualMapping (fuel : Nat) (m : PhysicalMemManager)
    (owner : Option AddrSpace) (virtualPage : Int) : Except Fault (Int × PhysicalMemManager) :=
  match m.FindFreePage with
  | Except.error e => Except.error e
  | Except.ok (page0, m0) =>
    let chosen := if page0 = -1 then EvictPage fuel m0 else Except.ok (page0, m0)
    match chosen with
    | Except.error e => Except.error e
    | Except.ok (page, m1) =>
      match m1.frame page with
      | Except.error e => Except.error e
      | Except.ok r =>
        Except.ok (page, m1.setFrame page
          { r with owner := owner, virtualPage := virtualPage, free := false, locked := true })

end PhysicalMemManager

/-- One call on the physical memory manager, with its arguments (`fuel` bounds the eviction
loop as in `EvictPage`). -/
inductive MemCall where
  | FindFreePage
  | AddPhysicalToVirtualMapping (fuel : Nat) (owner : Option AddrSpace) (virtualPage : Int)
  | UnlockPage (num_page : Int)
  | RemovePhysicalToVirtualMapping (num_page : Int)
  | ChangeOwner (numPage : Int) (addrspace : Option AddrSpace)
  | EvictPage (fuel : Nat)
deriving DecidableEq, Repr

/-- The state after one call that returns. -/
def PhysicalMemManager.call (m : PhysicalMemManager) : MemCall → Except Fault PhysicalMemManager
  | MemCall.FindFreePage => (m.FindFreePage).map Prod.snd
  | MemCall.AddPhysicalToVirtualMapping fuel owner virtualPage =>
      (m.AddPhysicalToVirtualMapping fuel owner virtualPage).map Prod.snd
  | MemCall.UnlockPage num_page => m.UnlockPage num_page
  | MemCall.RemovePhysicalToVirtualMapping num_page => m.RemovePhysicalToVirtualMapping num_page
  | MemCall.ChangeOwner numPage addrspace => m.ChangeOwner numPage addrspace
  | MemCall.EvictPage fuel => (m.EvictPage fuel).map Prod.snd

/-- The state after a sequence of calls each of which returns, first call first. -/
def PhysicalMemManager.calls (m : PhysicalMemManager) :
    List MemCall → Except Fault PhysicalMemManager
  | [] => Except.ok m
  | c :: cs =>
    match m.call c with
    | Except.error e => Except.error e
    | Except.ok m1 => PhysicalMemManager.calls m1 cs

/-- The frame invariant as the spec words it: a free frame is unlocked and ownerless, a locked
frame is not free. -/
def tpr_c.specInvariant (r : tpr_c) : Prop :=
  (r.free = true → r.locked = false ∧ r.owner = none) ∧ (r.locked = true → r.free = false)

/-- The part of the frame invariant that concerns `free` and `locked`. -/
def tpr_c.lockInvariant (r : tpr_c) : Prop :=
  (r.free = true → r.locked = false) ∧ (r.locked = true → r.free = false)


/-- A full table of four frames, none locked, free list empty: frames 0 and 1 hold pages 0 and 1
of address space 1, frames 2 and 3 hold pages 2 and 3 of address space 2.  The referenced bit of
page `v` is `U v`, every modified bit is clear, the clock hand is at `hand`. -/
def fourFrames (hand : Int) (U : Int → Bool) : PhysicalMemManager :=
  { tpr := [{ free := false, locked := false, virtualPage := 0, owner := some 1 },
            { free := false, locked := false, virtualPage := 1, owner := some 1 },
            { free := false, locked := false, virtualPage := 2, owner := some 2 },
            { free := false, locked := false, virtualPage := 3, owner := some 2 }]
    free_page_list := []
    i_clock := hand
    translationTable := fun _ => some (fun v =>
      { valid := true, io := false, swap := false, U := U v, M := false
        physicalPage := v, addrDisk := -1 })
    g_swap_manager := { slotOf := fun n => n, written := [] } }

/-- The bounds the loop variables of `EvictPage` keep once the hand has been advanced. -/
def PhysicalMemManager.ClockScan.inBounds (c : PhysicalMemManager.ClockScan) : Prop :=
  0 ≤ c.count ∧
  (0 < c.count → c.count ≤ c.m.NumPhysPages - 1 ∧
    0 ≤ c.local_i_clock ∧ c.local_i_clock < c.m.NumPhysPages - 1)

/-- The frame under the hand is unlocked and its page has the referenced bit clear: the test
`!tt->getBitU(pVirt) && pPhys.locked == false` of `EvictPage` succeeds on record `p`. -/
def PhysicalMemManager.ClockScan.selects (c : PhysicalMemManager.ClockScan) (p : tpr_c) : Prop :=
  c.m.frame c.local_i_clock = Except.ok p ∧ p.locked = false ∧
  ∃ (a : AddrSpace) (tt : TranslationTable),
    p.owner = some a ∧ c.m.translationTable a = some tt ∧ tt.getBitU p.virtualPage = false

/-- Every record of the table keeps `free` and `locked` apart. -/
def PhysicalMemManager.framesApart (m : PhysicalMemManager) : Prop :=
  ∀ r ∈ m.tpr, r.lockInvariant

/-! ### `Condition::Broadcast` -/

/-- The `while (!waitqueue->IsEmpty())` loop of `Condition::Broadcast()`: remove the first
thread and hand it to `ReadyToRun`, until the queue is empty.  `fuel` bounds the number of times
the loop condition is tested; `none` marks a run cut off while the loop was still going. -/
def Condition.Broadcast_loop : Nat → Condition → Scheduler → Option (Condition × Scheduler)
  | 0, _, _ => none
  | fuel + 1, c, g_scheduler =>
    if Listint.IsEmpty c.waitqueue then some (c, g_scheduler)
    else
      match Listint.Remove c.waitqueue with
      | some (thread_R2R, rest) =>
          Condition.Broadcast_loop fuel { waitqueue := rest } (g_scheduler.ReadyToRun thread_R2R)
      | none => Condition.Broadcast_loop fuel c g_scheduler

/-- Method `Condition::Broadcast()`. -/
def Condition.Broadcast (fuel : Nat) (c : Condition) (g_scheduler : Scheduler) :
    Option (Condition × Scheduler) :=
  Condition.Broadcast_loop fuel c g_scheduler

/-! ### The free page list against the page table -/

/-- The free list and the table agree: no frame number is listed twice, and the listed numbers
are exactly the frames whose record has `free` set. -/
def PhysicalMemManager.listConsistent (m : PhysicalMemManager) : Prop :=
  m.free_page_list.Nodup ∧
  ∀ i : Int, i ∈ m.free_page_list ↔ ∃ r : tpr_c, m.frame i = Except.ok r ∧ r.free = true

/-! ## `vm/pagefaultmanager.cc` -/

/-- Modelled from the spec: more accessors and mutators of the translation table
(io-in-progress bit). -/
def TranslationTable.getBitIo (tt : TranslationTable) (virtualPage : Int) : Bool :=
  (tt virtualPage).io

/-- Modelled from the spec: mutator setting the io-in-progress bit. -/
def TranslationTable.setBitIo (tt : TranslationTable) (virtualPage : Int) : TranslationTable :=
  Function.update tt virtualPage { tt virtualPage with io := true }

/-- Modelled from the spec: mutator clearing the io-in-progress bit. -/
def TranslationTable.clearBitIo (tt : TranslationTable) (virtualPage : Int) : TranslationTable :=
  Function.update tt virtualPage { tt virtualPage with io := false }

/-- Modelled from the spec: accessor of the valid bit. -/
def TranslationTable.getBitValid (tt : TranslationTable) (virtualPage : Int) : Bool :=
  (tt virtualPage).valid

/-- Modelled from the spec: mutator setting the valid bit. -/
def TranslationTable.setBitValid (tt : TranslationTable) (virtualPage : Int) : TranslationTable :=
  Function.update tt virtualPage { tt virtualPage with valid := true }

/-- Modelled from the spec: accessor of the on-swap bit. -/
def TranslationTable.getBitSwap (tt : TranslationTable) (virtualPage : Int) : Bool :=
  (tt virtualPage).swap

/-- Modelled from the spec: accessor of the backing-store locator. -/
def TranslationTable.getAddrDisk (tt : TranslationTable) (virtualPage : Int) : Int :=
  (tt virtualPage).addrDisk

/-- Modelled from the spec: accessor of the mapped physical frame number. -/
def TranslationTable.getPhysicalPage (tt : TranslationTable) (virtualPage : Int) : Int :=
  (tt virtualPage).physicalPage

/-- Modelled from the spec: mutator of the mapped physical frame number. -/
def TranslationTable.setPhysicalPage (tt : TranslationTable) (virtualPage : Int)
    (physicalPage : Int) : TranslationTable :=
  Function.update tt virtualPage { tt virtualPage with physicalPage := physicalPage }

/-- Modelled from the spec: the result codes handed to the trap dispatcher (the enumeration
`ExceptionType` is declared outside the translated files): `NO_EXCEPTION`, and codes distinct
from it, among them the one for an addressing error. -/
inductive ExceptionType where
  | NO_EXCEPTION
  | PAGEFAULT_EXCEPTION
  | ADDRESSERROR_EXCEPTION
  | BUSERROR_EXCEPTION
deriving DecidableEq, Repr

/-- The three ways `PageFault` fills the frame `physicalPage` of main memory, with the arguments
of the call: `g_swap_manager->GetPageSwap(addrDisk, frame)`, `memset(frame, 0, size)`,
`exec_file->ReadAt(frame, size, addrDisk)`. -/
inductive PageLoad where
  | GetPageSwap (addrDisk : Int) (physicalPage : Int)
  | memset (physicalPage : Int) (size : Int)
  | ReadAt (physicalPage : Int) (size : Int) (addrDisk : Int)
deriving DecidableEq, Repr

/-- The state `PageFault` works on: `g_physical_mem_manager` (with the translation tables and the
swap manager it reaches), `g_cfg->PageSize`, and the sequence of loads into main memory done so
far, in call order. -/
structure Kernel where
  g_physical_mem_manager : PhysicalMemManager
  PageSize : Int
  loads : List PageLoad

/-- The loop `while(tt->getBitIo(virtualPage)) g_current_thread->Yield();`.  `Yield()` leaves
the state as it is (no other thread is part of the embedding). -/
def PageFault_waitIo : Nat → TranslationTable → Int → Except Fault Unit
  | 0, _, _ => Except.error Fault.fuel
  | fuel + 1, tt, virtualPage =>
    if tt.getBitIo virtualPage then PageFault_waitIo fuel tt virtualPage
    else Except.ok ()

/-- The loop `while(addrDisk == -1) { Yield(); addrDisk = tt->getAddrDisk(virtualPage); }`,
giving the value of `addrDisk` at its exit. -/
def PageFault_waitAddrDisk : Nat → TranslationTable → Int → Int → Except Fault Int
  | 0, _, _, _ => Except.error Fault.fuel
  | fuel + 1, tt, virtualPage, addrDisk =>
    if addrDisk = -1 then PageFault_waitAddrDisk fuel tt virtualPage (tt.getAddrDisk virtualPage)
    else Except.ok addrDisk

/-- The `if(tt->getBitSwap(virtualPage) == 1) ... else ...` statement of `PageFault`: which load
fills the frame. -/
def PageFault_load (fuel : Nat) (tt : TranslationTable) (virtualPage : Int) (addrDisk : Int)
    (PageSize : Int) : Except Fault PageLoad :=
  if tt.getBitSwap virtualPage then
    match PageFault_waitAddrDisk fuel tt virtualPage addrDisk with
    | Except.error e => Except.error e
    | Except.ok ad => Except.ok (PageLoad.GetPageSwap ad (tt.getPhysicalPage virtualPage))
  else if addrDisk = -1 then
    Except.ok (PageLoad.memset (tt.getPhysicalPage virtualPage) PageSize)
  else
    Except.ok (PageLoad.ReadAt (tt.getPhysicalPage virtualPage) PageSize addrDisk)

/-- The body of `if(!tt->getBitValid(virtualPage))` in `PageFault`, entered with the table `tt`
of the faulting address space. -/
def PageFault_resolve (fuel : Nat) (k : Kernel) (addrspace : AddrSpace) (tt : TranslationTable)
    (virtualPage : Int) : Except Fault Kernel :=
  let m1 := k.g_physical_mem_manager.setTable addrspace (tt.setBitIo virtualPage)
  let addrDisk := (tt.setBitIo virtualPage).getAddrDisk virtualPage
  match m1.AddPhysicalToVirtualMapping fuel (some addrspace) virtualPage with
  | Except.error e => Except.error e
  | Except.ok (physPage, m2) =>
    match m2.translationTable addrspace with
    | none => Except.error Fault.nullPointer
    | some tt2 =>
      let tt3 := tt2.setPhysicalPage virtualPage physPage
      match PageFault_load fuel tt3 virtualPage addrDisk k.PageSize with
      | Except.error e => Except.error e
      | Except.ok load =>
        let tt4 := (tt3.clearBitIo virtualPage).setBitValid virtualPage
        match (m2.setTable addrspace tt4).UnlockPage physPage with
        | Except.error e => Except.error e
        | Except.ok m3 =>
          Except.ok { k with g_physical_mem_manager := m3, loads := k.loads ++ [load] }

/-- Method `PageFaultManager::PageFault(virtualPage)`, called in the thread whose process has
address space `addrspace` (`g_current_thread->GetProcessOwner()->addrspace`); the table
`g_machine->mmu->translationTable` is the table of that address space.  `virtualPage` is a
`uint32_t`, a virtual address divided by the page size, hence unchanged by its conversion to
`int`.  `fuel` bounds each of the loops. -/
def PageFault (fuel : Nat) (k : Kernel) (addrspace : AddrSpace) (virtualPage : Nat) :
    Except Fault (ExceptionType × Kernel) :=
  match k.g_physical_mem_manager.translationTable addrspace with
  | none => Except.error Fault.nullPointer
  | some tt =>
    match PageFault_waitIo fuel tt virtualPage with
    | Except.error e => Except.error e
    | Except.ok _ =>
      if !tt.getBitValid virtualPage then
        match PageFault_resolve fuel k addrspace tt virtualPage with
        | Except.error e => Except.error e
        | Except.ok k2 => Except.ok (ExceptionType.NO_EXCEPTION, k2)
      else Except.ok (ExceptionType.NO_EXCEPTION, k)

/-- A translation entry with no mapping at all: not valid, not on swap, no backing-store
locator. -/
def PageEntry.unmapped : PageEntry :=
  { valid := false, io := false, swap := false, U := false, M := false
    physicalPage := 0, addrDisk := -1 }

/-- A kernel just started, with two free frames and pages of 128 bytes, in which no address
space maps any page. -/
def Kernel.started : Kernel :=
  { g_physical_mem_manager :=
      PhysicalMemManager.create 2 (fun _ => 0) (fun _ => some (fun _ => PageEntry.unmapped))
        { slotOf := fun n => n, written := [] }
    PageSize := 128
    loads := [] }

/-- The full table of four frames of `fourFrames` in which the page held by frame 1 has been
modified (M bit set) and only that page is unreferenced; the hand is at frame 2. -/
def fourFramesModified : PhysicalMemManager :=
  { fourFrames 2 (fun v => decide (v ≠ 1)) with
    translationTable := fun _ => some (fun v =>
      { valid := true, io := false, swap := false, U := decide (v ≠ 1), M := decide (v = 1)
        physicalPage := v, addrDisk := -1 }) }

/-- The valid bit of the entry of address space `a` for virtual page `v` (`none` when `a` has no
translation table). -/
def PhysicalMemManager.validBit (m : PhysicalMemManager) (a : AddrSpace) (v : Int) :
    Option Bool :=
  (m.translationTable a).map (fun tt => tt.getBitValid v)

/-! ### Observations used for the clock scan and the write-back -/

/-- The referenced bit of the entry of address space `a` for virtual page `v` (`none` when `a`
has no translation table). -/
def PhysicalMemManager.bitU (m : PhysicalMemManager) (a : AddrSpace) (v : Int) : Option Bool :=
  (m.translationTable a).map (fun tt => tt.getBitU v)

/-- The entry of address space `a` for virtual page `v` with its referenced bit masked out:
everything about the entry that a scan which only clears U bits cannot change. -/
def PhysicalMemManager.entryBesidesU (m : PhysicalMemManager) (a : AddrSpace) (v : Int) :
    Option PageEntry :=
  (m.translationTable a).map (fun tt => { tt v with U := false })

/-- Loop variables of `EvictPage` from which the scan cannot get out: at least two frames, the
hand on one of the frames `0 .. NumPhysPages-2`, and every one of these frames locked (with an
owner that has a translation table). -/
def PhysicalMemManager.ClockScan.stuck (c : PhysicalMemManager.ClockScan) : Prop :=
  2 ≤ c.m.NumPhysPages ∧ 0 ≤ c.local_i_clock ∧ c.local_i_clock < c.m.NumPhysPages - 1 ∧
  ∀ i : Int, 0 ≤ i → i < c.m.NumPhysPages - 1 →
    ∃ (p : tpr_c) (a : AddrSpace) (tt : TranslationTable),
      c.m.frame i = Except.ok p ∧ p.locked = true ∧ p.owner = some a ∧
      c.m.translationTable a = some tt

/-- A full table of four frames with the hand at frame 0 in which frames 0, 1 and 2 are locked
and frame 3 is unlocked; every referenced bit and every modified bit is clear. -/
def fourFramesLastUnlocked : PhysicalMemManager :=
  { tpr := [{ free := false, locked := true, virtualPage := 0, owner := some 1 },
            { free := false, locked := true, virtualPage := 1, owner := some 1 },
            { free := false, locked := true, virtualPage := 2, owner := some 2 },
            { free := false, locked := false, virtualPage := 3, owner := some 2 }]
    free_page_list := []
    i_clock := 0
    translationTable := fun _ => some (fun v =>
      { valid := true, io := false, swap := false, U := false, M := false
        physicalPage := v, addrDisk := -1 })
    g_swap_manager := { slotOf := fun n => n, written := [] } }

/-- A manager of two frames just constructed, every address space having a translation table
without any mapping. -/
def twoFramesFresh : PhysicalMemManager :=
  PhysicalMemManager.create 2 (fun _ => 0) (fun _ => some (fun _ => PageEntry.unmapped))
    { slotOf := fun n => n, written := [] }

/-- A kernel just started, with two free frames and pages of 128 bytes, in which every
translation entry of every address space is `e`. -/
def Kernel.startedWith (e : PageEntry) : Kernel :=
  { g_physical_mem_manager :=
      PhysicalMemManager.create 2 (fun _ => 0) (fun _ => some (fun _ => e))
        { slotOf := fun n => n, written := [] }
    PageSize := 128
    loads := [] }

/-- A kernel with two frames, both occupied, no free frame, the hand at frame 0, in which frame
0 is unlocked and still recorded for page 5 of address space 1 although the entry of that page
is not valid; the entry has its M bit set, is not on swap and has backing-store locator
`addrDisk`.  Frame 1 is locked and holds page 6.  The swap manager answers slot 77. -/
def Kernel.ownFrameRecorded (addrDisk : Int) : Kernel :=
  { g_physical_mem_manager :=
      { tpr := [{ free := false, locked := false, virtualPage := 5, owner := some 1 },
                { free := false, locked := true, virtualPage := 6, owner := some 1 }]
        free_page_list := []
        i_clock := 0
        translationTable := fun _ => some (fun v =>
          if v = 5 then
            { valid := false, io := false, swap := false, U := false, M := true
              physicalPage := 0, addrDisk := addrDisk }
          else
            { valid := true, io := false, swap := false, U := true, M := false
              physicalPage := 1, addrDisk := -1 })
        g_swap_manager := { slotOf := fun _ => 77, written := [] } }
    PageSize := 128
    loads := [] }

/-! ## Theorems: `kernel/synch.cc` -/

section SynchLemmas

theorem Semaphore.P_value (s : Semaphore) (t : Thread) : (s.P t).value = s.value - 1 := by
  unfold Semaphore.P
  dsimp only
  split <;> rfl

theorem Semaphore.P_queue (s : Semaphore) (t : Thread) :
    (s.P t).queue = if s.value - 1 < 0 then s.queue ++ [t] else s.queue := by
  unfold Semaphore.P Listint.Append
  dsimp only
  split <;> rfl

theorem Semaphore.V_value (s : Semaphore) (g : Scheduler) : (s.V g).1.value = s.value + 1 := by
  unfold Semaphore.V Listint.IsEmpty Listint.Remove
  cases hq : s.queue <;> simp [hq]

theorem Semaphore.V_queue (s : Semaphore) (g : Scheduler) : (s.V g).1.queue = s.queue.drop 1 := by
  unfold Semaphore.V Listint.IsEmpty Listint.Remove
  cases hq : s.queue <;> simp [hq]

theorem Semaphore.V_ready (s : Semaphore) (g : Scheduler) :
    (s.V g).2.readyList = g.readyList ++ s.queue.take 1 := by
  unfold Semaphore.V Listint.IsEmpty Listint.Remove Scheduler.ReadyToRun
  cases hq : s.queue <;> simp [hq]

theorem Lock.Release_queue (l : Lock) (t : Thread) (g : Scheduler) :
    (l.Release t g).1.sleepqueue = l.sleepqueue.drop 1 := by
  unfold Lock.Release Listint.IsEmpty Listint.Remove
  cases hq : l.sleepqueue <;> simp [hq]

theorem Lock.Release_ready (l : Lock) (t : Thread) (g : Scheduler) :
    (l.Release t g).2.readyList = g.readyList ++ l.sleepqueue.take 1 := by
  unfold Lock.Release Listint.IsEmpty Listint.Remove Scheduler.ReadyToRun
  cases hq : l.sleepqueue <;> simp [hq]

theorem Lock.Release_owner (l : Lock) (t : Thread) (g : Scheduler) :
    (l.Release t g).1.owner = l.sleepqueue.head? := by
  unfold Lock.Release Listint.IsEmpty Listint.Remove
  cases hq : l.sleepqueue <;> simp [hq]

theorem Lock.Release_free (l : Lock) (t : Thread) (g : Scheduler) :
    (l.Release t g).1.free = l.sleepqueue.isEmpty := by
  unfold Lock.Release Listint.IsEmpty Listint.Remove
  cases hq : l.sleepqueue <;> simp [hq]

theorem Condition.Signal_queue (c : Condition) (g : Scheduler) :
    (c.Signal g).1.waitqueue = c.waitqueue.drop 1 := by
  unfold Condition.Signal Listint.IsEmpty Listint.Remove
  cases hq : c.waitqueue <;> simp [hq]

theorem Condition.Signal_ready (c : Condition) (g : Scheduler) :
    (c.Signal g).2.readyList = g.readyList ++ c.waitqueue.take 1 := by
  unfold Condition.Signal Listint.IsEmpty Listint.Remove Scheduler.ReadyToRun
  cases hq : c.waitqueue <;> simp [hq]

/-- Taking one more element from the front: the step shared by the three FIFO arguments. -/
theorem take_succ_append (q : List Thread) (k : Nat) :
    q.take k ++ (q.drop k).take 1 = q.take (k + 1) := by
  induction q generalizing k with
  | nil => simp
  | cons x xs ih =>
    cases k with
    | zero => simp
    | succ n => simpa using ih n

theorem Semaphore.Vs_spec (k : Nat) (s : Semaphore) (g : Scheduler) :
    (Semaphore.Vs k (s, g)).1.queue = s.queue.drop k ∧
    (Semaphore.Vs k (s, g)).2.readyList = g.readyList ++ s.queue.take k := by
  induction k with
  | zero => simp [Semaphore.Vs]
  | succ n ih =>
    have hstep : Semaphore.Vs (n + 1) (s, g) =
        Semaphore.V (Semaphore.Vs n (s, g)).1 (Semaphore.Vs n (s, g)).2 := by
      simp only [Semaphore.Vs, Function.iterate_succ_apply']
    rw [hstep, Semaphore.V_queue, Semaphore.V_ready, ih.1, ih.2]
    constructor
    · simp [List.drop_drop, Nat.add_comm]
    · rw [List.append_assoc, take_succ_append]

theorem Condition.Signals_spec (k : Nat) (c : Condition) (g : Scheduler) :
    (Condition.Signals k (c, g)).1.waitqueue = c.waitqueue.drop k ∧
    (Condition.Signals k (c, g)).2.readyList = g.readyList ++ c.waitqueue.take k := by
  induction k with
  | zero => simp [Condition.Signals]
  | succ n ih =>
    have hstep : Condition.Signals (n + 1) (c, g) =
        Condition.Signal (Condition.Signals n (c, g)).1 (Condition.Signals n (c, g)).2 := by
      simp only [Condition.Signals, Function.iterate_succ_apply']
    rw [hstep, Condition.Signal_queue, Condition.Signal_ready, ih.1, ih.2]
    constructor
    · simp [List.drop_drop, Nat.add_comm]
    · rw [List.append_assoc, take_succ_append]

theorem Lock.Releases_spec (callers : List Thread) (l : Lock) (g : Scheduler) :
    (Lock.Releases callers (l, g)).1.sleepqueue = l.sleepqueue.drop callers.length ∧
    (Lock.Releases callers (l, g)).2.readyList =
      g.readyList ++ l.sleepqueue.take callers.length := by
  induction callers generalizing l g with
  | nil => simp [Lock.Releases]
  | cons c cs ih =>
    have hstep : Lock.Releases (c :: cs) (l, g) =
        Lock.Releases cs ((l.Release c g).1, (l.Release c g).2) := by
      simp [Lock.Releases]
    rw [hstep]
    obtain ⟨h1, h2⟩ := ih (l.Release c g).1 (l.Release c g).2
    rw [h1, h2, Lock.Release_queue, Lock.Release_ready]
    constructor
    · simp [List.drop_drop, Nat.add_comm]
    · cases hq : l.sleepqueue with
      | nil => simp
      | cons x xs => simp

/-- The semaphore invariant of the data model: as many sleepers as the value is below zero. -/
theorem Semaphore.call_balance (st : Semaphore × Scheduler) (c : SemCall)
    (h : (st.1.queue.length : Int) = max 0 (-st.1.value)) :
    ((Semaphore.call st c).1.queue.length : Int) = max 0 (-(Semaphore.call st c).1.value) := by
  cases c with
  | P t =>
    simp only [Semaphore.call, Semaphore.P_value, Semaphore.P_queue]
    split
    · simp only [List.length_append, List.length_singleton, Nat.cast_add, Nat.cast_one]
      omega
    · omega
  | V =>
    simp only [Semaphore.call, Semaphore.V_value, Semaphore.V_queue, List.length_drop]
    omega

theorem Semaphore.call_value (st : Semaphore × Scheduler) (c : SemCall) :
    (Semaphore.call st c).1.value =
      st.1.value + (SemCall.countV [c] : Int) - (SemCall.countP [c] : Int) := by
  cases c with
  | P t => simp [Semaphore.call, Semaphore.P_value, SemCall.countV, SemCall.countP]
  | V => simp [Semaphore.call, Semaphore.V_value, SemCall.countV, SemCall.countP]

theorem SemCall.countV_cons (c : SemCall) (cs : List SemCall) :
    SemCall.countV (c :: cs) = SemCall.countV [c] + SemCall.countV cs := by
  unfold SemCall.countV
  by_cases h : c = SemCall.V <;> simp [List.filter_cons, h]; omega

theorem SemCall.countP_cons (c : SemCall) (cs : List SemCall) :
    SemCall.countP (c :: cs) = SemCall.countP [c] + SemCall.countP cs := by
  unfold SemCall.countP
  by_cases h : c = SemCall.V <;> simp [List.filter_cons, h]; omega

theorem Semaphore.calls_balance (cs : List SemCall) (st : Semaphore × Scheduler)
    (h : (st.1.queue.length : Int) = max 0 (-st.1.value)) :
    (Semaphore.calls st cs).1.value =
      st.1.value + (SemCall.countV cs : Int) - (SemCall.countP cs : Int) ∧
    ((Semaphore.calls st cs).1.queue.length : Int) = max 0 (-(Semaphore.calls st cs).1.value) := by
  induction cs generalizing st with
  | nil => simp [Semaphore.calls, SemCall.countV, SemCall.countP, h]
  | cons c cs ih =>
    have hstep : Semaphore.calls st (c :: cs) = Semaphore.calls (Semaphore.call st c) cs := by
      simp [Semaphore.calls]
    obtain ⟨h1, h2⟩ := ih (Semaphore.call st c) (Semaphore.call_balance st c h)
    rw [hstep]
    refine ⟨?_, h2⟩
    have hv := SemCall.countV_cons c cs
    have hp := SemCall.countP_cons c cs
    have hc := Semaphore.call_value st c
    omega

end SynchLemmas

section LockLemmas

theorem Lock.wellFormed_create : Lock.create.wellFormed := by
  simp [Lock.wellFormed, Lock.create]

theorem Lock.wellFormed_Acquire (l : Lock) (t : Thread) (h : l.wellFormed) :
    (l.Acquire t).wellFormed := by
  unfold Lock.wellFormed at *
  unfold Lock.Acquire
  by_cases hf : l.free = true
  · simp only [hf, if_true]
    refine ⟨by simp, ?_⟩
    intro hq
    have := h.2 hq
    simp [hf] at this
  · simp only [hf]
    have hff : l.free = false := by simpa using hf
    simp [hff, h.1.symm]

theorem Lock.wellFormed_Release (l : Lock) (t : Thread) (g : Scheduler) :
    (l.Release t g).1.wellFormed := by
  unfold Lock.wellFormed
  rw [Lock.Release_free, Lock.Release_owner, Lock.Release_queue]
  cases hq : l.sleepqueue with
  | nil => simp
  | cons x xs => simp

theorem LockUse.call_lock_wellFormed (u : LockUse) (c : LockCall) (h : u.lock.wellFormed) :
    (u.call c).lock.wellFormed := by
  cases c with
  | Acquire t => exact Lock.wellFormed_Acquire u.lock t h
  | Release t => exact Lock.wellFormed_Release u.lock t u.sched

theorem LockUse.calls_lock_wellFormed (cs : List LockCall) (u : LockUse)
    (h : u.lock.wellFormed) : (u.calls cs).lock.wellFormed := by
  induction cs generalizing u with
  | nil => simpa [LockUse.calls] using h
  | cons c cs ih =>
    have hstep : u.calls (c :: cs) = (u.call c).calls cs := by simp [LockUse.calls]
    rw [hstep]
    exact ih (u.call c) (LockUse.call_lock_wellFormed u c h)

theorem LockUse.exclusive_call (u : LockUse) (c : LockCall) (h : u.exclusive)
    (hc : LockUse.releasedByOwner u [c] = true) : (u.call c).exclusive := by
  refine ⟨LockUse.call_lock_wellFormed u c h.1, ?_⟩
  obtain ⟨hw, hin⟩ := h
  cases c with
  | Acquire t =>
    simp only [LockUse.call, Lock.Acquire]
    by_cases hf : u.lock.free = true
    · have hno : u.lock.owner = none := hw.1.mp hf
      simp [hf, hin, hno]
    · simp [hf, hin]
  | Release t =>
    have hown : u.lock.owner = some t := by
      simpa [LockUse.releasedByOwner] using hc
    simp only [LockUse.call, Lock.Release_ready, Lock.Release_owner, List.drop_left, hin, hown]
    cases hq : u.lock.sleepqueue with
    | nil => simp
    | cons x xs => simp

theorem LockUse.exclusive_calls (cs : List LockCall) (u : LockUse) (h : u.exclusive)
    (hc : LockUse.releasedByOwner u cs = true) : (u.calls cs).exclusive := by
  induction cs generalizing u with
  | nil => simpa [LockUse.calls] using h
  | cons c cs ih =>
    have hstep : u.calls (c :: cs) = (u.call c).calls cs := by simp [LockUse.calls]
    rw [hstep]
    have h1 : LockUse.releasedByOwner u [c] = true ∧
        LockUse.releasedByOwner (u.call c) cs = true := by
      cases c with
      | Acquire t => simpa [LockUse.releasedByOwner] using hc
      | Release t => simpa [LockUse.releasedByOwner] using hc
    exact ih (u.call c) (LockUse.exclusive_call u c h h1.1) h1.2

theorem LockUse.exclusive_create : LockUse.create.exclusive := by
  simp [LockUse.exclusive, LockUse.create, Lock.wellFormed, Lock.create]

end LockLemmas

/-- C5 (P/V balance).  For a semaphore constructed with initial value `v0 ≥ 0` and any finite
sequence of `P` and `V` calls (whoever the callers of `P` are, so in particular when none of
them is already blocked), the value at the end is `v0 + #V - #P` and the number of threads
still in the queue is `max 0 (-value)`. -/
theorem Semaphore.pv_balance (v0 : Int) (hv0 : 0 ≤ v0) (g : Scheduler) (cs : List SemCall) :
    (Semaphore.calls (Semaphore.create v0, g) cs).1.value =
      v0 + (SemCall.countV cs : Int) - (SemCall.countP cs : Int) ∧
    ((Semaphore.calls (Semaphore.create v0, g) cs).1.queue.length : Int) =
      max 0 (-(Semaphore.calls (Semaphore.create v0, g) cs).1.value) := by
  have h0 : (((Semaphore.create v0, g) : Semaphore × Scheduler).1.queue.length : Int) =
      max 0 (-((Semaphore.create v0, g) : Semaphore × Scheduler).1.value) := by
    simp only [Semaphore.create, List.length_nil, Nat.cast_zero]
    omega
  exact Semaphore.calls_balance cs (Semaphore.create v0, g) h0

/-- Witness of C5: initial value 1, calls P, P, P, V, P by threads 1, 2, 3, 4. -/
theorem Semaphore.pv_balance_witness :
    (0 : Int) ≤ 1 ∧
    (Semaphore.calls (Semaphore.create 1, { readyList := [] })
        [SemCall.P 1, SemCall.P 2, SemCall.P 3, SemCall.V, SemCall.P 4]).1 =
      { value := -2, queue := [3, 4] } ∧
    (Semaphore.calls (Semaphore.create 1, { readyList := [] })
        [SemCall.P 1, SemCall.P 2, SemCall.P 3, SemCall.V, SemCall.P 4]).1.value =
      1 + (SemCall.countV
        [SemCall.P 1, SemCall.P 2, SemCall.P 3, SemCall.V, SemCall.P 4] : Int) -
      (SemCall.countP [SemCall.P 1, SemCall.P 2, SemCall.P 3, SemCall.V, SemCall.P 4] : Int) :=
  ⟨by decide, by decide,
    (Semaphore.pv_balance 1 (by decide) { readyList := [] }
      [SemCall.P 1, SemCall.P 2, SemCall.P 3, SemCall.V, SemCall.P 4]).1⟩

/-- C6 (FIFO wakeup).  On each of the three primitives, when `T1` and then `T2` block (`P` on a
semaphore whose value is not positive, `Acquire` on a lock that is not free, `Wait`), they are
appended in that order behind the threads `q` already waiting, and `k` wake-up calls (`V`,
`Release`, `Signal`) hand exactly the first `k` threads of `q ++ [T1, T2]` to `ReadyToRun`, in
queue order, leaving the others queued: each wake-up removes the earliest-blocked thread, `T1` is
woken before `T2`, and with no earlier waiter the next two wake-ups wake `T1`, then `T2`. -/
theorem fifo_wakeup (s : Semaphore) (l : Lock) (c : Condition) (g : Scheduler) (T1 T2 : Thread)
    (k : Nat) (callers : List Thread) (hs : s.value ≤ 0) (hl : l.free = false) :
    (((s.P T1).P T2).queue = s.queue ++ [T1, T2] ∧
      (Semaphore.Vs k ((s.P T1).P T2, g)).2.readyList =
        g.readyList ++ (s.queue ++ [T1, T2]).take k ∧
      (Semaphore.Vs k ((s.P T1).P T2, g)).1.queue = (s.queue ++ [T1, T2]).drop k ∧
      (s.queue = [] →
        (Semaphore.Vs 2 ((s.P T1).P T2, g)).2.readyList = g.readyList ++ [T1, T2])) ∧
    (((l.Acquire T1).Acquire T2).sleepqueue = l.sleepqueue ++ [T1, T2] ∧
      (Lock.Releases callers ((l.Acquire T1).Acquire T2, g)).2.readyList =
        g.readyList ++ (l.sleepqueue ++ [T1, T2]).take callers.length ∧
      (Lock.Releases callers ((l.Acquire T1).Acquire T2, g)).1.sleepqueue =
        (l.sleepqueue ++ [T1, T2]).drop callers.length ∧
      (l.sleepqueue = [] → callers.length = 2 →
        (Lock.Releases callers ((l.Acquire T1).Acquire T2, g)).2.readyList =
          g.readyList ++ [T1, T2])) ∧
    (((c.Wait T1).Wait T2).waitqueue = c.waitqueue ++ [T1, T2] ∧
      (Condition.Signals k ((c.Wait T1).Wait T2, g)).2.readyList =
        g.readyList ++ (c.waitqueue ++ [T1, T2]).take k ∧
      (Condition.Signals k ((c.Wait T1).Wait T2, g)).1.waitqueue =
        (c.waitqueue ++ [T1, T2]).drop k ∧
      (c.waitqueue = [] →
        (Condition.Signals 2 ((c.Wait T1).Wait T2, g)).2.readyList =
          g.readyList ++ [T1, T2])) := by
  have hsq : ((s.P T1).P T2).queue = s.queue ++ [T1, T2] := by
    rw [Semaphore.P_queue, Semaphore.P_value, Semaphore.P_queue]
    rw [if_pos (by omega), if_pos (by omega)]
    simp
  have hlq : ((l.Acquire T1).Acquire T2).sleepqueue = l.sleepqueue ++ [T1, T2] := by
    simp [Lock.Acquire, hl, Listint.Append]
  have hcq : ((c.Wait T1).Wait T2).waitqueue = c.waitqueue ++ [T1, T2] := by
    simp [Condition.Wait, Listint.Append]
  refine ⟨⟨hsq, ?_, ?_, ?_⟩, ⟨hlq, ?_, ?_, ?_⟩, ⟨hcq, ?_, ?_, ?_⟩⟩
  · rw [(Semaphore.Vs_spec k _ g).2, hsq]
  · rw [(Semaphore.Vs_spec k _ g).1, hsq]
  · intro hq
    rw [(Semaphore.Vs_spec 2 _ g).2, hsq, hq]
    simp
  · rw [(Lock.Releases_spec callers _ g).2, hlq]
  · rw [(Lock.Releases_spec callers _ g).1, hlq]
  · intro hq hlen
    rw [(Lock.Releases_spec callers _ g).2, hlq, hq, hlen]
    simp
  · rw [(Condition.Signals_spec k _ g).2, hcq]
  · rw [(Condition.Signals_spec k _ g).1, hcq]
  · intro hq
    rw [(Condition.Signals_spec 2 _ g).2, hcq, hq]
    simp

/-- Witness of C6: threads 1 and 2 block on a semaphore of value 0, on a lock held by thread 9
and on a condition, each with no earlier waiter; two wake-ups deliver 1, then 2. -/
theorem fifo_wakeup_witness :
    ((0 : Int) ≤ 0 ∧ false = false) ∧
    (Semaphore.Vs 2 (((Semaphore.create 0).P 1).P 2, { readyList := [] })).2.readyList = [1, 2] ∧
    (Lock.Releases [9, 1] (((Lock.create.Acquire 9).Acquire 1).Acquire 2,
      { readyList := [] })).2.readyList = [1, 2] ∧
    (Condition.Signals 2 ((Condition.create.Wait 1).Wait 2, { readyList := [] })).2.readyList =
      [1, 2] := by
  have h := fifo_wakeup (Semaphore.create 0) (Lock.create.Acquire 9) Condition.create
    { readyList := [] } 1 2 2 [9, 1] (by decide) (by decide)
  exact ⟨⟨by decide, rfl⟩, h.1.2.2.2 rfl, h.2.1.2.2.2 rfl rfl, h.2.2.2.2.2 rfl⟩

/-- C7 (Release by a thread that is not the owner).  The code at the failing input: on a lock
held by thread 1 with nobody waiting, `Release` called by thread 2 returns, and it leaves the
lock free and ownerless; whoever calls, the outcome of `Release` is the same. -/
theorem Lock.Release_by_non_owner :
    ({ free := false, owner := some 1, sleepqueue := [] } : Lock).owner ≠ some 2 ∧
    (({ free := false, owner := some 1, sleepqueue := [] } : Lock).Release 2
        { readyList := [] }).1 = { free := true, owner := none, sleepqueue := [] } ∧
    (∀ (l : Lock) (t t2 : Thread) (g : Scheduler), l.Release t g = l.Release t2 g) :=
  ⟨by decide, by decide, fun _ _ _ _ => rfl⟩

/-- C8 (lock mutual exclusion).  After any sequence of `Acquire` and `Release` calls on a fresh
lock in which every `Release` is issued by the owner of the moment, at most one thread is inside
the critical section, the threads inside are exactly those for which `isHeldByCurrentThread()`
is true, and no two distinct threads both see `isHeldByCurrentThread()` true. -/
theorem Lock.mutual_exclusion (cs : List LockCall)
    (h : LockUse.releasedByOwner LockUse.create cs = true) :
    (LockUse.create.calls cs).inside.length ≤ 1 ∧
    (∀ t : Thread, t ∈ (LockUse.create.calls cs).inside ↔
      (LockUse.create.calls cs).lock.isHeldByCurrentThread t = true) ∧
    (∀ t1 t2 : Thread, (LockUse.create.calls cs).lock.isHeldByCurrentThread t1 = true →
      (LockUse.create.calls cs).lock.isHeldByCurrentThread t2 = true → t1 = t2) := by
  obtain ⟨_, hin⟩ := LockUse.exclusive_calls cs LockUse.create LockUse.exclusive_create h
  rw [hin]
  unfold Lock.isHeldByCurrentThread
  cases (LockUse.create.calls cs).lock.owner with
  | none => simp
  | some o =>
    refine ⟨by simp, ?_, ?_⟩
    · intro t
      simp [eq_comm]
    · intro t1 t2 h1 h2
      simp only [decide_eq_true_eq] at h1 h2
      exact Option.some.inj (h1.trans h2.symm)

/-- Witness of C8: thread 1 acquires, 2 and 3 queue up, 1 releases (2 enters), 2 releases
(3 enters). -/
theorem Lock.mutual_exclusion_witness :
    LockUse.releasedByOwner LockUse.create
      [LockCall.Acquire 1, LockCall.Acquire 2, LockCall.Acquire 3, LockCall.Release 1,
        LockCall.Release 2] = true ∧
    (LockUse.create.calls
      [LockCall.Acquire 1, LockCall.Acquire 2, LockCall.Acquire 3, LockCall.Release 1,
        LockCall.Release 2]).inside = [3] ∧
    (LockUse.create.calls
      [LockCall.Acquire 1, LockCall.Acquire 2, LockCall.Acquire 3, LockCall.Release 1,
        LockCall.Release 2]).inside.length ≤ 1 :=
  ⟨by decide, by decide,
    (Lock.mutual_exclusion
      [LockCall.Acquire 1, LockCall.Acquire 2, LockCall.Acquire 3, LockCall.Release 1,
        LockCall.Release 2] (by decide)).1⟩

/-- C9 (lock state invariant).  After any sequence of `Acquire` and `Release` calls on a fresh
lock, by whatever callers, `free` holds exactly when `owner` is none, and the wait queue is
non-empty only when the lock is not free. -/
theorem Lock.state_invariant (cs : List LockCall) :
    ((LockUse.create.calls cs).lock.free = true ↔ (LockUse.create.calls cs).lock.owner = none) ∧
    ((LockUse.create.calls cs).lock.sleepqueue ≠ [] →
      (LockUse.create.calls cs).lock.free = false) :=
  LockUse.calls_lock_wellFormed cs LockUse.create Lock.wellFormed_create

/-- Witness of C9: after Acquire by 1 and by 2 the queue is not empty and the lock is held. -/
theorem Lock.state_invariant_witness :
    (LockUse.create.calls [LockCall.Acquire 1, LockCall.Acquire 2]).lock.sleepqueue ≠ [] ∧
    (LockUse.create.calls [LockCall.Acquire 1, LockCall.Acquire 2]).lock.free = false :=
  ⟨by decide,
    (Lock.state_invariant [LockCall.Acquire 1, LockCall.Acquire 2]).2 (by decide)⟩

/-- C10 (Release hand-off).  Whatever `free` and `owner` were and whoever calls: with an empty
wait queue `Release` leaves the lock free and ownerless and calls `ReadyToRun` for nobody; with
wait queue `h :: rest` it makes `h` the owner, leaves the lock not free, hands `h` and only `h`
to `ReadyToRun`, and leaves `rest` queued in the same order. -/
theorem Lock.Release_handoff (free : Bool) (owner : Option Thread) (t : Thread)
    (g : Scheduler) :
    Lock.Release { free := free, owner := owner, sleepqueue := [] } t g =
      ({ free := true, owner := none, sleepqueue := [] }, g) ∧
    (∀ (h : Thread) (rest : List Thread),
      Lock.Release { free := free, owner := owner, sleepqueue := h :: rest } t g =
        ({ free := false, owner := some h, sleepqueue := rest },
          { readyList := g.readyList ++ [h] })) :=
  ⟨rfl, fun _ _ => rfl⟩

/-! ## Theorems: `vm/physMem.cc` -/

section MemLemmas

open PhysicalMemManager

theorem PhysicalMemManager.frame_ok_iff (m : PhysicalMemManager) (i : Int) (r : tpr_c) :
    m.frame i = Except.ok r ↔ 0 ≤ i ∧ m.tpr[i.toNat]? = some r := by
  unfold PhysicalMemManager.frame
  by_cases hi : 0 ≤ i
  · simp only [hi, if_true, true_and]
    cases hg : m.tpr[i.toNat]? with
    | none => simp
    | some x => simp
  · simp [hi]

theorem PhysicalMemManager.frame_mem (m : PhysicalMemManager) (i : Int) (r : tpr_c)
    (h : m.frame i = Except.ok r) : r ∈ m.tpr := by
  rw [PhysicalMemManager.frame_ok_iff] at h
  exact List.getElem?_mem h.2

theorem PhysicalMemManager.frame_lt (m : PhysicalMemManager) (i : Int) (r : tpr_c)
    (h : m.frame i = Except.ok r) : 0 ≤ i ∧ i < m.NumPhysPages := by
  rw [PhysicalMemManager.frame_ok_iff] at h
  obtain ⟨h0, hg⟩ := h
  have hlt : i.toNat < m.tpr.length := by
    rcases List.getElem?_eq_some_iff.mp hg with ⟨hl, _⟩
    exact hl
  unfold PhysicalMemManager.NumPhysPages
  omega

theorem PhysicalMemManager.frame_setFrame (m : PhysicalMemManager) (i : Int) (r0 r : tpr_c)
    (h : m.frame i = Except.ok r0) : (m.setFrame i r).frame i = Except.ok r := by
  rw [PhysicalMemManager.frame_ok_iff] at h ⊢
  obtain ⟨h0, hg⟩ := h
  have hlt : i.toNat < m.tpr.length := by
    rcases List.getElem?_eq_some_iff.mp hg with ⟨hl, _⟩
    exact hl
  refine ⟨h0, ?_⟩
  simp [PhysicalMemManager.setFrame, List.getElem?_set, hlt]

theorem PhysicalMemManager.framesApart_setFrame (m : PhysicalMemManager) (i : Int) (r : tpr_c)
    (h : m.framesApart) (hr : r.lockInvariant) : (m.setFrame i r).framesApart := by
  intro x hx
  rcases List.mem_or_eq_of_mem_set hx with hmem | heq
  · exact h x hmem
  · rw [heq]
    exact hr

theorem PhysicalMemManager.EvictPage_advance_spec (m : PhysicalMemManager) (l cnt : Int)
    (found : Bool) (a : AddrSpace) (v : Int) (st : ScanStep)
    (h : EvictPage_advance m l cnt found a v = Except.ok st) :
    st.next.m = m ∧ st.found = found ∧ st.tt = a ∧ st.pVirt = v ∧
    (found = true → st.next.local_i_clock = l ∧ st.next.count = cnt) ∧
    (found = false → m.NumPhysPages - 1 ≠ 0 ∧
      st.next.local_i_clock = Int.tmod (l + 1) (m.NumPhysPages - 1) ∧
      st.next.count = cnt + 1) := by
  unfold EvictPage_advance at h
  cases found with
  | true =>
    simp only [if_true, Except.ok.injEq] at h
    subst h
    simp
  | false =>
    by_cases hz : m.NumPhysPages - 1 = 0
    · simp [hz] at h
    · simp only [Bool.false_eq_true, if_false, hz, Except.ok.injEq] at h
      subst h
      simp [hz]

theorem PhysicalMemManager.EvictPage_body_spec (c : ClockScan) (st : ScanStep)
    (h : EvictPage_body c = Except.ok st) :
    ∃ (p : tpr_c) (a : AddrSpace) (tt : TranslationTable),
      c.m.frame c.local_i_clock = Except.ok p ∧ p.owner = some a ∧
      c.m.translationTable a = some tt ∧
      st.found = (!tt.getBitU p.virtualPage && (p.locked == false)) ∧
      st.tt = a ∧ st.pVirt = p.virtualPage ∧
      st.next.m.tpr = c.m.tpr ∧
      st.next.m.free_page_list = c.m.free_page_list ∧
      st.next.m.translationTable =
        Function.update c.m.translationTable a (some (tt.clearBitU p.virtualPage)) ∧
      (st.found = true → c.inBounds → st.next.local_i_clock = c.local_i_clock) ∧
      (st.found = false → c.inBounds → st.next.inBounds) := by
  unfold EvictPage_body at h
  cases hp : c.m.frame c.local_i_clock with
  | error e => simp [hp] at h
  | ok p =>
    simp only [hp] at h
    cases ho : p.owner with
    | none => simp [ho] at h
    | some a =>
      simp only [ho] at h
      cases ht : c.m.translationTable a with
      | none => simp [ht] at h
      | some tt =>
        simp only [ht] at h
        have hrange := PhysicalMemManager.frame_lt c.m c.local_i_clock p hp
        refine ⟨p, a, tt, rfl, ho, ht, ?_⟩
        have hN : (c.m.setTable a (tt.clearBitU p.virtualPage)).NumPhysPages =
            c.m.NumPhysPages := rfl
        by_cases hc : c.count = c.m.NumPhysPages - 1
        · simp only [hN, hc, if_true] at h
          by_cases hz : c.m.NumPhysPages - 1 = 0
          · exfalso
            have hN2 : PhysicalMemManager.NumPhysPages
                { (c.m.setTable a (tt.clearBitU p.virtualPage)) with
                  i_clock := c.local_i_clock } = c.m.NumPhysPages := rfl
            simp [hN2, hz] at h
          · have hN2 : PhysicalMemManager.NumPhysPages
                { (c.m.setTable a (tt.clearBitU p.virtualPage)) with
                  i_clock := c.local_i_clock } = c.m.NumPhysPages := rfl
            simp only [hN2, hz, if_false] at h
            obtain ⟨hm, hf, hta, hv, hT, hF⟩ :=
              PhysicalMemManager.EvictPage_advance_spec _ _ _ _ _ _ _ h
            refine ⟨hf, hta, hv, by rw [hm]; rfl, by rw [hm]; rfl, by rw [hm]; rfl, ?_, ?_⟩
            · intro hfound hI
              rw [hf] at hfound
              rw [(hT hfound).1]
              have hcpos : 0 < c.count := by
                have := hI.1
                omega
              have hb := hI.2 hcpos
              exact Int.tmod_eq_of_lt hb.2.1 hb.2.2
            · intro hfound hI
              rw [hf] at hfound
              obtain ⟨_, hl0, hcnt⟩ := hF hfound
              have hNm : st.next.m.NumPhysPages = c.m.NumPhysPages := by rw [hm]; rfl
              have hl : st.next.local_i_clock =
                  Int.tmod (Int.tmod c.local_i_clock (c.m.NumPhysPages - 1) + 1)
                    (c.m.NumPhysPages - 1) := hl0
              unfold PhysicalMemManager.ClockScan.inBounds
              rw [hl, hcnt, hNm]
              have hpos : 0 < c.m.NumPhysPages - 1 := by omega
              have h1 : 0 ≤ Int.tmod c.local_i_clock (c.m.NumPhysPages - 1) :=
                Int.tmod_nonneg _ hrange.1
              refine ⟨by omega, fun _ => ⟨by omega, ?_, ?_⟩⟩
              · exact Int.tmod_nonneg _ (by omega)
              · exact Int.tmod_lt_of_pos _ hpos
        · simp only [hN, hc, if_false] at h
          obtain ⟨hm, hf, hta, hv, hT, hF⟩ :=
            PhysicalMemManager.EvictPage_advance_spec _ _ _ _ _ _ _ h
          refine ⟨hf, hta, hv, by rw [hm]; rfl, by rw [hm]; rfl, by rw [hm]; rfl, ?_, ?_⟩
          · intro hfound _
            rw [hf] at hfound
            exact (hT hfound).1
          · intro hfound hI
            rw [hf] at hfound
            obtain ⟨hz0, hl0, hcnt⟩ := hF hfound
            have hNm : st.next.m.NumPhysPages = c.m.NumPhysPages := by rw [hm]; rfl
            have hz : c.m.NumPhysPages - 1 ≠ 0 := hz0
            have hl : st.next.local_i_clock =
                Int.tmod (c.local_i_clock + 1) (c.m.NumPhysPages - 1) := hl0
            unfold PhysicalMemManager.ClockScan.inBounds
            rw [hl, hcnt, hNm]
            have hc0 := hI.1
            have hpos : 0 < c.m.NumPhysPages - 1 := by omega
            refine ⟨by omega, fun _ => ⟨?_, ?_, ?_⟩⟩
            · by_cases hcp : 0 < c.count
              · have := (hI.2 hcp).1
                omega
              · omega
            · exact Int.tmod_nonneg _ (by omega)
            · exact Int.tmod_lt_of_pos _ hpos

theorem PhysicalMemManager.EvictPage_finish_spec (c : ClockScan) (a : AddrSpace) (v : Int)
    (f : Int) (m2 : PhysicalMemManager) (h : EvictPage_finish c a v = Except.ok (f, m2)) :
    f = c.local_i_clock ∧ m2.tpr = c.m.tpr ∧ m2.free_page_list = c.m.free_page_list ∧
    m2.i_clock = c.local_i_clock := by
  unfold EvictPage_finish at h
  dsimp only at h
  cases ht : c.m.translationTable a with
  | none => simp [ht] at h
  | some tt =>
    simp only [ht] at h
    by_cases hM : tt.getBitM v = true
    · simp only [hM, if_true, Except.ok.injEq, Prod.mk.injEq] at h
      obtain ⟨h1, h2⟩ := h
      subst h2
      exact ⟨h1.symm, rfl, rfl, rfl⟩
    · simp only [hM, Bool.false_eq_true, if_false, Except.ok.injEq, Prod.mk.injEq] at h
      obtain ⟨h1, h2⟩ := h
      subst h2
      exact ⟨h1.symm, rfl, rfl, rfl⟩

theorem PhysicalMemManager.frame_congr (m1 m2 : PhysicalMemManager) (i : Int)
    (h : m1.tpr = m2.tpr) : m1.frame i = m2.frame i := by
  unfold PhysicalMemManager.frame
  rw [h]

theorem PhysicalMemManager.EvictPage_loop_spec (fuel : Nat) (c : ClockScan) (hI : c.inBounds)
    (f : Int) (m2 : PhysicalMemManager) (h : EvictPage_loop fuel c = Except.ok (f, m2)) :
    ∃ (k : Nat) (c2 : ClockScan) (p : tpr_c),
      k < fuel ∧ EvictPage_scan k c = some c2 ∧ c2.local_i_clock = f ∧ c2.selects p ∧
      c2.m.tpr = c.m.tpr ∧ m2.tpr = c.m.tpr ∧ m2.free_page_list = c.m.free_page_list := by
  induction fuel generalizing c with
  | zero => simp [EvictPage_loop] at h
  | succ n ih =>
    unfold EvictPage_loop at h
    cases hb : EvictPage_body c with
    | error e => simp [hb] at h
    | ok st =>
      simp only [hb] at h
      obtain ⟨p, a, tt, hp, ho, ht, hfound, _, _, htpr, hfl, _, hsel, hnext⟩ :=
        PhysicalMemManager.EvictPage_body_spec c st hb
      by_cases hf : st.found = true
      · simp only [hf, if_true] at h
        obtain ⟨h1, h2, h3, _⟩ := PhysicalMemManager.EvictPage_finish_spec _ _ _ _ _ h
        have hloc := hsel hf hI
        have hbits : tt.getBitU p.virtualPage = false ∧ p.locked = false := by
          rw [hf] at hfound
          simpa using hfound.symm
        refine ⟨0, c, p, Nat.succ_pos n, rfl, ?_, ⟨hp, hbits.2, a, tt, ho, ht, hbits.1⟩, rfl,
          h2.trans htpr, h3.trans hfl⟩
        rw [h1, hloc]
      · have hff : st.found = false := by simpa using hf
        simp only [hff, Bool.false_eq_true, if_false] at h
        obtain ⟨k, c2, p2, hk, hscan, hloc, hselects, ht2, hm2, hfl2⟩ :=
          ih st.next (hnext hff hI) h
        refine ⟨k + 1, c2, p2, Nat.succ_lt_succ hk, ?_, hloc, hselects, ht2.trans htpr,
          hm2.trans htpr, hfl2.trans hfl⟩
        simp only [EvictPage_scan, hb, hff, Bool.false_eq_true, if_false]
        exact hscan

theorem PhysicalMemManager.FindFreePage_spec (m : PhysicalMemManager) (page : Int)
    (m2 : PhysicalMemManager) (h : m.FindFreePage = Except.ok (page, m2)) :
    (page = -1 ∧ m2 = m ∧ m.free_page_list = []) ∨
    (∃ (r : tpr_c) (rest : List Int), m.free_page_list = page :: rest ∧
      m.frame page = Except.ok r ∧ r.free = true ∧
      m2 = ({ m with free_page_list := rest } : PhysicalMemManager).setFrame page
        { r with free := false }) := by
  unfold PhysicalMemManager.FindFreePage Listint.IsEmpty Listint.Remove at h
  cases hq : m.free_page_list with
  | nil =>
    simp only [hq, List.isEmpty_nil, if_true, Except.ok.injEq, Prod.mk.injEq] at h
    exact Or.inl ⟨h.1.symm, h.2.symm, rfl⟩
  | cons x rest =>
    simp only [hq, List.isEmpty_cons, Bool.false_eq_true, if_false] at h
    have hfr : PhysicalMemManager.frame
        { m with free_page_list := rest } x = m.frame x := rfl
    rw [hfr] at h
    cases hp : m.frame x with
    | error e => simp [hp] at h
    | ok r =>
      simp only [hp] at h
      by_cases hfree : r.free = true
      · simp only [hfree, if_true, Except.ok.injEq, Prod.mk.injEq] at h
        obtain ⟨h1, h2⟩ := h
        subst h1
        exact Or.inr ⟨r, rest, rfl, hp, hfree, h2.symm⟩
      · simp [hfree] at h

theorem PhysicalMemManager.AddPhysicalToVirtualMapping_spec (fuel : Nat)
    (m : PhysicalMemManager) (owner : Option AddrSpace) (v : Int) (f : Int)
    (m2 : PhysicalMemManager)
    (h : m.AddPhysicalToVirtualMapping fuel owner v = Except.ok (f, m2)) :
    ∃ (m1 : PhysicalMemManager) (r : tpr_c),
      ((f ≠ -1 ∧ m.FindFreePage = Except.ok (f, m1)) ∨
        (∃ m0, m.FindFreePage = Except.ok (-1, m0) ∧ m0.EvictPage fuel = Except.ok (f, m1))) ∧
      m1.frame f = Except.ok r ∧
      m2 = m1.setFrame f
        { r with owner := owner, virtualPage := v, free := false, locked := true } := by
  unfold PhysicalMemManager.AddPhysicalToVirtualMapping at h
  cases hff : m.FindFreePage with
  | error e => simp [hff] at h
  | ok pr =>
    obtain ⟨page0, m0⟩ := pr
    simp only [hff] at h
    by_cases hp0 : page0 = -1
    · simp only [hp0, if_true] at h
      cases hev : m0.EvictPage fuel with
      | error e => simp [hev] at h
      | ok pr1 =>
        obtain ⟨page, m1⟩ := pr1
        simp only [hev] at h
        cases hfr : m1.frame page with
        | error e => simp [hfr] at h
        | ok r =>
          simp only [hfr, Except.ok.injEq, Prod.mk.injEq] at h
          obtain ⟨h1, h2⟩ := h
          subst h1
          exact ⟨m1, r, Or.inr ⟨m0, by rw [hp0], hev⟩, hfr, h2.symm⟩
    · simp only [hp0, if_false] at h
      cases hfr : m0.frame page0 with
      | error e => simp [hfr] at h
      | ok r =>
        simp only [hfr, Except.ok.injEq, Prod.mk.injEq] at h
        obtain ⟨h1, h2⟩ := h
        subst h1
        exact ⟨m0, r, Or.inl ⟨hp0, rfl⟩, hfr, h2.symm⟩

theorem PhysicalMemManager.clearValidIfTable_tpr (m : PhysicalMemManager) (a : AddrSpace)
    (v : Int) : (m.clearValidIfTable a v).tpr = m.tpr := by
  unfold PhysicalMemManager.clearValidIfTable
  cases m.translationTable a <;> rfl

theorem PhysicalMemManager.clearValidIfTable_free_page_list (m : PhysicalMemManager)
    (a : AddrSpace) (v : Int) : (m.clearValidIfTable a v).free_page_list = m.free_page_list := by
  unfold PhysicalMemManager.clearValidIfTable
  cases m.translationTable a <;> rfl

theorem PhysicalMemManager.framesApart_congr (m1 m2 : PhysicalMemManager)
    (h : m2.tpr = m1.tpr) (h1 : m1.framesApart) : m2.framesApart := by
  unfold PhysicalMemManager.framesApart at *
  rw [h]
  exact h1

theorem PhysicalMemManager.framesApart_FindFreePage (m : PhysicalMemManager) (page : Int)
    (m2 : PhysicalMemManager) (hI : m.framesApart)
    (h : m.FindFreePage = Except.ok (page, m2)) : m2.framesApart := by
  rcases PhysicalMemManager.FindFreePage_spec m page m2 h with ⟨_, hm, _⟩ | ⟨r, rest, _, hp, hfree, hm⟩
  · rw [hm]
    exact hI
  · rw [hm]
    have hr := hI r (PhysicalMemManager.frame_mem m page r hp)
    refine PhysicalMemManager.framesApart_setFrame _ page _ hI ?_
    exact ⟨fun hx => by simp at hx, fun _ => rfl⟩

theorem PhysicalMemManager.framesApart_EvictPage (fuel : Nat) (m : PhysicalMemManager)
    (f : Int) (m2 : PhysicalMemManager) (hI : m.framesApart)
    (h : m.EvictPage fuel = Except.ok (f, m2)) : m2.framesApart := by
  have h0 : ({ m := m, local_i_clock := m.i_clock, count := 0 } : ClockScan).inBounds :=
    ⟨le_refl 0, fun hc => absurd hc (lt_irrefl 0)⟩
  obtain ⟨_, _, _, _, _, _, _, _, hm2, _⟩ :=
    PhysicalMemManager.EvictPage_loop_spec fuel _ h0 f m2 h
  exact PhysicalMemManager.framesApart_congr m m2 hm2 hI

theorem PhysicalMemManager.framesApart_AddPhysicalToVirtualMapping (fuel : Nat)
    (m : PhysicalMemManager) (owner : Option AddrSpace) (v : Int) (f : Int)
    (m2 : PhysicalMemManager) (hI : m.framesApart)
    (h : m.AddPhysicalToVirtualMapping fuel owner v = Except.ok (f, m2)) : m2.framesApart := by
  obtain ⟨m1, r, hsrc, _, hm2⟩ :=
    PhysicalMemManager.AddPhysicalToVirtualMapping_spec fuel m owner v f m2 h
  have h1 : m1.framesApart := by
    rcases hsrc with ⟨_, hff⟩ | ⟨m0, hff, hev⟩
    · exact PhysicalMemManager.framesApart_FindFreePage m f m1 hI hff
    · exact PhysicalMemManager.framesApart_EvictPage fuel m0 f m1
        (PhysicalMemManager.framesApart_FindFreePage m (-1) m0 hI hff) hev
  rw [hm2]
  exact PhysicalMemManager.framesApart_setFrame _ f _ h1
    ⟨fun hx => by simp at hx, fun _ => rfl⟩

theorem PhysicalMemManager.framesApart_UnlockPage (m : PhysicalMemManager) (n : Int)
    (m2 : PhysicalMemManager) (hI : m.framesApart) (h : m.UnlockPage n = Except.ok m2) :
    m2.framesApart := by
  unfold PhysicalMemManager.UnlockPage at h
  split at h
  · simp at h
  · cases hp : m.frame n with
    | error e => simp [hp] at h
    | ok r =>
      simp only [hp] at h
      split at h
      · simp at h
      · split at h
        · simp at h
        · simp only [Except.ok.injEq] at h
          rw [← h]
          have hr := hI r (PhysicalMemManager.frame_mem m n r hp)
          exact PhysicalMemManager.framesApart_setFrame _ n _ hI
            ⟨fun _ => rfl, fun hx => by simp at hx⟩

theorem PhysicalMemManager.framesApart_ChangeOwner (m : PhysicalMemManager) (n : Int)
    (a : Option AddrSpace) (m2 : PhysicalMemManager) (hI : m.framesApart)
    (h : m.ChangeOwner n a = Except.ok m2) : m2.framesApart := by
  unfold PhysicalMemManager.ChangeOwner at h
  cases hp : m.frame n with
  | error e => simp [hp] at h
  | ok r =>
    simp only [hp, Except.ok.injEq] at h
    rw [← h]
    exact PhysicalMemManager.framesApart_setFrame _ n _ hI
      (hI r (PhysicalMemManager.frame_mem m n r hp))

theorem PhysicalMemManager.Remove_spec (m : PhysicalMemManager) (n : Int)
    (m2 : PhysicalMemManager) (h : m.RemovePhysicalToVirtualMapping n = Except.ok m2) :
    ∃ (r : tpr_c) (a : AddrSpace), m.frame n = Except.ok r ∧ r.free = false ∧
      r.owner = some a ∧
      m2 = { (m.setFrame n { r with free := true, locked := false }).clearValidIfTable a
                r.virtualPage with
              free_page_list := Listint.Prepend m.free_page_list n } := by
  unfold PhysicalMemManager.RemovePhysicalToVirtualMapping at h
  cases hp : m.frame n with
  | error e => simp [hp] at h
  | ok r =>
    simp only [hp] at h
    by_cases hfree : r.free = true
    · simp [hfree] at h
    · simp only [hfree, Bool.false_eq_true, if_false] at h
      cases ho : r.owner with
      | none =>
        rw [ho] at h
        simp at h
      | some a =>
        rw [ho] at h
        simp only [Except.ok.injEq] at h
        refine ⟨r, a, rfl, by simpa using hfree, ho, ?_⟩
        rw [← h, ho, PhysicalMemManager.clearValidIfTable_free_page_list]
        rfl

theorem PhysicalMemManager.framesApart_Remove (m : PhysicalMemManager) (n : Int)
    (m2 : PhysicalMemManager) (hI : m.framesApart)
    (h : m.RemovePhysicalToVirtualMapping n = Except.ok m2) : m2.framesApart := by
  obtain ⟨r, a, _, _, _, hm2⟩ := PhysicalMemManager.Remove_spec m n m2 h
  have hset : (m.setFrame n { r with free := true, locked := false }).framesApart :=
    PhysicalMemManager.framesApart_setFrame _ n _ hI
      ⟨fun _ => rfl, fun hx => by simp at hx⟩
  refine PhysicalMemManager.framesApart_congr _ m2 ?_ hset
  rw [hm2]
  exact PhysicalMemManager.clearValidIfTable_tpr _ a r.virtualPage

theorem PhysicalMemManager.framesApart_call (m : PhysicalMemManager) (c : MemCall)
    (m2 : PhysicalMemManager) (hI : m.framesApart) (h : m.call c = Except.ok m2) :
    m2.framesApart := by
  cases c with
  | FindFreePage =>
    simp only [PhysicalMemManager.call] at h
    cases hr : m.FindFreePage with
    | error e => simp [hr, Except.map] at h
    | ok pr =>
      simp only [hr, Except.map, Except.ok.injEq] at h
      rw [← h]
      exact PhysicalMemManager.framesApart_FindFreePage m pr.1 pr.2 hI hr
  | AddPhysicalToVirtualMapping fuel owner v =>
    simp only [PhysicalMemManager.call] at h
    cases hr : m.AddPhysicalToVirtualMapping fuel owner v with
    | error e => simp [hr, Except.map] at h
    | ok pr =>
      simp only [hr, Except.map, Except.ok.injEq] at h
      rw [← h]
      exact PhysicalMemManager.framesApart_AddPhysicalToVirtualMapping fuel m owner v pr.1 pr.2
        hI hr
  | UnlockPage n => exact PhysicalMemManager.framesApart_UnlockPage m n m2 hI h
  | RemovePhysicalToVirtualMapping n => exact PhysicalMemManager.framesApart_Remove m n m2 hI h
  | ChangeOwner n a => exact PhysicalMemManager.framesApart_ChangeOwner m n a m2 hI h
  | EvictPage fuel =>
    simp only [PhysicalMemManager.call] at h
    cases hr : m.EvictPage fuel with
    | error e => simp [hr, Except.map] at h
    | ok pr =>
      simp only [hr, Except.map, Except.ok.injEq] at h
      rw [← h]
      exact PhysicalMemManager.framesApart_EvictPage fuel m pr.1 pr.2 hI hr

theorem PhysicalMemManager.framesApart_calls (cs : List MemCall) (m m2 : PhysicalMemManager)
    (hI : m.framesApart) (h : m.calls cs = Except.ok m2) : m2.framesApart := by
  induction cs generalizing m with
  | nil =>
    simp only [PhysicalMemManager.calls, Except.ok.injEq] at h
    rw [← h]
    exact hI
  | cons c cs ih =>
    simp only [PhysicalMemManager.calls] at h
    cases hc : m.call c with
    | error e => simp [hc] at h
    | ok m1 =>
      simp only [hc] at h
      exact ih m1 (PhysicalMemManager.framesApart_call m c m1 hI hc) h

theorem PhysicalMemManager.create_tpr_mem (N : Nat) (garbage : Nat → Int)
    (tts : AddrSpace → Option TranslationTable) (sw : SwapManager) (r : tpr_c)
    (h : r ∈ (PhysicalMemManager.create N garbage tts sw).tpr) :
    r.free = true ∧ r.locked = false ∧ r.owner = none := by
  simp only [PhysicalMemManager.create, List.mem_map] at h
  obtain ⟨i, _, hi⟩ := h
  rw [← hi]
  exact ⟨rfl, rfl, rfl⟩

end MemLemmas

/-- C1, counterexample.  On a manager of one frame, `AddPhysicalToVirtualMapping(a, 3)` for
address space `a = 7` followed by `RemovePhysicalToVirtualMapping(0)` leaves frame 0 free with
`owner` still `a`: the frame invariant as the spec words it fails in a reachable state. -/
theorem frame_invariant_counterexample :
    Except.map PhysicalMemManager.tpr
      ((PhysicalMemManager.create 1 (fun _ => 0) (fun _ => none)
          { slotOf := fun n => n, written := [] }).calls
        [MemCall.AddPhysicalToVirtualMapping 0 (some 7) 3,
          MemCall.RemovePhysicalToVirtualMapping 0]) =
      Except.ok [{ free := true, locked := false, virtualPage := 3, owner := some 7 }] ∧
    ¬ ({ free := true, locked := false, virtualPage := 3, owner := some 7 } :
        tpr_c).specInvariant :=
  ⟨rfl, fun h => nomatch (h.1 rfl).2⟩

/-- C1, amended.  In every state reached from the constructor by a sequence of `FindFreePage`,
`AddPhysicalToVirtualMapping`, `UnlockPage`, `RemovePhysicalToVirtualMapping`, `ChangeOwner` and
`EvictPage` calls that return, every frame record satisfies free implies not locked, and locked
implies not free; in the state the constructor builds every record is moreover ownerless (there
the invariant holds as the spec words it). -/
theorem frame_invariant (N : Nat) (garbage : Nat → Int)
    (tts : AddrSpace → Option TranslationTable) (sw : SwapManager) (cs : List MemCall)
    (m : PhysicalMemManager)
    (h : (PhysicalMemManager.create N garbage tts sw).calls cs = Except.ok m) :
    (∀ r ∈ m.tpr, (r.free = true → r.locked = false) ∧ (r.locked = true → r.free = false)) ∧
    (∀ r ∈ (PhysicalMemManager.create N garbage tts sw).tpr, r.specInvariant) := by
  have h0 : (PhysicalMemManager.create N garbage tts sw).framesApart := by
    intro r hr
    obtain ⟨hf, hl, _⟩ := PhysicalMemManager.create_tpr_mem N garbage tts sw r hr
    exact ⟨fun _ => hl, fun hx => by rw [hl] at hx; cases hx⟩
  refine ⟨PhysicalMemManager.framesApart_calls cs _ m h0 h, ?_⟩
  intro r hr
  obtain ⟨hf, hl, ho⟩ := PhysicalMemManager.create_tpr_mem N garbage tts sw r hr
  exact ⟨fun _ => ⟨hl, ho⟩, fun hx => by rw [hl] at hx; cases hx⟩

/-- Witness of C1 (amended): two frames; allocate frame 0, unlock it, release it, allocate
again. -/
theorem frame_invariant_witness :
    ∃ m : PhysicalMemManager,
      (PhysicalMemManager.create 2 (fun _ => 0) (fun _ => none)
          { slotOf := fun n => n, written := [] }).calls
        [MemCall.AddPhysicalToVirtualMapping 0 (some 7) 3, MemCall.UnlockPage 0,
          MemCall.RemovePhysicalToVirtualMapping 0,
          MemCall.AddPhysicalToVirtualMapping 0 (some 8) 5] = Except.ok m ∧
      m.tpr = [{ free := false, locked := true, virtualPage := 5, owner := some 8 },
               { free := true, locked := false, virtualPage := 0, owner := none }] ∧
      ∀ r ∈ m.tpr, (r.free = true → r.locked = false) ∧ (r.locked = true → r.free = false) :=
  ⟨_, rfl, rfl,
    (frame_invariant 2 (fun _ => 0) (fun _ => none) { slotOf := fun n => n, written := [] }
      [MemCall.AddPhysicalToVirtualMapping 0 (some 7) 3, MemCall.UnlockPage 0,
        MemCall.RemovePhysicalToVirtualMapping 0,
        MemCall.AddPhysicalToVirtualMapping 0 (some 8) 5] _ rfl).1⟩

/-- C2 (locked on return).  Whenever `AddPhysicalToVirtualMapping(a, v)` returns frame `f`, be it
taken from the free list or obtained from `EvictPage`, the record of `f` in the resulting state
has `locked = true`, `owner = a`, `virtualPage = v` and `free = false`. -/
theorem AddPhysicalToVirtualMapping_locked_on_return (fuel : Nat) (m : PhysicalMemManager)
    (a : Option AddrSpace) (v : Int) (f : Int) (m2 : PhysicalMemManager)
    (h : m.AddPhysicalToVirtualMapping fuel a v = Except.ok (f, m2)) :
    m2.frame f = Except.ok { free := false, locked := true, virtualPage := v, owner := a } := by
  obtain ⟨m1, r, _, hfr, hm2⟩ :=
    PhysicalMemManager.AddPhysicalToVirtualMapping_spec fuel m a v f m2 h
  rw [hm2]
  exact PhysicalMemManager.frame_setFrame m1 f r _ hfr

/-- Witness of C2: once with a frame from the free list (fresh manager of two frames, frame 0),
once with a frame from eviction (full table of four frames, hand at 2, frame 1 unreferenced). -/
theorem AddPhysicalToVirtualMapping_locked_on_return_witness :
    (∃ m2 : PhysicalMemManager,
      (PhysicalMemManager.create 2 (fun _ => 0) (fun _ => none)
        { slotOf := fun n => n, written := [] }).AddPhysicalToVirtualMapping 0 (some 7) 3 =
        Except.ok (0, m2) ∧
      m2.frame 0 =
        Except.ok { free := false, locked := true, virtualPage := 3, owner := some 7 }) ∧
    (∃ m2 : PhysicalMemManager,
      (fourFrames 2 (fun v => decide (v ≠ 1))).AddPhysicalToVirtualMapping 8 (some 1) 4 =
        Except.ok (1, m2) ∧
      m2.frame 1 =
        Except.ok { free := false, locked := true, virtualPage := 4, owner := some 1 }) :=
  ⟨⟨_, rfl, AddPhysicalToVirtualMapping_locked_on_return 0
      (PhysicalMemManager.create 2 (fun _ => 0) (fun _ => none)
        { slotOf := fun n => n, written := [] }) (some 7) 3 0 _ rfl⟩,
    ⟨_, rfl, AddPhysicalToVirtualMapping_locked_on_return 8
      (fourFrames 2 (fun v => decide (v ≠ 1))) (some 1) 4 1 _ rfl⟩⟩

/-- C3 (no-free-frame correctness), the code at the failing input.  Four frames, all occupied,
free list empty, hand at frame 0; frame 3 is unlocked with U = 0 and frames 0, 1, 2 have U = 1.
`AddPhysicalToVirtualMapping` returns frame 0, not frame 3, as soon as the loop is followed for
four iterations, and it returns frame 3 for no number of iterations: the hand advances modulo
`NumPhysPages-1`, so it goes 0, 1, 2, 0 and never reaches frame 3. -/
theorem AddPhysicalToVirtualMapping_skips_last_frame :
    (fourFrames 0 (fun v => decide (v ≠ 3))).free_page_list = [] ∧
    (fourFrames 0 (fun v => decide (v ≠ 3))).tpr.map (fun r => (r.free, r.locked)) =
      [(false, false), (false, false), (false, false), (false, false)] ∧
    (fun v => decide (v ≠ 3)) <$> [(0 : Int), 1, 2, 3] = [true, true, true, false] ∧
    (∀ fuel : Nat, Except.map Prod.fst
      ((fourFrames 0 (fun v => decide (v ≠ 3))).AddPhysicalToVirtualMapping (fuel + 4) (some 1) 4)
        = Except.ok 0) ∧
    (∀ fuel : Nat, Except.map Prod.fst
      ((fourFrames 0 (fun v => decide (v ≠ 3))).AddPhysicalToVirtualMapping fuel (some 1) 4)
        ≠ Except.ok 3) := by
  have h4 : ∀ fuel : Nat, Except.map Prod.fst
      ((fourFrames 0 (fun v => decide (v ≠ 3))).AddPhysicalToVirtualMapping (fuel + 4) (some 1) 4)
        = Except.ok 0 := fun _ => rfl
  refine ⟨rfl, rfl, rfl, h4, ?_⟩
  intro fuel
  match fuel with
  | 0 => exact fun h => nomatch h
  | 1 => exact fun h => nomatch h
  | 2 => exact fun h => nomatch h
  | 3 => exact fun h => nomatch h
  | n + 4 =>
    rw [h4 n]
    intro h
    cases h

theorem Condition.Broadcast_loop_spec (q : List Thread) (g : Scheduler) (extra : Nat) :
    Condition.Broadcast_loop (q.length + 1 + extra) { waitqueue := q } g =
      some ({ waitqueue := [] }, { readyList := g.readyList ++ q }) := by
  induction q generalizing g with
  | nil =>
    have hf : ([] : List Thread).length + 1 + extra = extra + 1 := by simp; omega
    rw [hf]
    simp [Condition.Broadcast_loop, Listint.IsEmpty]
  | cons t rest ih =>
    have hf : (t :: rest).length + 1 + extra = (rest.length + 1 + extra) + 1 := by
      simp only [List.length_cons]; omega
    rw [hf]
    simp only [Condition.Broadcast_loop, Listint.IsEmpty, Listint.Remove, List.isEmpty_cons,
      Bool.false_eq_true, if_false]
    rw [ih (g.ReadyToRun t)]
    simp [Scheduler.ReadyToRun]

theorem Condition.Signals_all (c : Condition) (g : Scheduler) :
    Condition.Signals c.waitqueue.length (c, g) =
      ({ waitqueue := [] }, { readyList := g.readyList ++ c.waitqueue }) := by
  have h := Condition.Signals_spec c.waitqueue.length c g
  generalize Condition.Signals c.waitqueue.length (c, g) = r at h
  obtain ⟨⟨wq⟩, ⟨rl⟩⟩ := r
  simp only [List.drop_length, List.take_length] at h
  obtain ⟨h1, h2⟩ := h
  have e1 : wq = [] := h1
  have e2 : rl = g.readyList ++ c.waitqueue := h2
  rw [e1, e2]

/-- C11 (Broadcast).  For a condition whose wait queue holds `t1, ..., tn` (n ≥ 0), `Broadcast`
terminates: as soon as the loop condition may be tested `n + 1` times (any larger bound gives the
same), it returns, having called `ReadyToRun` once per waiter in the order `t1, ..., tn` and
with the wait queue empty; this is the effect of `n` successive `Signal` calls. -/
theorem Condition.Broadcast_wakes_all (c : Condition) (g : Scheduler) (extra : Nat) :
    Condition.Broadcast (c.waitqueue.length + 1 + extra) c g =
      some ({ waitqueue := [] }, { readyList := g.readyList ++ c.waitqueue }) ∧
    Condition.Broadcast (c.waitqueue.length + 1 + extra) c g =
      some (Condition.Signals c.waitqueue.length (c, g)) := by
  have h : Condition.Broadcast (c.waitqueue.length + 1 + extra) c g =
      some ({ waitqueue := [] }, { readyList := g.readyList ++ c.waitqueue }) :=
    Condition.Broadcast_loop_spec c.waitqueue g extra
  exact ⟨h, by rw [h, Condition.Signals_all]⟩

/-! ## Theorems: the free page list -/

section FreeListLemmas

open PhysicalMemManager

theorem PhysicalMemManager.frame_setFrame_ne (m : PhysicalMemManager) (i j : Int) (r : tpr_c)
    (hj : 0 ≤ j) (hne : i ≠ j) : (m.setFrame j r).frame i = m.frame i := by
  unfold PhysicalMemManager.frame PhysicalMemManager.setFrame
  by_cases hi : 0 ≤ i
  · have hn : j.toNat ≠ i.toNat := by omega
    simp only [hi, if_true, List.getElem?_set_ne hn]
  · simp [hi]

theorem PhysicalMemManager.listConsistent_congr (m1 m2 : PhysicalMemManager)
    (ht : m2.tpr = m1.tpr) (hl : m2.free_page_list = m1.free_page_list)
    (h : m1.listConsistent) : m2.listConsistent := by
  unfold PhysicalMemManager.listConsistent at *
  rw [hl]
  refine ⟨h.1, fun i => ?_⟩
  rw [PhysicalMemManager.frame_congr m2 m1 i ht]
  exact h.2 i

/-- Rewriting a record without touching its `free` flag keeps the list and the table in
agreement. -/
theorem PhysicalMemManager.listConsistent_setFrame (m : PhysicalMemManager) (f : Int)
    (r r2 : tpr_c) (h : m.listConsistent) (hf : m.frame f = Except.ok r)
    (hfree : r2.free = r.free) : (m.setFrame f r2).listConsistent := by
  have h0 := (PhysicalMemManager.frame_lt m f r hf).1
  refine ⟨h.1, fun i => ?_⟩
  have hl : (m.setFrame f r2).free_page_list = m.free_page_list := rfl
  rw [hl, h.2 i]
  by_cases hi : i = f
  · subst hi
    rw [PhysicalMemManager.frame_setFrame m i r r2 hf, hf]
    constructor
    · rintro ⟨x, hx, hxf⟩
      simp only [Except.ok.injEq] at hx
      exact ⟨r2, rfl, by rw [hfree, hx, hxf]⟩
    · rintro ⟨x, hx, hxf⟩
      simp only [Except.ok.injEq] at hx
      exact ⟨r, rfl, by rw [← hfree, hx, hxf]⟩
  · rw [PhysicalMemManager.frame_setFrame_ne m i f r2 h0 hi]

theorem PhysicalMemManager.listConsistent_FindFreePage (m : PhysicalMemManager) (page : Int)
    (m2 : PhysicalMemManager) (h : m.listConsistent)
    (hff : m.FindFreePage = Except.ok (page, m2)) :
    m2.listConsistent ∧
    (page ≠ -1 → page ∉ m2.free_page_list ∧
      ∃ r : tpr_c, m2.frame page = Except.ok r ∧ r.free = false) := by
  rcases PhysicalMemManager.FindFreePage_spec m page m2 hff with
    ⟨hp, hm, _⟩ | ⟨r, rest, hl, hp, hfree, hm⟩
  · rw [hm]
    exact ⟨h, fun hne => absurd hp hne⟩
  · have h0 := (PhysicalMemManager.frame_lt m page r hp).1
    have hnd : (page :: rest).Nodup := by rw [← hl]; exact h.1
    have hnotin : page ∉ rest := (List.nodup_cons.mp hnd).1
    have hfr2 : m2.frame page = Except.ok { r with free := false } := by
      rw [hm]
      exact PhysicalMemManager.frame_setFrame _ page r _ hp
    have hlist : m2.free_page_list = rest := by rw [hm]; rfl
    refine ⟨⟨?_, fun i => ?_⟩, fun _ => ⟨by rw [hlist]; exact hnotin, _, hfr2, rfl⟩⟩
    · rw [hlist]
      exact (List.nodup_cons.mp hnd).2
    · rw [hlist]
      by_cases hi : i = page
      · subst hi
        rw [hfr2]
        constructor
        · intro hin
          exact absurd hin hnotin
        · rintro ⟨x, hx, hxf⟩
          simp only [Except.ok.injEq] at hx
          rw [← hx] at hxf
          cases hxf
      · have hfr : m2.frame i = m.frame i := by
          rw [hm]
          exact PhysicalMemManager.frame_setFrame_ne _ i page _ h0 hi
        rw [hfr, ← h.2 i, hl]
        simp [hi]

theorem PhysicalMemManager.listConsistent_EvictPage (fuel : Nat) (m : PhysicalMemManager)
    (f : Int) (m2 : PhysicalMemManager) (h : m.listConsistent)
    (hev : m.EvictPage fuel = Except.ok (f, m2)) : m2.listConsistent := by
  have h0 : ({ m := m, local_i_clock := m.i_clock, count := 0 } : ClockScan).inBounds :=
    ⟨le_refl 0, fun hc => absurd hc (lt_irrefl 0)⟩
  obtain ⟨_, _, _, _, _, _, _, _, ht, hl⟩ :=
    PhysicalMemManager.EvictPage_loop_spec fuel _ h0 f m2 hev
  exact PhysicalMemManager.listConsistent_congr m m2 ht hl h

theorem PhysicalMemManager.listConsistent_AddPhysicalToVirtualMapping (fuel : Nat)
    (m : PhysicalMemManager) (owner : Option AddrSpace) (v : Int) (f : Int)
    (m2 : PhysicalMemManager) (h : m.listConsistent)
    (hadd : m.AddPhysicalToVirtualMapping fuel owner v = Except.ok (f, m2)) :
    m2.listConsistent := by
  obtain ⟨m1, r, hsrc, hfr, hm2⟩ :=
    PhysicalMemManager.AddPhysicalToVirtualMapping_spec fuel m owner v f m2 hadd
  rw [hm2]
  rcases hsrc with ⟨hne, hff⟩ | ⟨m0, hff, hev⟩
  · obtain ⟨hc, hrest⟩ := PhysicalMemManager.listConsistent_FindFreePage m f m1 h hff
    obtain ⟨_, r1, hr1, hfree⟩ := hrest hne
    rw [hfr] at hr1
    simp only [Except.ok.injEq] at hr1
    refine PhysicalMemManager.listConsistent_setFrame m1 f r _ hc hfr ?_
    rw [hr1, hfree]
  · have hc0 := (PhysicalMemManager.listConsistent_FindFreePage m (-1) m0 h hff).1
    have hc1 := PhysicalMemManager.listConsistent_EvictPage fuel m0 f m1 hc0 hev
    have hempty : m1.free_page_list = [] := by
      have h0 : ({ m := m0, local_i_clock := m0.i_clock, count := 0 } : ClockScan).inBounds :=
        ⟨le_refl 0, fun hc => absurd hc (lt_irrefl 0)⟩
      obtain ⟨_, _, _, _, _, _, _, _, _, hl⟩ :=
        PhysicalMemManager.EvictPage_loop_spec fuel _ h0 f m1 hev
      rcases PhysicalMemManager.FindFreePage_spec m (-1) m0 hff with
        ⟨_, hm, hl0⟩ | ⟨r0, rest, _, hp, _, _⟩
      · rw [hl, hm, hl0]
      · exact absurd (PhysicalMemManager.frame_lt m (-1) r0 hp).1 (by decide)
    have hnf : r.free = false := by
      cases hrf : r.free with
      | false => rfl
      | true =>
        have hin : f ∈ m1.free_page_list := (hc1.2 f).mpr ⟨r, hfr, hrf⟩
        rw [hempty] at hin
        cases hin
    refine PhysicalMemManager.listConsistent_setFrame m1 f r _ hc1 hfr ?_
    rw [hnf]

theorem PhysicalMemManager.listConsistent_UnlockPage (m : PhysicalMemManager) (n : Int)
    (m2 : PhysicalMemManager) (h : m.listConsistent) (hu : m.UnlockPage n = Except.ok m2) :
    m2.listConsistent := by
  unfold PhysicalMemManager.UnlockPage at hu
  split at hu
  · simp at hu
  · cases hp : m.frame n with
    | error e => simp [hp] at hu
    | ok r =>
      simp only [hp] at hu
      split at hu
      · simp at hu
      · split at hu
        · simp at hu
        · simp only [Except.ok.injEq] at hu
          rw [← hu]
          exact PhysicalMemManager.listConsistent_setFrame m n r _ h hp rfl

theorem PhysicalMemManager.listConsistent_ChangeOwner (m : PhysicalMemManager) (n : Int)
    (a : Option AddrSpace) (m2 : PhysicalMemManager) (h : m.listConsistent)
    (hc : m.ChangeOwner n a = Except.ok m2) : m2.listConsistent := by
  unfold PhysicalMemManager.ChangeOwner at hc
  cases hp : m.frame n with
  | error e => simp [hp] at hc
  | ok r =>
    simp only [hp, Except.ok.injEq] at hc
    rw [← hc]
    exact PhysicalMemManager.listConsistent_setFrame m n r _ h hp rfl

theorem PhysicalMemManager.listConsistent_Remove (m : PhysicalMemManager) (n : Int)
    (m2 : PhysicalMemManager) (h : m.listConsistent)
    (hr : m.RemovePhysicalToVirtualMapping n = Except.ok m2) : m2.listConsistent := by
  obtain ⟨r, a, hp, hfree, _, hm2⟩ := PhysicalMemManager.Remove_spec m n m2 hr
  have h0 := (PhysicalMemManager.frame_lt m n r hp).1
  have hnotin : n ∉ m.free_page_list := by
    intro hin
    obtain ⟨x, hx, hxf⟩ := (h.2 n).mp hin
    rw [hp] at hx
    simp only [Except.ok.injEq] at hx
    rw [← hx, hfree] at hxf
    cases hxf
  have hlist : m2.free_page_list = n :: m.free_page_list := by rw [hm2]; rfl
  have hframe : ∀ i, m2.frame i =
      (m.setFrame n { r with free := true, locked := false }).frame i := by
    intro i
    apply PhysicalMemManager.frame_congr
    rw [hm2]
    exact PhysicalMemManager.clearValidIfTable_tpr _ a r.virtualPage
  refine ⟨?_, fun i => ?_⟩
  · rw [hlist]
    exact List.nodup_cons.mpr ⟨hnotin, h.1⟩
  · rw [hlist, hframe i]
    by_cases hi : i = n
    · subst hi
      rw [PhysicalMemManager.frame_setFrame m i r _ hp]
      simp
    · rw [PhysicalMemManager.frame_setFrame_ne m i n _ h0 hi, ← h.2 i]
      simp [hi]

theorem PhysicalMemManager.listConsistent_call (m : PhysicalMemManager) (c : MemCall)
    (m2 : PhysicalMemManager) (hI : m.listConsistent) (h : m.call c = Except.ok m2) :
    m2.listConsistent := by
  cases c with
  | FindFreePage =>
    simp only [PhysicalMemManager.call] at h
    cases hr : m.FindFreePage with
    | error e => simp [hr, Except.map] at h
    | ok pr =>
      simp only [hr, Except.map, Except.ok.injEq] at h
      rw [← h]
      exact (PhysicalMemManager.listConsistent_FindFreePage m pr.1 pr.2 hI hr).1
  | AddPhysicalToVirtualMapping fuel owner v =>
    simp only [PhysicalMemManager.call] at h
    cases hr : m.AddPhysicalToVirtualMapping fuel owner v with
    | error e => simp [hr, Except.map] at h
    | ok pr =>
      simp only [hr, Except.map, Except.ok.injEq] at h
      rw [← h]
      exact PhysicalMemManager.listConsistent_AddPhysicalToVirtualMapping fuel m owner v pr.1
        pr.2 hI hr
  | UnlockPage n => exact PhysicalMemManager.listConsistent_UnlockPage m n m2 hI h
  | RemovePhysicalToVirtualMapping n =>
    exact PhysicalMemManager.listConsistent_Remove m n m2 hI h
  | ChangeOwner n a => exact PhysicalMemManager.listConsistent_ChangeOwner m n a m2 hI h
  | EvictPage fuel =>
    simp only [PhysicalMemManager.call] at h
    cases hr : m.EvictPage fuel with
    | error e => simp [hr, Except.map] at h
    | ok pr =>
      simp only [hr, Except.map, Except.ok.injEq] at h
      rw [← h]
      exact PhysicalMemManager.listConsistent_EvictPage fuel m pr.1 pr.2 hI hr

theorem PhysicalMemManager.listConsistent_calls (cs : List MemCall)
    (m m2 : PhysicalMemManager) (hI : m.listConsistent) (h : m.calls cs = Except.ok m2) :
    m2.listConsistent := by
  induction cs generalizing m with
  | nil =>
    simp only [PhysicalMemManager.calls, Except.ok.injEq] at h
    rw [← h]
    exact hI
  | cons c cs ih =>
    simp only [PhysicalMemManager.calls] at h
    cases hc : m.call c with
    | error e => simp [hc] at h
    | ok m1 =>
      simp only [hc] at h
      exact ih m1 (PhysicalMemManager.listConsistent_call m c m1 hI hc) h

theorem Listint.foldl_Append {α β : Type} (f : α → β) (l : List α) (init : List β) :
    l.foldl (fun acc i => Listint.Append acc (f i)) init = init ++ l.map f := by
  induction l generalizing init with
  | nil => simp
  | cons x xs ih =>
    simp only [List.foldl_cons, List.map_cons]
    rw [ih]
    simp [Listint.Append]

theorem PhysicalMemManager.listConsistent_create (N : Nat) (garbage : Nat → Int)
    (tts : AddrSpace → Option TranslationTable) (sw : SwapManager) :
    (PhysicalMemManager.create N garbage tts sw).listConsistent := by
  have hlist : (PhysicalMemManager.create N garbage tts sw).free_page_list =
      (List.range N).map Int.ofNat := by
    simp only [PhysicalMemManager.create]
    rw [Listint.foldl_Append Int.ofNat (List.range N) []]
    simp
  refine ⟨?_, fun i => ?_⟩
  · rw [hlist]
    exact (List.nodup_range N).map Int.ofNat_injective
  · rw [hlist]
    simp only [List.mem_map, List.mem_range, PhysicalMemManager.frame_ok_iff,
      PhysicalMemManager.create]
    constructor
    · rintro ⟨n, hn, rfl⟩
      refine ⟨{ free := true, locked := false, owner := none, virtualPage := garbage n },
        ⟨Int.ofNat_nonneg n, ?_⟩, rfl⟩
      simp [List.getElem?_map, List.getElem?_range hn]
    · rintro ⟨r, ⟨h0, hg⟩, _⟩
      refine ⟨i.toNat, ?_, Int.toNat_of_nonneg h0⟩
      rcases List.getElem?_eq_some_iff.mp hg with ⟨hl, _⟩
      simpa using hl

end FreeListLemmas

/-- C12 (free-frame list consistency).  In every state reached from the constructor by a
sequence of `FindFreePage`, `AddPhysicalToVirtualMapping`, `UnlockPage`,
`RemovePhysicalToVirtualMapping` and `EvictPage` calls that return (and `ChangeOwner` calls as
well, which the sequences here may also contain), the free list has no duplicates and a frame
number is in the list exactly when it is the number of a frame whose record has `free` set. -/
theorem free_list_consistent (N : Nat) (garbage : Nat → Int)
    (tts : AddrSpace → Option TranslationTable) (sw : SwapManager) (cs : List MemCall)
    (m : PhysicalMemManager)
    (h : (PhysicalMemManager.create N garbage tts sw).calls cs = Except.ok m) :
    m.free_page_list.Nodup ∧
    ∀ i : Int, i ∈ m.free_page_list ↔ ∃ r : tpr_c, m.frame i = Except.ok r ∧ r.free = true :=
  PhysicalMemManager.listConsistent_calls cs _ m
    (PhysicalMemManager.listConsistent_create N garbage tts sw) h

/-- Witness of C12: three frames; allocate frame 0, allocate frame 1, unlock and release
frame 0: the list is 0, 2 and exactly frames 0 and 2 are free. -/
theorem free_list_consistent_witness :
    ∃ m : PhysicalMemManager,
      (PhysicalMemManager.create 3 (fun _ => 0) (fun _ => none)
          { slotOf := fun n => n, written := [] }).calls
        [MemCall.AddPhysicalToVirtualMapping 0 (some 7) 3,
          MemCall.AddPhysicalToVirtualMapping 0 (some 7) 4, MemCall.UnlockPage 0,
          MemCall.RemovePhysicalToVirtualMapping 0] = Except.ok m ∧
      m.free_page_list = [0, 2] ∧
      m.tpr.map (fun r => r.free) = [true, false, true] ∧
      m.free_page_list.Nodup :=
  ⟨_, rfl, rfl, rfl,
    (free_list_consistent 3 (fun _ => 0) (fun _ => none) { slotOf := fun n => n, written := [] }
      [MemCall.AddPhysicalToVirtualMapping 0 (some 7) 3,
        MemCall.AddPhysicalToVirtualMapping 0 (some 7) 4, MemCall.UnlockPage 0,
        MemCall.RemovePhysicalToVirtualMapping 0] _ rfl).1⟩

/-- C13 (FindFreePage).  In every state `m` of a manager (a state reached from the constructor
by calls that return): with an empty free list `FindFreePage` returns -1 and the state is `m`
itself; with free list `f :: rest` it returns `f`, and the state it leaves differs from `m` only
in that the free list is `rest` and the record of frame `f` has `free` cleared, so clock hand,
translation tables (U bits) and swap manager are those of `m`. -/
theorem FindFreePage_pops_head (N : Nat) (garbage : Nat → Int)
    (tts : AddrSpace → Option TranslationTable) (sw : SwapManager) (cs : List MemCall)
    (m : PhysicalMemManager)
    (h : (PhysicalMemManager.create N garbage tts sw).calls cs = Except.ok m) :
    (m.free_page_list = [] → m.FindFreePage = Except.ok (-1, m)) ∧
    (∀ (f : Int) (rest : List Int), m.free_page_list = f :: rest →
      ∃ r : tpr_c, 0 ≤ f ∧ m.frame f = Except.ok r ∧ r.free = true ∧
        m.FindFreePage = Except.ok (f,
          { tpr := m.tpr.set f.toNat { r with free := false }
            free_page_list := rest
            i_clock := m.i_clock
            translationTable := m.translationTable
            g_swap_manager := m.g_swap_manager })) := by
  have hc := PhysicalMemManager.listConsistent_calls cs _ m
    (PhysicalMemManager.listConsistent_create N garbage tts sw) h
  constructor
  · intro hl
    simp [PhysicalMemManager.FindFreePage, Listint.IsEmpty, hl]
  · intro f rest hl
    obtain ⟨r, hp, hfree⟩ := (hc.2 f).mp (by rw [hl]; exact List.mem_cons_self f rest)
    refine ⟨r, (PhysicalMemManager.frame_lt m f r hp).1, hp, hfree, ?_⟩
    have hfr : PhysicalMemManager.frame
        ({ m with free_page_list := rest } : PhysicalMemManager) f = Except.ok r := hp
    simp only [PhysicalMemManager.FindFreePage, Listint.IsEmpty, Listint.Remove, hl,
      List.isEmpty_cons, Bool.false_eq_true, if_false, hfr, hfree, if_true]
    rfl

/-- Witness of C13: on a fresh manager of two frames the list is 0, 1 and `FindFreePage` returns
frame 0; the list left is 1. -/
theorem FindFreePage_pops_head_witness :
    ∃ r : tpr_c,
      (PhysicalMemManager.create 2 (fun _ => 0) (fun _ => none)
        { slotOf := fun n => n, written := [] }).free_page_list = [0, 1] ∧
      Except.map (fun p => (p.1, p.2.free_page_list))
        (PhysicalMemManager.create 2 (fun _ => 0) (fun _ => none)
          { slotOf := fun n => n, written := [] }).FindFreePage = Except.ok (0, [1]) ∧
      (PhysicalMemManager.create 2 (fun _ => 0) (fun _ => none)
        { slotOf := fun n => n, written := [] }).frame 0 = Except.ok r ∧ r.free = true := by
  obtain ⟨r, _, hp, hfree, _⟩ :=
    (FindFreePage_pops_head 2 (fun _ => 0) (fun _ => none) { slotOf := fun n => n, written := [] }
      [] _ rfl).2 0 [1] rfl
  exact ⟨r, rfl, rfl, hp, hfree⟩

/-- The behaviour of `UnlockPage` on an argument that is not negative: `UnlockPage(f)` returns
exactly when `f < NumPhysPages` and the record of frame `f` is non-free and locked, and the state
it leaves differs only in the `locked` flag of frame `f`, now false; otherwise the call stops on
a failed `ASSERT`. -/
theorem UnlockPage_iff (m : PhysicalMemManager) (f : Int) (h0 : 0 ≤ f) :
    (∀ m2 : PhysicalMemManager, m.UnlockPage f = Except.ok m2 ↔
      (f < m.NumPhysPages ∧ ∃ r : tpr_c, m.frame f = Except.ok r ∧ r.free = false ∧
        r.locked = true ∧ m2 = m.setFrame f { r with locked := false })) ∧
    (¬ (f < m.NumPhysPages ∧
        ∃ r : tpr_c, m.frame f = Except.ok r ∧ r.free = false ∧ r.locked = true) →
      m.UnlockPage f = Except.error Fault.assertion) := by
  by_cases hlt : f < m.NumPhysPages
  · have hex : ∃ r, m.frame f = Except.ok r := by
      have hn : f.toNat < m.tpr.length := by
        unfold PhysicalMemManager.NumPhysPages at hlt
        omega
      exact ⟨m.tpr[f.toNat], (PhysicalMemManager.frame_ok_iff m f _).mpr
        ⟨h0, List.getElem?_eq_getElem hn⟩⟩
    obtain ⟨r, hp⟩ := hex
    have hval : m.UnlockPage f =
        if r.locked ≠ true then Except.error Fault.assertion
        else if r.free ≠ false then Except.error Fault.assertion
        else Except.ok (m.setFrame f { r with locked := false }) := by
      simp only [PhysicalMemManager.UnlockPage, hlt, not_true_eq_false, if_false, hp]
    have huniq : ∀ r2 : tpr_c, m.frame f = Except.ok r2 → r2 = r := by
      intro r2 h2
      rw [hp] at h2
      simp only [Except.ok.injEq] at h2
      exact h2.symm
    by_cases hgood : r.locked = true ∧ r.free = false
    · have hv2 : m.UnlockPage f = Except.ok (m.setFrame f { r with locked := false }) := by
        rw [hval]
        simp [hgood.1, hgood.2]
      constructor
      · intro m2
        rw [hv2]
        constructor
        · intro h
          simp only [Except.ok.injEq] at h
          exact ⟨hlt, r, hp, hgood.2, hgood.1, h.symm⟩
        · rintro ⟨_, r2, h2, _, _, hm2⟩
          rw [huniq r2 h2] at hm2
          rw [hm2]
      · intro hneg
        exact absurd ⟨hlt, r, hp, hgood.2, hgood.1⟩ hneg
    · have hv2 : m.UnlockPage f = Except.error Fault.assertion := by
        rw [hval]
        by_cases hl : r.locked = true
        · have hf : r.free ≠ false := fun hf => hgood ⟨hl, hf⟩
          simp [hl, hf]
        · simp [hl]
      constructor
      · intro m2
        rw [hv2]
        constructor
        · intro h
          cases h
        · rintro ⟨_, r2, h2, hf2, hl2, _⟩
          rw [huniq r2 h2] at hf2 hl2
          exact absurd ⟨hl2, hf2⟩ hgood
      · intro _
        exact hv2
  · constructor
    · intro m2
      simp [PhysicalMemManager.UnlockPage, hlt]
    · intro _
      simp [PhysicalMemManager.UnlockPage, hlt]

/-- An instance of `UnlockPage_iff`: in the full table of four frames none is locked, so
`UnlockPage(1)` fails on an assertion, and so does `UnlockPage(4)` (no such frame); on a fresh
manager of two frames, after frame 0 has been allocated (and so locked), `UnlockPage(0)` returns
and leaves it unlocked. -/
theorem UnlockPage_iff_witness :
    (0 : Int) ≤ 1 ∧
    (fourFrames 0 (fun _ => true)).UnlockPage 1 = Except.error Fault.assertion ∧
    (fourFrames 0 (fun _ => true)).UnlockPage 4 = Except.error Fault.assertion ∧
    Except.map PhysicalMemManager.tpr
      ((PhysicalMemManager.create 2 (fun _ => 0) (fun _ => none)
          { slotOf := fun n => n, written := [] }).calls
        [MemCall.AddPhysicalToVirtualMapping 0 (some 7) 3, MemCall.UnlockPage 0]) =
      Except.ok [{ free := false, locked := false, virtualPage := 3, owner := some 7 },
                 { free := true, locked := false, virtualPage := 0, owner := none }] :=
  ⟨by decide,
    (UnlockPage_iff (fourFrames 0 (fun _ => true)) 1 (by decide)).2 (by
      rintro ⟨_, r, hr, _, hl⟩
      have hr2 : (fourFrames 0 (fun _ => true)).frame 1 =
          Except.ok { free := false, locked := false, virtualPage := 1, owner := some 1 } := rfl
      rw [hr2] at hr
      simp only [Except.ok.injEq] at hr
      rw [← hr] at hl
      cases hl),
    rfl, rfl⟩

/-- C15 (RemovePhysicalToVirtualMapping).  When frame `f` is non-free and has owner `a`, the
call returns and the state it leaves has: frame `f` free and unlocked, every other frame record
as before, `f` at the front of the otherwise unchanged free list, and, if `a` has a translation
table, the valid bit of its entry for the virtual page of `f` cleared with every other entry of
that table and every other table as before.  Called on a frame that is already free it stops on
the failed `ASSERT`. -/
theorem RemovePhysicalToVirtualMapping_releases (m : PhysicalMemManager) (f : Int) (r : tpr_c)
    (a : AddrSpace) (hp : m.frame f = Except.ok r) (ho : r.owner = some a) :
    (r.free = true → m.RemovePhysicalToVirtualMapping f = Except.error Fault.assertion) ∧
    (r.free = false → ∃ m2 : PhysicalMemManager,
      m.RemovePhysicalToVirtualMapping f = Except.ok m2 ∧
      m2.frame f = Except.ok { r with free := true, locked := false } ∧
      (∀ i : Int, i ≠ f → m2.frame i = m.frame i) ∧
      m2.free_page_list = f :: m.free_page_list ∧
      m2.i_clock = m.i_clock ∧
      (∀ tt : TranslationTable, m.translationTable a = some tt →
        m2.translationTable a = some (tt.clearBitValid r.virtualPage) ∧
        (tt.clearBitValid r.virtualPage).getBitValid r.virtualPage = false ∧
        ∀ v : Int, v ≠ r.virtualPage → (tt.clearBitValid r.virtualPage) v = tt v) ∧
      (m.translationTable a = none → m2.translationTable = m.translationTable) ∧
      (∀ b : AddrSpace, b ≠ a → m2.translationTable b = m.translationTable b)) := by
  have h0 := (PhysicalMemManager.frame_lt m f r hp).1
  constructor
  · intro hfree
    simp [PhysicalMemManager.RemovePhysicalToVirtualMapping, hp, hfree]
  · intro hfree
    have hrun : m.RemovePhysicalToVirtualMapping f = Except.ok
        { (m.setFrame f { r with free := true, locked := false }).clearValidIfTable a
            r.virtualPage with
          free_page_list := Listint.Prepend
            ((m.setFrame f { r with free := true, locked := false }).clearValidIfTable a
              r.virtualPage).free_page_list f } := by
      simp only [PhysicalMemManager.RemovePhysicalToVirtualMapping, hp, hfree,
        Bool.false_eq_true, if_false]
      rw [ho]
    refine ⟨_, hrun, ?_, ?_, ?_, ?_, ?_, ?_, ?_⟩
    · have hcg := PhysicalMemManager.frame_congr
        ({ (m.setFrame f { r with free := true, locked := false }).clearValidIfTable a
            r.virtualPage with
          free_page_list := Listint.Prepend
            ((m.setFrame f { r with free := true, locked := false }).clearValidIfTable a
              r.virtualPage).free_page_list f } : PhysicalMemManager)
        (m.setFrame f { r with free := true, locked := false }) f
        (PhysicalMemManager.clearValidIfTable_tpr _ a r.virtualPage)
      rw [hcg]
      exact PhysicalMemManager.frame_setFrame m f r _ hp
    · intro i hi
      have hcg := PhysicalMemManager.frame_congr
        ({ (m.setFrame f { r with free := true, locked := false }).clearValidIfTable a
            r.virtualPage with
          free_page_list := Listint.Prepend
            ((m.setFrame f { r with free := true, locked := false }).clearValidIfTable a
              r.virtualPage).free_page_list f } : PhysicalMemManager)
        (m.setFrame f { r with free := true, locked := false }) i
        (PhysicalMemManager.clearValidIfTable_tpr _ a r.virtualPage)
      rw [hcg]
      exact PhysicalMemManager.frame_setFrame_ne m i f _ h0 hi
    · show Listint.Prepend _ f = _
      rw [PhysicalMemManager.clearValidIfTable_free_page_list]
      rfl
    · show ((m.setFrame f { r with free := true, locked := false }).clearValidIfTable a
        r.virtualPage).i_clock = m.i_clock
      unfold PhysicalMemManager.clearValidIfTable
      cases (m.setFrame f { r with free := true, locked := false }).translationTable a <;> rfl
    · intro tt htt
      have htt2 : (m.setFrame f { r with free := true, locked := false }).translationTable a =
          some tt := htt
      refine ⟨?_, ?_, ?_⟩
      · show ((m.setFrame f { r with free := true, locked := false }).clearValidIfTable a
          r.virtualPage).translationTable a = _
        simp [PhysicalMemManager.clearValidIfTable, htt2, PhysicalMemManager.setTable]
      · simp [TranslationTable.clearBitValid, TranslationTable.getBitValid]
      · intro v hv
        simp [TranslationTable.clearBitValid, Function.update_noteq hv]
    · intro htt
      have htt2 : (m.setFrame f { r with free := true, locked := false }).translationTable a =
          none := htt
      show ((m.setFrame f { r with free := true, locked := false }).clearValidIfTable a
          r.virtualPage).translationTable = _
      simp only [PhysicalMemManager.clearValidIfTable, htt2]
      rfl
    · intro b hb
      show ((m.setFrame f { r with free := true, locked := false }).clearValidIfTable a
          r.virtualPage).translationTable b = _
      unfold PhysicalMemManager.clearValidIfTable
      cases htt : (m.setFrame f { r with free := true, locked := false }).translationTable a with
      | none => rfl
      | some tt =>
        simp only [PhysicalMemManager.setTable, Function.update_noteq hb]
        rfl

/-- Witness of C15: in the full table of four frames, frame 1 holds page 1 of address space 1;
releasing it puts 1 on the free list and frees the record; a second release fails. -/
theorem RemovePhysicalToVirtualMapping_releases_witness :
    (fourFrames 0 (fun _ => true)).frame 1 =
      Except.ok { free := false, locked := false, virtualPage := 1, owner := some 1 } ∧
    (∃ m2 : PhysicalMemManager,
      (fourFrames 0 (fun _ => true)).RemovePhysicalToVirtualMapping 1 = Except.ok m2 ∧
      m2.frame 1 =
        Except.ok { free := true, locked := false, virtualPage := 1, owner := some 1 } ∧
      m2.free_page_list = [1]) := by
  obtain ⟨m2, h1, h2, _, h3, _⟩ :=
    (RemovePhysicalToVirtualMapping_releases (fourFrames 0 (fun _ => true)) 1
      { free := false, locked := false, virtualPage := 1, owner := some 1 } 1 rfl rfl).2 rfl
  exact ⟨rfl, m2, h1, h2, h3⟩

/-! ## Theorems: `vm/pagefaultmanager.cc` -/

section PageFaultLemmas

theorem PhysicalMemManager.UnlockPage_of_locked (m : PhysicalMemManager) (f : Int) (r : tpr_c)
    (hp : m.frame f = Except.ok r) (hl : r.locked = true) (hf : r.free = false) :
    m.UnlockPage f = Except.ok (m.setFrame f { r with locked := false }) := by
  have hlt := (PhysicalMemManager.frame_lt m f r hp).2
  simp [PhysicalMemManager.UnlockPage, hlt, hp, hl, hf]

/-- What a run of the body of `if(!tt->getBitValid(virtualPage))` that returns has done. -/
theorem PageFault_resolve_spec (fuel : Nat) (k : Kernel) (a : AddrSpace)
    (tt : TranslationTable) (v : Int) (k2 : Kernel)
    (h : PageFault_resolve fuel k a tt v = Except.ok k2) :
    ∃ (f : Int) (m1 : PhysicalMemManager) (tt2 : TranslationTable) (load : PageLoad),
      (k.g_physical_mem_manager.setTable a (tt.setBitIo v)).AddPhysicalToVirtualMapping fuel
        (some a) v = Except.ok (f, m1) ∧
      m1.translationTable a = some tt2 ∧
      PageFault_load fuel (tt2.setPhysicalPage v f) v ((tt.setBitIo v).getAddrDisk v)
        k.PageSize = Except.ok load ∧
      k2.loads = k.loads ++ [load] ∧ k2.PageSize = k.PageSize ∧
      k2.g_physical_mem_manager =
        (m1.setTable a (((tt2.setPhysicalPage v f).clearBitIo v).setBitValid v)).setFrame f
          { free := false, locked := false, virtualPage := v, owner := some a } := by
  unfold PageFault_resolve at h
  dsimp only at h
  cases hadd : (k.g_physical_mem_manager.setTable a
      (tt.setBitIo v)).AddPhysicalToVirtualMapping fuel (some a) v with
  | error e => simp [hadd] at h
  | ok pr =>
    obtain ⟨f, m1⟩ := pr
    simp only [hadd] at h
    cases htt2 : m1.translationTable a with
    | none => simp [htt2] at h
    | some tt2 =>
      simp only [htt2] at h
      cases hload : PageFault_load fuel (tt2.setPhysicalPage v f) v
          ((tt.setBitIo v).getAddrDisk v) k.PageSize with
      | error e => simp [hload] at h
      | ok load =>
        simp only [hload] at h
        obtain ⟨m0, r, _, hfr, hm1⟩ :=
          PhysicalMemManager.AddPhysicalToVirtualMapping_spec fuel _ (some a) v f m1 hadd
        have hrec : m1.frame f =
            Except.ok { free := false, locked := true, virtualPage := v, owner := some a } := by
          rw [hm1]
          exact PhysicalMemManager.frame_setFrame m0 f r _ hfr
        have hrec2 : (m1.setTable a
            (((tt2.setPhysicalPage v f).clearBitIo v).setBitValid v)).frame f =
            Except.ok { free := false, locked := true, virtualPage := v, owner := some a } :=
          hrec
        rw [PhysicalMemManager.UnlockPage_of_locked _ f _ hrec2 rfl rfl] at h
        simp only [Except.ok.injEq] at h
        refine ⟨f, m1, tt2, load, rfl, htt2, hload, ?_, ?_, ?_⟩
        · rw [← h]
        · rw [← h]
        · rw [← h]

theorem PageFault_waitIo_clear (fuel : Nat) (tt : TranslationTable) (v : Int)
    (hio : tt.getBitIo v = false) : PageFault_waitIo (fuel + 1) tt v = Except.ok () := by
  simp [PageFault_waitIo, hio]

/-- Whenever `PageFault` returns, its result is `NO_EXCEPTION`; on a page that was not valid it
has then gone through the resolution, on a valid page it has left the state alone. -/
theorem PageFault_spec (fuel : Nat) (k : Kernel) (a : AddrSpace) (v : Nat)
    (exc : ExceptionType) (k2 : Kernel) (h : PageFault fuel k a v = Except.ok (exc, k2)) :
    exc = ExceptionType.NO_EXCEPTION ∧
    ∃ tt : TranslationTable, k.g_physical_mem_manager.translationTable a = some tt ∧
      (tt.getBitValid v = true → k2 = k) ∧
      (tt.getBitValid v = false → PageFault_resolve fuel k a tt v = Except.ok k2) := by
  unfold PageFault at h
  cases htt : k.g_physical_mem_manager.translationTable a with
  | none => simp [htt] at h
  | some tt =>
    simp only [htt] at h
    cases hw : PageFault_waitIo fuel tt v with
    | error e => simp [hw] at h
    | ok u =>
      simp only [hw] at h
      cases hv : tt.getBitValid v with
      | true =>
        simp only [hv, Bool.not_true, Bool.false_eq_true, if_false, Except.ok.injEq,
          Prod.mk.injEq] at h
        exact ⟨h.1.symm, tt, rfl, fun _ => h.2.symm, fun hx => by rw [hv] at hx; cases hx⟩
      | false =>
        simp only [hv, Bool.not_false, if_true] at h
        cases hr : PageFault_resolve fuel k a tt v with
        | error e => simp [hr] at h
        | ok k3 =>
          simp only [hr, Except.ok.injEq, Prod.mk.injEq] at h
          have hA : tt.getBitValid v = true → k2 = k := fun hx => by
            rw [hv] at hx
            cases hx
          have hB : tt.getBitValid v = false → PageFault_resolve fuel k a tt v = Except.ok k2 :=
            fun _ => by rw [hr, h.2]
          exact ⟨h.1.symm, tt, rfl, hA, hB⟩

theorem PageFault_of_valid (fuel : Nat) (k : Kernel) (a : AddrSpace) (v : Nat)
    (tt : TranslationTable) (htt : k.g_physical_mem_manager.translationTable a = some tt)
    (hio : tt.getBitIo v = false) (hvalid : tt.getBitValid v = true) :
    PageFault (fuel + 1) k a v = Except.ok (ExceptionType.NO_EXCEPTION, k) := by
  simp [PageFault, htt, PageFault_waitIo_clear fuel tt v hio, hvalid]

/-- The translation entry and the frame record a resolution leaves behind. -/
theorem PageFault_resolve_post (fuel : Nat) (k : Kernel) (a : AddrSpace)
    (tt : TranslationTable) (v : Int) (k2 : Kernel)
    (h : PageFault_resolve fuel k a tt v = Except.ok k2) :
    ∃ (f : Int) (m1 : PhysicalMemManager) (tt2 : TranslationTable) (load : PageLoad),
      (k.g_physical_mem_manager.setTable a (tt.setBitIo v)).AddPhysicalToVirtualMapping fuel
        (some a) v = Except.ok (f, m1) ∧
      k2.loads = k.loads ++ [load] ∧
      k2.g_physical_mem_manager.translationTable a = some tt2 ∧
      tt2.getBitIo v = false ∧ tt2.getBitValid v = true ∧ tt2.getPhysicalPage v = f ∧
      k2.g_physical_mem_manager.frame f =
        Except.ok { free := false, locked := false, virtualPage := v, owner := some a } := by
  obtain ⟨f, m1, tt2, load, hadd, _, _, hloads, _, hm⟩ :=
    PageFault_resolve_spec fuel k a tt v k2 h
  obtain ⟨m0, r, _, hfr, hm1⟩ :=
    PhysicalMemManager.AddPhysicalToVirtualMapping_spec fuel _ (some a) v f m1 hadd
  have hrec : (m1.setTable a (((tt2.setPhysicalPage v f).clearBitIo v).setBitValid v)).frame f =
      Except.ok { free := false, locked := true, virtualPage := v, owner := some a } := by
    have h1 : m1.frame f =
        Except.ok { free := false, locked := true, virtualPage := v, owner := some a } := by
      rw [hm1]
      exact PhysicalMemManager.frame_setFrame m0 f r _ hfr
    exact h1
  refine ⟨f, m1, ((tt2.setPhysicalPage v f).clearBitIo v).setBitValid v, load, hadd, hloads,
    ?_, ?_, ?_, ?_, ?_⟩
  · rw [hm]
    simp [PhysicalMemManager.setFrame, PhysicalMemManager.setTable]
  · simp [TranslationTable.getBitIo, TranslationTable.setBitValid, TranslationTable.clearBitIo]
  · simp [TranslationTable.getBitValid, TranslationTable.setBitValid]
  · simp [TranslationTable.getPhysicalPage, TranslationTable.setBitValid,
      TranslationTable.clearBitIo, TranslationTable.setPhysicalPage]
  · rw [hm]
    exact PhysicalMemManager.frame_setFrame _ f _ _ hrec

end PageFaultLemmas

section EvictLemmas

open PhysicalMemManager

theorem PhysicalMemManager.validBit_setTable (m : PhysicalMemManager) (a0 : AddrSpace)
    (tt tt2 : TranslationTable) (h0 : m.translationTable a0 = some tt)
    (hsame : ∀ v : Int, tt2.getBitValid v = tt.getBitValid v) (a : AddrSpace) (v : Int) :
    (m.setTable a0 tt2).validBit a v = m.validBit a v := by
  unfold PhysicalMemManager.validBit PhysicalMemManager.setTable
  by_cases ha : a = a0
  · subst ha
    simp [h0, hsame v]
  · simp [Function.update_noteq ha]

theorem TranslationTable.getBitValid_clearBitU (tt : TranslationTable) (pv v : Int) :
    (tt.clearBitU pv).getBitValid v = tt.getBitValid v := by
  unfold TranslationTable.clearBitU TranslationTable.getBitValid
  by_cases h : v = pv
  · subst h
    simp
  · simp [Function.update_noteq h]

theorem TranslationTable.getBitValid_setSwap (tt : TranslationTable) (pv v : Int) (d : Int) :
    ((tt.setAddrDisk pv d).setBitSwap pv).getBitValid v = tt.getBitValid v := by
  unfold TranslationTable.setBitSwap TranslationTable.setAddrDisk TranslationTable.getBitValid
  by_cases h : v = pv
  · subst h
    simp
  · simp [Function.update_noteq h]

theorem PhysicalMemManager.EvictPage_body_validBit (c : ClockScan) (st : ScanStep)
    (h : EvictPage_body c = Except.ok st) (a : AddrSpace) (v : Int) :
    st.next.m.validBit a v = c.m.validBit a v := by
  obtain ⟨p, a0, tt, _, _, ht, _, _, _, _, _, htbl, _, _⟩ :=
    PhysicalMemManager.EvictPage_body_spec c st h
  have hx := PhysicalMemManager.validBit_setTable c.m a0 tt (tt.clearBitU p.virtualPage) ht
    (TranslationTable.getBitValid_clearBitU tt p.virtualPage) a v
  rw [← hx]
  unfold PhysicalMemManager.validBit
  rw [htbl]
  rfl

theorem PhysicalMemManager.EvictPage_finish_validBit (c : ClockScan) (a0 : AddrSpace)
    (pv : Int) (f : Int) (m2 : PhysicalMemManager)
    (h : EvictPage_finish c a0 pv = Except.ok (f, m2)) (a : AddrSpace) (v : Int) :
    m2.validBit a v = c.m.validBit a v := by
  unfold EvictPage_finish at h
  dsimp only at h
  cases ht : c.m.translationTable a0 with
  | none => simp [ht] at h
  | some tt =>
    simp only [ht] at h
    by_cases hM : tt.getBitM pv = true
    · simp only [hM, if_true, Except.ok.injEq, Prod.mk.injEq] at h
      rw [← h.2]
      exact PhysicalMemManager.validBit_setTable
        ({ c.m with i_clock := c.local_i_clock,
                    g_swap_manager := (c.m.g_swap_manager.PutPageSwap c.local_i_clock).2 } :
          PhysicalMemManager) a0 tt _ ht (TranslationTable.getBitValid_setSwap tt pv · _) a v
    · simp only [hM, Bool.false_eq_true, if_false, Except.ok.injEq, Prod.mk.injEq] at h
      rw [← h.2]
      rfl

theorem PhysicalMemManager.EvictPage_loop_validBit (fuel : Nat) (c : ClockScan) (f : Int)
    (m2 : PhysicalMemManager) (h : EvictPage_loop fuel c = Except.ok (f, m2)) (a : AddrSpace)
    (v : Int) : m2.validBit a v = c.m.validBit a v := by
  induction fuel generalizing c with
  | zero => simp [EvictPage_loop] at h
  | succ n ih =>
    unfold EvictPage_loop at h
    cases hb : EvictPage_body c with
    | error e => simp [hb] at h
    | ok st =>
      simp only [hb] at h
      have hbody := PhysicalMemManager.EvictPage_body_validBit c st hb a v
      by_cases hf : st.found = true
      · simp only [hf, if_true] at h
        rw [PhysicalMemManager.EvictPage_finish_validBit _ _ _ _ _ h a v, hbody]
      · have hff : st.found = false := by simpa using hf
        simp only [hff, Bool.false_eq_true, if_false] at h
        rw [ih st.next h, hbody]

end EvictLemmas

/-- C16 (page-fault resolution postcondition).  From a state in which the entry of the faulting
page has io-in-progress clear and valid clear, whenever `PageFault(virtualPage)` returns it
returns `NO_EXCEPTION`, and in the state it leaves the entry has io-in-progress clear and valid
set, its physical frame number is the frame `f` that `AddPhysicalToVirtualMapping` returned,
and the record of frame `f` is non-free, unlocked, owned by the address space of the current
process and mapped to `virtualPage`. -/
theorem PageFault_postcondition (fuel : Nat) (k : Kernel) (a : AddrSpace) (v : Nat)
    (tt : TranslationTable) (exc : ExceptionType) (k2 : Kernel)
    (htt : k.g_physical_mem_manager.translationTable a = some tt)
    (_hio : tt.getBitIo v = false) (hvalid : tt.getBitValid v = false)
    (h : PageFault fuel k a v = Except.ok (exc, k2)) :
    exc = ExceptionType.NO_EXCEPTION ∧
    ∃ (f : Int) (m1 : PhysicalMemManager) (tt2 : TranslationTable),
      (k.g_physical_mem_manager.setTable a (tt.setBitIo v)).AddPhysicalToVirtualMapping fuel
        (some a) v = Except.ok (f, m1) ∧
      k2.g_physical_mem_manager.translationTable a = some tt2 ∧
      tt2.getBitIo v = false ∧ tt2.getBitValid v = true ∧ tt2.getPhysicalPage v = f ∧
      k2.g_physical_mem_manager.frame f =
        Except.ok { free := false, locked := false, virtualPage := v, owner := some a } := by
  obtain ⟨hexc, tt0, htt0, _, hres⟩ := PageFault_spec fuel k a v exc k2 h
  rw [htt] at htt0
  simp only [Option.some.injEq] at htt0
  subst htt0
  obtain ⟨f, m1, tt2, _, hadd, _, h1, h2, h3, h4, h5⟩ :=
    PageFault_resolve_post fuel k a tt v k2 (hres hvalid)
  exact ⟨hexc, f, m1, tt2, hadd, h1, h2, h3, h4, h5⟩

/-- Witness of C16: on the kernel just started, a fault of address space 1 on page 5 returns
`NO_EXCEPTION`, takes frame 0 and leaves the entry valid and mapped to frame 0. -/
theorem PageFault_postcondition_witness :
    ∃ k2 : Kernel,
      PageFault 5 Kernel.started 1 5 = Except.ok (ExceptionType.NO_EXCEPTION, k2) ∧
      k2.g_physical_mem_manager.frame 0 =
        Except.ok { free := false, locked := false, virtualPage := 5, owner := some 1 } ∧
      ∃ (f : Int) (m1 : PhysicalMemManager) (tt2 : TranslationTable),
        (Kernel.started.g_physical_mem_manager.setTable 1
            (TranslationTable.setBitIo (fun _ => PageEntry.unmapped)
              5)).AddPhysicalToVirtualMapping 5 (some 1) 5 = Except.ok (f, m1) ∧
        k2.g_physical_mem_manager.translationTable 1 = some tt2 ∧
        tt2.getBitIo 5 = false ∧ tt2.getBitValid 5 = true ∧ tt2.getPhysicalPage 5 = f ∧
        k2.g_physical_mem_manager.frame f =
          Except.ok { free := false, locked := false, virtualPage := 5, owner := some 1 } :=
  ⟨_, rfl, rfl,
    (PageFault_postcondition 5 Kernel.started 1 5 (fun _ => PageEntry.unmapped)
      ExceptionType.NO_EXCEPTION _ rfl rfl rfl rfl).2⟩

/-- C17 (fault idempotence).  A `PageFault` on a page whose entry is valid, io-in-progress
clear, returns `NO_EXCEPTION` and leaves the whole state as it was: frame table, free list,
translation tables, swap manager and the list of loads (no frame allocated or evicted, nothing
read from swap or from the executable file).  Hence, when a first fault on a page that is not
valid has returned, it has done exactly one load, the page is valid, and a second fault on the
same page returns `NO_EXCEPTION` and changes nothing. -/
theorem PageFault_idempotent (k : Kernel) (a : AddrSpace) (v : Nat) (tt : TranslationTable)
    (htt : k.g_physical_mem_manager.translationTable a = some tt)
    (hio : tt.getBitIo v = false) :
    (tt.getBitValid v = true →
      ∀ fuel : Nat, PageFault (fuel + 1) k a v = Except.ok (ExceptionType.NO_EXCEPTION, k)) ∧
    (tt.getBitValid v = false →
      ∀ (fuel1 fuel2 : Nat) (exc : ExceptionType) (k1 : Kernel),
        PageFault fuel1 k a v = Except.ok (exc, k1) →
        (∃ load : PageLoad, k1.loads = k.loads ++ [load]) ∧
        (∃ tt1 : TranslationTable, k1.g_physical_mem_manager.translationTable a = some tt1 ∧
          tt1.getBitValid v = true) ∧
        PageFault (fuel2 + 1) k1 a v = Except.ok (ExceptionType.NO_EXCEPTION, k1)) := by
  constructor
  · intro hvalid fuel
    exact PageFault_of_valid fuel k a v tt htt hio hvalid
  · intro hvalid fuel1 fuel2 exc k1 h
    obtain ⟨_, tt0, htt0, _, hres⟩ := PageFault_spec fuel1 k a v exc k1 h
    rw [htt] at htt0
    simp only [Option.some.injEq] at htt0
    subst htt0
    obtain ⟨f, m1, tt2, load, _, hloads, h1, h2, h3, _, _⟩ :=
      PageFault_resolve_post fuel1 k a tt v k1 (hres hvalid)
    exact ⟨⟨load, hloads⟩, ⟨tt2, h1, h3⟩, PageFault_of_valid fuel2 k1 a v tt2 h1 h2 h3⟩

/-- Witness of C17: on the kernel just started, the first fault on page 5 does one load (a zero
fill of frame 0), the second fault on page 5 returns `NO_EXCEPTION` and leaves the state. -/
theorem PageFault_idempotent_witness :
    ∃ k1 : Kernel,
      PageFault 5 Kernel.started 1 5 = Except.ok (ExceptionType.NO_EXCEPTION, k1) ∧
      k1.loads = [PageLoad.memset 0 128] ∧
      PageFault 1 k1 1 5 = Except.ok (ExceptionType.NO_EXCEPTION, k1) :=
  ⟨_, rfl, rfl,
    ((PageFault_idempotent Kernel.started 1 5 (fun _ => PageEntry.unmapped) rfl rfl).2 rfl 5 0
      ExceptionType.NO_EXCEPTION _ rfl).2.2⟩

/-- C19 (EvictPage locks its victim), the code at the failing input.  On the full table of four
frames with the hand at 2 and only page 1 unreferenced, `EvictPage` returns frame 1 and the
record of frame 1 in the state at return has `locked = false`: `pPhys.locked = true` is written
to the local copy `pPhys`, not to `tpr`.  In general `EvictPage` returns with `tpr` exactly as
it found it, and the record of the frame returned is unlocked. -/
theorem EvictPage_leaves_victim_unlocked :
    Except.map (fun (p : Int × PhysicalMemManager) => (p.1, p.2.frame p.1))
      ((fourFrames 2 (fun v => decide (v ≠ 1))).EvictPage 8) =
      Except.ok (1, Except.ok
        { free := false, locked := false, virtualPage := 1, owner := some 1 }) ∧
    (∀ (fuel : Nat) (m : PhysicalMemManager),
      match m.EvictPage fuel with
      | Except.ok (f, m2) =>
          m2.tpr = m.tpr ∧ ∃ r : tpr_c, m2.frame f = Except.ok r ∧ r.locked = false
      | Except.error _ => True) := by
  refine ⟨rfl, fun fuel m => ?_⟩
  cases h : m.EvictPage fuel with
  | error e => trivial
  | ok pr =>
    obtain ⟨f, m2⟩ := pr
    have h0 : ({ m := m, local_i_clock := m.i_clock, count := 0 } :
        PhysicalMemManager.ClockScan).inBounds :=
      ⟨le_refl 0, fun hc => absurd hc (lt_irrefl 0)⟩
    obtain ⟨k, c, p, _, _, hloc, hsel, htpr, hm2, _⟩ :=
      PhysicalMemManager.EvictPage_loop_spec fuel _ h0 f m2 h
    refine ⟨hm2, p, ?_, hsel.2.1⟩
    rw [PhysicalMemManager.frame_congr m2 c.m f (hm2.trans htpr.symm), ← hloc]
    exact hsel.1

/-- C20 (EvictPage invalidates the evicted mapping), the code at the failing input.  On the full
table of four frames in which frame 1 holds the modified, unreferenced page 1 of address space
1, the entry of that page is valid; `EvictPage` returns frame 1 and the entry is still valid, and
it is still valid after `AddPhysicalToVirtualMapping` has given frame 1 to page 9 of address
space 2.  In general `EvictPage` returns with every valid bit as it found it: unlike
`RemovePhysicalToVirtualMapping` it has no `clearBitValid`. -/
theorem EvictPage_keeps_valid_bit :
    fourFramesModified.frame 1 =
      Except.ok { free := false, locked := false, virtualPage := 1, owner := some 1 } ∧
    fourFramesModified.validBit 1 1 = some true ∧
    Except.map (fun (p : Int × PhysicalMemManager) => (p.1, p.2.validBit 1 1))
      (fourFramesModified.EvictPage 8) = Except.ok (1, some true) ∧
    Except.map (fun (p : Int × PhysicalMemManager) => (p.1, p.2.frame 1, p.2.validBit 1 1))
      (fourFramesModified.AddPhysicalToVirtualMapping 8 (some 2) 9) =
      Except.ok (1, Except.ok
        { free := false, locked := true, virtualPage := 9, owner := some 2 }, some true) ∧
    (∀ (fuel : Nat) (m : PhysicalMemManager) (a : AddrSpace) (v : Int),
      match m.EvictPage fuel with
      | Except.ok (_, m2) => m2.validBit a v = m.validBit a v
      | Except.error _ => True) := by
  refine ⟨rfl, rfl, rfl, rfl, fun fuel m a v => ?_⟩
  cases h : m.EvictPage fuel with
  | error e => trivial
  | ok pr =>
    obtain ⟨f, m2⟩ := pr
    exact PhysicalMemManager.EvictPage_loop_validBit fuel _ f m2 h a v

/-! ## Theorems: the clock scan, the write-back and the load of a page -/

section ScanLemmas

open PhysicalMemManager

/-- The state an iteration leaves: a U bit cleared in one table, and possibly `i_clock`
stored. -/
theorem PhysicalMemManager.EvictPage_body_state (c : ClockScan) (st : ScanStep)
    (h : EvictPage_body c = Except.ok st) :
    ∃ (p : tpr_c) (a : AddrSpace) (tt : TranslationTable) (x : Int),
      c.m.frame c.local_i_clock = Except.ok p ∧ p.owner = some a ∧
      c.m.translationTable a = some tt ∧
      st.next.m = { c.m.setTable a (tt.clearBitU p.virtualPage) with i_clock := x } := by
  unfold EvictPage_body at h
  cases hp : c.m.frame c.local_i_clock with
  | error e => simp [hp] at h
  | ok p =>
    simp only [hp] at h
    cases ho : p.owner with
    | none => simp [ho] at h
    | some a =>
      simp only [ho] at h
      cases ht : c.m.translationTable a with
      | none => simp [ht] at h
      | some tt =>
        simp only [ht] at h
        by_cases hc : c.count = (c.m.setTable a (tt.clearBitU p.virtualPage)).NumPhysPages - 1
        · simp only [hc, if_true] at h
          split at h
          · simp at h
          · obtain ⟨hm, _⟩ := PhysicalMemManager.EvictPage_advance_spec _ _ _ _ _ _ _ h
            exact ⟨p, a, tt, c.local_i_clock, rfl, ho, ht, hm⟩
        · simp only [hc, if_false] at h
          obtain ⟨hm, _⟩ := PhysicalMemManager.EvictPage_advance_spec _ _ _ _ _ _ _ h
          exact ⟨p, a, tt, c.m.i_clock, rfl, ho, ht, hm⟩

theorem PhysicalMemManager.entryBesidesU_setTable (m : PhysicalMemManager) (a0 : AddrSpace)
    (tt tt2 : TranslationTable) (h0 : m.translationTable a0 = some tt)
    (hsame : ∀ v : Int, ({ tt2 v with U := false } : PageEntry) = { tt v with U := false })
    (a : AddrSpace) (v : Int) :
    (m.setTable a0 tt2).entryBesidesU a v = m.entryBesidesU a v := by
  unfold PhysicalMemManager.entryBesidesU PhysicalMemManager.setTable
  by_cases ha : a = a0
  · subst ha
    simp [h0, hsame v]
  · simp [Function.update_noteq ha]

theorem TranslationTable.clearBitU_besidesU (tt : TranslationTable) (pv v : Int) :
    ({ (tt.clearBitU pv) v with U := false } : PageEntry) = { tt v with U := false } := by
  unfold TranslationTable.clearBitU
  by_cases h : v = pv
  · subst h
    simp
  · simp [Function.update_noteq h]

theorem PhysicalMemManager.EvictPage_body_keeps (c : ClockScan) (st : ScanStep)
    (h : EvictPage_body c = Except.ok st) :
    st.next.m.g_swap_manager = c.m.g_swap_manager ∧
    ∀ (a : AddrSpace) (v : Int), st.next.m.entryBesidesU a v = c.m.entryBesidesU a v := by
  obtain ⟨p, a0, tt, x, _, _, ht, hm⟩ := PhysicalMemManager.EvictPage_body_state c st h
  rw [hm]
  refine ⟨rfl, fun a v => ?_⟩
  exact PhysicalMemManager.entryBesidesU_setTable c.m a0 tt _ ht
    (TranslationTable.clearBitU_besidesU tt p.virtualPage) a v

/-- Unsuccessful iterations change neither `tpr`, nor the swap manager, nor anything but U bits
in the translation tables, and keep the loop variables in bounds. -/
theorem PhysicalMemManager.EvictPage_scan_keeps (k : Nat) (c c2 : ClockScan)
    (hI : c.inBounds) (h : EvictPage_scan k c = some c2) :
    c2.inBounds ∧ c2.m.tpr = c.m.tpr ∧ c2.m.g_swap_manager = c.m.g_swap_manager ∧
    ∀ (a : AddrSpace) (v : Int), c2.m.entryBesidesU a v = c.m.entryBesidesU a v := by
  induction k generalizing c with
  | zero =>
    simp only [EvictPage_scan, Option.some.injEq] at h
    subst h
    exact ⟨hI, rfl, rfl, fun _ _ => rfl⟩
  | succ n ih =>
    unfold EvictPage_scan at h
    cases hb : EvictPage_body c with
    | error e => simp [hb] at h
    | ok st =>
      simp only [hb] at h
      by_cases hf : st.found = true
      · simp [hf] at h
      · have hff : st.found = false := by simpa using hf
        simp only [hff, Bool.false_eq_true, if_false] at h
        obtain ⟨_, _, _, _, _, _, _, _, _, htpr, _, _, _, hnext⟩ :=
          PhysicalMemManager.EvictPage_body_spec c st hb
        obtain ⟨hsw, hent⟩ := PhysicalMemManager.EvictPage_body_keeps c st hb
        obtain ⟨h1, h2, h3, h4⟩ := ih st.next (hnext hff hI) h
        exact ⟨h1, h2.trans htpr, h3.trans hsw, fun a v => (h4 a v).trans (hent a v)⟩

/-- A run of the loop that returns is: some unsuccessful iterations, one iteration that sets
`found`, and the closing statements. -/
theorem PhysicalMemManager.EvictPage_loop_split (fuel : Nat) (c : ClockScan) (f : Int)
    (m2 : PhysicalMemManager) (h : EvictPage_loop fuel c = Except.ok (f, m2)) :
    ∃ (k : Nat) (c2 : ClockScan) (st : ScanStep),
      k < fuel ∧ EvictPage_scan k c = some c2 ∧ EvictPage_body c2 = Except.ok st ∧
      st.found = true ∧ EvictPage_finish st.next st.tt st.pVirt = Except.ok (f, m2) := by
  induction fuel generalizing c with
  | zero => simp [EvictPage_loop] at h
  | succ n ih =>
    unfold EvictPage_loop at h
    cases hb : EvictPage_body c with
    | error e => simp [hb] at h
    | ok st =>
      simp only [hb] at h
      by_cases hf : st.found = true
      · simp only [hf, if_true] at h
        exact ⟨0, c, st, Nat.succ_pos n, rfl, hb, hf, h⟩
      · have hff : st.found = false := by simpa using hf
        simp only [hff, Bool.false_eq_true, if_false] at h
        obtain ⟨k, c2, st2, hk, hscan, hb2, hf2, hfin⟩ := ih st.next h
        refine ⟨k + 1, c2, st2, Nat.succ_lt_succ hk, ?_, hb2, hf2, hfin⟩
        simp only [EvictPage_scan, hb, hff, Bool.false_eq_true, if_false]
        exact hscan

end ScanLemmas

section WriteBackLemmas

open PhysicalMemManager

theorem PhysicalMemManager.EvictPage_finish_eval (c : ClockScan) (a : AddrSpace) (pv : Int)
    (t : TranslationTable) (ht : c.m.translationTable a = some t) :
    EvictPage_finish c a pv =
      if t.getBitM pv then
        Except.ok (c.local_i_clock,
          ({ c.m with i_clock := c.local_i_clock
                      g_swap_manager := (c.m.g_swap_manager.PutPageSwap c.local_i_clock).2 } :
            PhysicalMemManager).setTable a
              ((t.setAddrDisk pv (c.m.g_swap_manager.PutPageSwap c.local_i_clock).1).setBitSwap
                pv))
      else Except.ok (c.local_i_clock, { c.m with i_clock := c.local_i_clock }) := by
  unfold EvictPage_finish
  dsimp only
  rw [ht]

theorem TranslationTable.swap_after_write (t : TranslationTable) (pv d : Int) :
    ((t.setAddrDisk pv d).setBitSwap pv).getAddrDisk pv = d ∧
    ((t.setAddrDisk pv d).setBitSwap pv).getBitSwap pv = true := by
  simp [TranslationTable.setBitSwap, TranslationTable.setAddrDisk,
    TranslationTable.getAddrDisk, TranslationTable.getBitSwap]

/-- What `EvictPage` has done about the swap when it returns frame `f`, in terms of the state
it was entered with. -/
theorem PhysicalMemManager.EvictPage_writeback (fuel : Nat) (m : PhysicalMemManager) (f : Int)
    (m2 : PhysicalMemManager) (h : m.EvictPage fuel = Except.ok (f, m2)) :
    ∃ (p : tpr_c) (a : AddrSpace) (tt : TranslationTable),
      m.frame f = Except.ok p ∧ p.owner = some a ∧ m.translationTable a = some tt ∧
      (tt.getBitM p.virtualPage = true →
        m2.g_swap_manager.written = m.g_swap_manager.written ++ [f] ∧
        ∃ tt2 : TranslationTable, m2.translationTable a = some tt2 ∧
          tt2.getAddrDisk p.virtualPage = (m.g_swap_manager.PutPageSwap f).1 ∧
          tt2.getBitSwap p.virtualPage = true) ∧
      (tt.getBitM p.virtualPage = false →
        m2.g_swap_manager = m.g_swap_manager ∧
        ∃ tt2 : TranslationTable, m2.translationTable a = some tt2 ∧
          tt2.getBitSwap p.virtualPage = tt.getBitSwap p.virtualPage ∧
          tt2.getAddrDisk p.virtualPage = tt.getAddrDisk p.virtualPage) := by
  have h0 : ({ m := m, local_i_clock := m.i_clock, count := 0 } : ClockScan).inBounds :=
    ⟨le_refl 0, fun hc => absurd hc (lt_irrefl 0)⟩
  obtain ⟨k, c2, st, _, hscan, hb, hfound, hfin⟩ :=
    PhysicalMemManager.EvictPage_loop_split fuel _ f m2 h
  obtain ⟨hI2, htpr2, hsw2, hent2⟩ := PhysicalMemManager.EvictPage_scan_keeps k _ c2 h0 hscan
  obtain ⟨p, a, ttc, hp, ho, htc, _, hsta, hstv, _, _, htbl, hsel, _⟩ :=
    PhysicalMemManager.EvictPage_body_spec c2 st hb
  obtain ⟨hsw3, _⟩ := PhysicalMemManager.EvictPage_body_keeps c2 st hb
  have hloc : st.next.local_i_clock = c2.local_i_clock := hsel hfound hI2
  -- the table of `a` when the closing statements run
  have htn : st.next.m.translationTable a = some (ttc.clearBitU p.virtualPage) := by
    rw [htbl]
    simp
  rw [hsta, hstv, PhysicalMemManager.EvictPage_finish_eval st.next a p.virtualPage _ htn] at hfin
  -- the table of `a` when `EvictPage` was entered
  have hE := hent2 a p.virtualPage
  unfold PhysicalMemManager.entryBesidesU at hE
  rw [htc] at hE
  cases htm : (PhysicalMemManager.translationTable m a) with
  | none =>
    change _ = (PhysicalMemManager.translationTable m a).map _ at hE
    rw [htm] at hE
    cases hE
  | some tt =>
    change _ = (PhysicalMemManager.translationTable m a).map _ at hE
    rw [htm] at hE
    simp only [Option.map_some', Option.some.injEq] at hE
    injection hE with _ _ hS _ hM _ hD
    have hMn : (ttc.clearBitU p.virtualPage).getBitM p.virtualPage =
        tt.getBitM p.virtualPage := by
      simp [TranslationTable.getBitM, TranslationTable.clearBitU, hM]
    have hframe : m.frame c2.local_i_clock = Except.ok p := by
      rw [← PhysicalMemManager.frame_congr c2.m m c2.local_i_clock htpr2]
      exact hp
    rw [hMn] at hfin
    by_cases hmod : tt.getBitM p.virtualPage = true
    · simp only [hmod, if_true, Except.ok.injEq, Prod.mk.injEq] at hfin
      obtain ⟨hf, hm2⟩ := hfin
      have hfc : f = c2.local_i_clock := by rw [← hf, hloc]
      have hswn : st.next.m.g_swap_manager = m.g_swap_manager := hsw3.trans hsw2
      refine ⟨p, a, tt, by rw [hfc]; exact hframe, ho, htm, fun _ => ?_, fun hx => ?_⟩
      · rw [← hm2]
        refine ⟨?_, ((ttc.clearBitU p.virtualPage).setAddrDisk p.virtualPage
            (st.next.m.g_swap_manager.PutPageSwap st.next.local_i_clock).1).setBitSwap
              p.virtualPage, ?_, ?_, ?_⟩
        · show (st.next.m.g_swap_manager.PutPageSwap st.next.local_i_clock).2.written = _
          rw [hswn, hf]
          rfl
        · simp [PhysicalMemManager.setTable]
        · rw [(TranslationTable.swap_after_write _ p.virtualPage _).1, hswn, hf]
        · exact (TranslationTable.swap_after_write _ p.virtualPage _).2
      · rw [hmod] at hx
        cases hx
    · have hmf : tt.getBitM p.virtualPage = false := by simpa using hmod
      simp only [hmf, Bool.false_eq_true, if_false, Except.ok.injEq, Prod.mk.injEq] at hfin
      obtain ⟨hf, hm2⟩ := hfin
      have hfc : f = c2.local_i_clock := by rw [← hf, hloc]
      refine ⟨p, a, tt, by rw [hfc]; exact hframe, ho, htm, fun hx => ?_, fun _ => ?_⟩
      · rw [hmf] at hx
        cases hx
      · rw [← hm2]
        refine ⟨hsw3.trans hsw2, ttc.clearBitU p.virtualPage, htn, ?_, ?_⟩
        · simp [TranslationTable.getBitSwap, TranslationTable.clearBitU, hS]
        · simp [TranslationTable.getAddrDisk, TranslationTable.clearBitU, hD]

end WriteBackLemmas

/-- C22 (swap write-back exactly when modified).  Whenever `EvictPage` returns frame `f`, with
`p` the record of `f`, mapped to virtual page `p.virtualPage` of address space `a`: if the M bit
of that page is set, `PutPageSwap` has been called exactly once, for frame `f`, the slot it
returned is the backing-store locator of the page and its on-swap bit is set; if the M bit is
clear, the swap manager is as it was (no write) and the on-swap bit and the locator of the page
are unchanged. -/
theorem EvictPage_swap_writeback (fuel : Nat) (m : PhysicalMemManager) (f : Int)
    (m2 : PhysicalMemManager) (h : m.EvictPage fuel = Except.ok (f, m2)) :
    ∃ (p : tpr_c) (a : AddrSpace) (tt : TranslationTable),
      m.frame f = Except.ok p ∧ p.owner = some a ∧ m.translationTable a = some tt ∧
      (tt.getBitM p.virtualPage = true →
        m2.g_swap_manager.written = m.g_swap_manager.written ++ [f] ∧
        ∃ tt2 : TranslationTable, m2.translationTable a = some tt2 ∧
          tt2.getAddrDisk p.virtualPage = (m.g_swap_manager.PutPageSwap f).1 ∧
          tt2.getBitSwap p.virtualPage = true) ∧
      (tt.getBitM p.virtualPage = false →
        m2.g_swap_manager = m.g_swap_manager ∧
        ∃ tt2 : TranslationTable, m2.translationTable a = some tt2 ∧
          tt2.getBitSwap p.virtualPage = tt.getBitSwap p.virtualPage ∧
          tt2.getAddrDisk p.virtualPage = tt.getAddrDisk p.virtualPage) :=
  PhysicalMemManager.EvictPage_writeback fuel m f m2 h

/-- Witness of C22: with the M bit of the victim's page set (frame 1 of `fourFramesModified`)
one write of frame 1 is recorded; with every M bit clear (`fourFrames`) none is. -/
theorem EvictPage_swap_writeback_witness :
    (∃ m2 : PhysicalMemManager,
      fourFramesModified.EvictPage 8 = Except.ok (1, m2) ∧
      m2.g_swap_manager.written = [1] ∧
      ∃ (p : tpr_c) (a : AddrSpace) (tt : TranslationTable),
        fourFramesModified.frame 1 = Except.ok p ∧ p.owner = some a ∧
        fourFramesModified.translationTable a = some tt ∧
        (tt.getBitM p.virtualPage = true →
          m2.g_swap_manager.written = fourFramesModified.g_swap_manager.written ++ [1] ∧
          ∃ tt2 : TranslationTable, m2.translationTable a = some tt2 ∧
            tt2.getAddrDisk p.virtualPage =
              (fourFramesModified.g_swap_manager.PutPageSwap 1).1 ∧
            tt2.getBitSwap p.virtualPage = true) ∧
        (tt.getBitM p.virtualPage = false →
          m2.g_swap_manager = fourFramesModified.g_swap_manager ∧
          ∃ tt2 : TranslationTable, m2.translationTable a = some tt2 ∧
            tt2.getBitSwap p.virtualPage = tt.getBitSwap p.virtualPage ∧
            tt2.getAddrDisk p.virtualPage = tt.getAddrDisk p.virtualPage)) ∧
    Except.map (fun (r : Int × PhysicalMemManager) => (r.1, r.2.g_swap_manager.written))
      ((fourFrames 2 (fun v => decide (v ≠ 1))).EvictPage 8) = Except.ok (1, []) :=
  ⟨⟨_, rfl, rfl, EvictPage_swap_writeback 8 fourFramesModified 1 _ rfl⟩, rfl⟩

section LoadLemmas

theorem PageFault_waitAddrDisk_spec (fuel : Nat) (tt : TranslationTable) (v ad d : Int)
    (h : PageFault_waitAddrDisk fuel tt v ad = Except.ok d) :
    d ≠ -1 ∧ (ad ≠ -1 → d = ad) ∧ (ad = -1 → d = tt.getAddrDisk v) := by
  induction fuel generalizing ad with
  | zero => simp [PageFault_waitAddrDisk] at h
  | succ n ih =>
    unfold PageFault_waitAddrDisk at h
    by_cases hm : ad = -1
    · simp only [hm, if_true] at h
      obtain ⟨h1, h2, h3⟩ := ih (tt.getAddrDisk v) h
      refine ⟨h1, fun hx => absurd hm hx, fun _ => ?_⟩
      by_cases hg : tt.getAddrDisk v = -1
      · exact h3 hg
      · exact h2 hg
    · simp only [hm, if_false, Except.ok.injEq] at h
      exact ⟨by rw [← h]; exact hm, fun _ => h.symm, fun hx => absurd hx hm⟩

theorem PageFault_load_spec (fuel : Nat) (tt : TranslationTable) (v ad ps : Int)
    (load : PageLoad) (h : PageFault_load fuel tt v ad ps = Except.ok load) :
    (tt.getBitSwap v = true →
      ∃ d : Int, d ≠ -1 ∧ (ad ≠ -1 → d = ad) ∧ (ad = -1 → d = tt.getAddrDisk v) ∧
        load = PageLoad.GetPageSwap d (tt.getPhysicalPage v)) ∧
    (tt.getBitSwap v = false → ad ≠ -1 →
      load = PageLoad.ReadAt (tt.getPhysicalPage v) ps ad) ∧
    (tt.getBitSwap v = false → ad = -1 →
      load = PageLoad.memset (tt.getPhysicalPage v) ps) := by
  unfold PageFault_load at h
  by_cases hs : tt.getBitSwap v = true
  · simp only [hs, if_true] at h
    cases hw : PageFault_waitAddrDisk fuel tt v ad with
    | error e => simp [hw] at h
    | ok d =>
      simp only [hw, Except.ok.injEq] at h
      obtain ⟨h1, h2, h3⟩ := PageFault_waitAddrDisk_spec fuel tt v ad d hw
      refine ⟨fun _ => ⟨d, h1, h2, h3, h.symm⟩, ?_, ?_⟩
      · intro hx
        rw [hs] at hx
        cases hx
      · intro hx
        rw [hs] at hx
        cases hx
  · have hsf : tt.getBitSwap v = false := by simpa using hs
    simp only [hsf, Bool.false_eq_true, if_false] at h
    by_cases hm : ad = -1
    · simp only [hm, if_true, Except.ok.injEq] at h
      refine ⟨?_, ?_, ?_⟩
      · intro hx
        rw [hsf] at hx
        cases hx
      · intro _ hx
        exact absurd hm hx
      · intro _ _
        rw [← h]
    · simp only [hm, if_false, Except.ok.injEq] at h
      refine ⟨?_, ?_, ?_⟩
      · intro hx
        rw [hsf] at hx
        cases hx
      · intro _ _
        exact h.symm
      · intro _ hx
        exact absurd hx hm

theorem TranslationTable.setPhysicalPage_reads (tt : TranslationTable) (v f : Int) :
    (tt.setPhysicalPage v f).getBitSwap v = tt.getBitSwap v ∧
    (tt.setPhysicalPage v f).getAddrDisk v = tt.getAddrDisk v ∧
    (tt.setPhysicalPage v f).getPhysicalPage v = f := by
  simp [TranslationTable.setPhysicalPage, TranslationTable.getBitSwap,
    TranslationTable.getAddrDisk, TranslationTable.getPhysicalPage]

theorem TranslationTable.setBitIo_reads (tt : TranslationTable) (v : Int) :
    (tt.setBitIo v).getBitSwap v = tt.getBitSwap v ∧
    (tt.setBitIo v).getAddrDisk v = tt.getAddrDisk v := by
  simp [TranslationTable.setBitIo, TranslationTable.getBitSwap, TranslationTable.getAddrDisk]

/-- When a free frame is at hand, `AddPhysicalToVirtualMapping` leaves the translation tables
alone. -/
theorem PhysicalMemManager.AddPhysicalToVirtualMapping_tables (fuel : Nat)
    (m : PhysicalMemManager) (owner : Option AddrSpace) (v : Int) (f : Int)
    (m2 : PhysicalMemManager) (hne : m.free_page_list ≠ [])
    (h : m.AddPhysicalToVirtualMapping fuel owner v = Except.ok (f, m2)) :
    m2.translationTable = m.translationTable := by
  obtain ⟨m1, r, hsrc, _, hm2⟩ :=
    PhysicalMemManager.AddPhysicalToVirtualMapping_spec fuel m owner v f m2 h
  rw [hm2]
  rcases hsrc with ⟨_, hff⟩ | ⟨m0, hff, _⟩
  · rcases PhysicalMemManager.FindFreePage_spec m f m1 hff with
      ⟨_, _, hl⟩ | ⟨r0, rest, _, _, _, hm1⟩
    · exact absurd hl hne
    · rw [hm1]
      rfl
  · rcases PhysicalMemManager.FindFreePage_spec m (-1) m0 hff with
      ⟨_, _, hl⟩ | ⟨r0, rest, _, hp, _, _⟩
    · exact absurd hl hne
    · exact absurd (PhysicalMemManager.frame_lt m (-1) r0 hp).1 (by decide)

end LoadLemmas

/-- The load a resolution does, in terms of what the code reads.  When `PageFault` has resolved
a page that was not valid, it has done exactly one load into the frame `f` it obtained, chosen
by the on-swap bit read at line 62 (after the allocation) and the locator read at line 56
(before it): on-swap bit set gives `GetPageSwap` with the locator, which is not -1 (the locator
read first, or the one read again by the waiting loop when the first was -1); on-swap bit clear
and locator not -1 gives a read of `PageSize` bytes of the executable file at that offset;
otherwise `PageSize` bytes of the frame are set to zero.  When a free frame was at hand the
on-swap bit read is the one the entry had when the fault occurred. -/
theorem PageFault_load_source (fuel : Nat) (k : Kernel) (a : AddrSpace) (v : Nat)
    (tt : TranslationTable) (exc : ExceptionType) (k2 : Kernel)
    (htt : k.g_physical_mem_manager.translationTable a = some tt)
    (hvalid : tt.getBitValid v = false)
    (h : PageFault fuel k a v = Except.ok (exc, k2)) :
    ∃ (f : Int) (m1 : PhysicalMemManager) (tt2 : TranslationTable) (load : PageLoad),
      (k.g_physical_mem_manager.setTable a (tt.setBitIo v)).AddPhysicalToVirtualMapping fuel
        (some a) v = Except.ok (f, m1) ∧
      m1.translationTable a = some tt2 ∧
      k2.loads = k.loads ++ [load] ∧
      (tt2.getBitSwap v = true →
        ∃ d : Int, d ≠ -1 ∧ (tt.getAddrDisk v ≠ -1 → d = tt.getAddrDisk v) ∧
          (tt.getAddrDisk v = -1 → d = tt2.getAddrDisk v) ∧
          load = PageLoad.GetPageSwap d f) ∧
      (tt2.getBitSwap v = false → tt.getAddrDisk v ≠ -1 →
        load = PageLoad.ReadAt f k.PageSize (tt.getAddrDisk v)) ∧
      (tt2.getBitSwap v = false → tt.getAddrDisk v = -1 →
        load = PageLoad.memset f k.PageSize) ∧
      (k.g_physical_mem_manager.free_page_list ≠ [] →
        tt2.getBitSwap v = tt.getBitSwap v) := by
  obtain ⟨_, tt0, htt0, _, hres⟩ := PageFault_spec fuel k a v exc k2 h
  rw [htt] at htt0
  simp only [Option.some.injEq] at htt0
  subst htt0
  obtain ⟨f, m1, tt2, load, hadd, htt2, hload, hloads, _, _⟩ :=
    PageFault_resolve_spec fuel k a tt v k2 (hres hvalid)
  obtain ⟨hA, hB, hC⟩ := PageFault_load_spec fuel _ v _ k.PageSize load hload
  obtain ⟨hs, hd, hpp⟩ := TranslationTable.setPhysicalPage_reads tt2 v f
  obtain ⟨_, hio⟩ := TranslationTable.setBitIo_reads tt v
  rw [hs, hio] at hA hB hC
  rw [hpp] at hA hB hC
  rw [hd] at hA
  refine ⟨f, m1, tt2, load, hadd, htt2, hloads, hA, hB, hC, fun hne => ?_⟩
  have htabs := PhysicalMemManager.AddPhysicalToVirtualMapping_tables fuel _ (some a) v f m1
    (by exact hne) hadd
  have h2 : m1.translationTable a = some (tt.setBitIo v) := by
    rw [htabs]
    simp [PhysicalMemManager.setTable]
  rw [htt2] at h2
  simp only [Option.some.injEq] at h2
  rw [h2]
  exact (TranslationTable.setBitIo_reads tt v).1

/-- Instances of `PageFault_load_source`: on a kernel just started, a page without mapping is
zero-filled, a page with locator 4096 is read from the executable file, a page on swap with
locator 7 is read from swap. -/
theorem PageFault_load_source_witness :
    (∃ k2 : Kernel,
      PageFault 5 Kernel.started 1 5 = Except.ok (ExceptionType.NO_EXCEPTION, k2) ∧
      k2.loads = [PageLoad.memset 0 128] ∧
      ∃ (f : Int) (m1 : PhysicalMemManager) (tt2 : TranslationTable) (load : PageLoad),
        (Kernel.started.g_physical_mem_manager.setTable 1
          (TranslationTable.setBitIo (fun _ => PageEntry.unmapped)
            5)).AddPhysicalToVirtualMapping 5 (some 1) 5 = Except.ok (f, m1) ∧
        m1.translationTable 1 = some tt2 ∧
        k2.loads = Kernel.started.loads ++ [load]) ∧
    Except.map (fun (r : ExceptionType × Kernel) => r.2.loads)
      (PageFault 5 (Kernel.startedWith { PageEntry.unmapped with addrDisk := 4096 }) 1 5) =
      Except.ok [PageLoad.ReadAt 0 128 4096] ∧
    Except.map (fun (r : ExceptionType × Kernel) => r.2.loads)
      (PageFault 5
        (Kernel.startedWith { PageEntry.unmapped with swap := true, addrDisk := 7 }) 1 5) =
      Except.ok [PageLoad.GetPageSwap 7 0] := by
  obtain ⟨f, m1, tt2, load, h1, h2, h3, _⟩ :=
    PageFault_load_source 5 Kernel.started 1 5 (fun _ => PageEntry.unmapped)
      ExceptionType.NO_EXCEPTION _ rfl rfl rfl
  exact ⟨⟨_, rfl, rfl, f, m1, tt2, load, h1, h2, h3⟩, rfl, rfl⟩

section StuckLemmas

open PhysicalMemManager

/-- An iteration goes through as soon as the frame under the hand has an owner with a
translation table and there are at least two frames. -/
theorem PhysicalMemManager.EvictPage_body_runs (c : ClockScan) (p : tpr_c) (a : AddrSpace)
    (tt : TranslationTable) (hp : c.m.frame c.local_i_clock = Except.ok p)
    (ho : p.owner = some a) (ht : c.m.translationTable a = some tt)
    (hN : c.m.NumPhysPages - 1 ≠ 0) : ∃ st : ScanStep, EvictPage_body c = Except.ok st := by
  unfold EvictPage_body
  simp only [hp, ho, ht]
  have hN1 : (c.m.setTable a (tt.clearBitU p.virtualPage)).NumPhysPages = c.m.NumPhysPages :=
    rfl
  have hN2 : PhysicalMemManager.NumPhysPages
      { (c.m.setTable a (tt.clearBitU p.virtualPage)) with i_clock := c.local_i_clock } =
      c.m.NumPhysPages := rfl
  by_cases hc : c.count = c.m.NumPhysPages - 1
  · simp only [hN1, hc, if_true, hN2, hN, if_false]
    unfold EvictPage_advance
    simp only [hN2, hN, if_false]
    split <;> exact ⟨_, rfl⟩
  · simp only [hN1, hc, if_false]
    unfold EvictPage_advance
    simp only [hN1, hN, if_false]
    split <;> exact ⟨_, rfl⟩

/-- After an iteration that did not select, the hand is on one of the frames
`0 .. NumPhysPages-2`. -/
theorem PhysicalMemManager.EvictPage_body_next (c : ClockScan) (st : ScanStep)
    (h : EvictPage_body c = Except.ok st) (hnf : st.found = false) :
    0 ≤ st.next.local_i_clock ∧ st.next.local_i_clock < c.m.NumPhysPages - 1 := by
  unfold EvictPage_body at h
  cases hp : c.m.frame c.local_i_clock with
  | error e => simp [hp] at h
  | ok p =>
    simp only [hp] at h
    have hrange := PhysicalMemManager.frame_lt c.m c.local_i_clock p hp
    cases ho : p.owner with
    | none => simp [ho] at h
    | some a =>
      simp only [ho] at h
      cases ht : c.m.translationTable a with
      | none => simp [ht] at h
      | some tt =>
        simp only [ht] at h
        by_cases hc : c.count = (c.m.setTable a (tt.clearBitU p.virtualPage)).NumPhysPages - 1
        · simp only [hc, if_true] at h
          split at h
          · simp at h
          · obtain ⟨_, hf, _, _, _, hF⟩ :=
              PhysicalMemManager.EvictPage_advance_spec _ _ _ _ _ _ _ h
            rw [hf] at hnf
            obtain ⟨hz0, hl0, _⟩ := hF hnf
            have hz : c.m.NumPhysPages - 1 ≠ 0 := hz0
            have hl : st.next.local_i_clock =
                Int.tmod (Int.tmod c.local_i_clock (c.m.NumPhysPages - 1) + 1)
                  (c.m.NumPhysPages - 1) := hl0
            have hpos : 0 < c.m.NumPhysPages - 1 := by omega
            have h1 : 0 ≤ Int.tmod c.local_i_clock (c.m.NumPhysPages - 1) :=
              Int.tmod_nonneg _ hrange.1
            rw [hl]
            exact ⟨Int.tmod_nonneg _ (by omega), Int.tmod_lt_of_pos _ hpos⟩
        · simp only [hc, if_false] at h
          obtain ⟨_, hf, _, _, _, hF⟩ :=
            PhysicalMemManager.EvictPage_advance_spec _ _ _ _ _ _ _ h
          rw [hf] at hnf
          obtain ⟨hz0, hl0, _⟩ := hF hnf
          have hz : c.m.NumPhysPages - 1 ≠ 0 := hz0
          have hl : st.next.local_i_clock =
              Int.tmod (c.local_i_clock + 1) (c.m.NumPhysPages - 1) := hl0
          have hpos : 0 < c.m.NumPhysPages - 1 := by omega
          rw [hl]
          exact ⟨Int.tmod_nonneg _ (by omega), Int.tmod_lt_of_pos _ hpos⟩

theorem PhysicalMemManager.ClockScan.stuck_body (c : ClockScan) (hs : c.stuck) :
    ∃ st : ScanStep, EvictPage_body c = Except.ok st ∧ st.found = false ∧ st.next.stuck := by
  obtain ⟨hN, hl0, hl1, hall⟩ := hs
  obtain ⟨p, a, tt, hp, hlock, ho, ht⟩ := hall c.local_i_clock hl0 hl1
  obtain ⟨st, hb⟩ := PhysicalMemManager.EvictPage_body_runs c p a tt hp ho ht (by omega)
  obtain ⟨p2, a2, tt2, hp2, ho2, ht2, hfound, _, _, _, _, _, _, _⟩ :=
    PhysicalMemManager.EvictPage_body_spec c st hb
  have hpe : p2 = p := by
    rw [hp] at hp2
    simp only [Except.ok.injEq] at hp2
    exact hp2.symm
  have hnf : st.found = false := by
    rw [hfound, hpe, hlock]
    simp
  obtain ⟨p3, a3, tt3, x, _, _, ht3, hm⟩ := PhysicalMemManager.EvictPage_body_state c st hb
  obtain ⟨hn0, hn1⟩ := PhysicalMemManager.EvictPage_body_next c st hb hnf
  have hNn : st.next.m.NumPhysPages = c.m.NumPhysPages := by rw [hm]; rfl
  refine ⟨st, hb, hnf, ?_, hn0, ?_, ?_⟩
  · rw [hNn]
    exact hN
  · rw [hNn]
    exact hn1
  · intro i hi0 hi1
    rw [hNn] at hi1
    obtain ⟨q, b, tb, hq, hql, hqo, hqt⟩ := hall i hi0 hi1
    have hfr : st.next.m.frame i = c.m.frame i := by
      rw [hm]
      rfl
    by_cases hb3 : b = a3
    · refine ⟨q, b, tt3.clearBitU p3.virtualPage, by rw [hfr]; exact hq, hql, hqo, ?_⟩
      rw [hm, hb3]
      simp [PhysicalMemManager.setTable]
    · refine ⟨q, b, tb, by rw [hfr]; exact hq, hql, hqo, ?_⟩
      rw [hm]
      simp [PhysicalMemManager.setTable, Function.update_noteq hb3, hqt]

/-- From stuck loop variables the loop is still going after any number of iterations. -/
theorem PhysicalMemManager.EvictPage_loop_stuck (fuel : Nat) (c : ClockScan) (hs : c.stuck) :
    EvictPage_loop fuel c = Except.error Fault.fuel := by
  induction fuel generalizing c with
  | zero => rfl
  | succ n ih =>
    obtain ⟨st, hb, hnf, hnext⟩ := PhysicalMemManager.ClockScan.stuck_body c hs
    unfold EvictPage_loop
    simp only [hb, hnf, Bool.false_eq_true, if_false]
    exact ih st.next hnext

end StuckLemmas

/-- C21 (second-chance scan), the code at the failing inputs.  In the scenario of four frames
with the hand at frame 2, frames 0, 2, 3 referenced and frame 1 unreferenced and unlocked,
`EvictPage` returns frame 1 and leaves the hand at 1, but the frames it visits are 2, 0, 1: it
clears U on frames 2 and 0 only, the U bit of the page of frame 3 is still set at return.  With
the hand at frame 0 and frame 3 the first (and only) unlocked frame with U = 0 in the circular
order 0, 1, 2, 3, it returns frame 0, not frame 3.  The hand advances modulo `NumPhysPages-1`,
so frame 3 is never reached. -/
theorem EvictPage_scan_skips_last_frame :
    Except.map (fun (r : Int × PhysicalMemManager) =>
        (r.1, r.2.i_clock, r.2.bitU 2 2, r.2.bitU 2 3, r.2.bitU 1 0))
      ((fourFrames 2 (fun v => decide (v ≠ 1))).EvictPage 8) =
      Except.ok (1, 1, some false, some true, some false) ∧
    (fourFrames 2 (fun v => decide (v ≠ 1))).bitU 2 3 = some true ∧
    [0, 1, 2].map (fun k => Option.map (fun (c : PhysicalMemManager.ClockScan) => c.local_i_clock)
      (PhysicalMemManager.EvictPage_scan k
        { m := fourFrames 2 (fun v => decide (v ≠ 1)), local_i_clock := 2, count := 0 })) =
      [some 2, some 0, some 1] ∧
    (fourFrames 0 (fun v => decide (v ≠ 3))).frame 3 =
      Except.ok { free := false, locked := false, virtualPage := 3, owner := some 2 } ∧
    (fourFrames 0 (fun v => decide (v ≠ 3))).bitU 2 3 = some false ∧
    [(fourFrames 0 (fun v => decide (v ≠ 3))).bitU 1 0,
      (fourFrames 0 (fun v => decide (v ≠ 3))).bitU 1 1,
      (fourFrames 0 (fun v => decide (v ≠ 3))).bitU 2 2] = [some true, some true, some true] ∧
    Except.map Prod.fst ((fourFrames 0 (fun v => decide (v ≠ 3))).EvictPage 8) = Except.ok 0 :=
  ⟨rfl, rfl, rfl, rfl, rfl, rfl, rfl⟩

/-- C24 (frame indices stay in range), the code at the failing input.  On a manager of two
frames just constructed, two allocations (each followed by `UnlockPage`) return and leave both
frames occupied, the free list empty and the hand at -1, the value the constructor gave it; the
next `AddPhysicalToVirtualMapping` needs eviction, and `EvictPage` starts by reading
`tpr[local_i_clock]` with `local_i_clock = i_clock = -1`, an index outside `[0, NumPhysPages)`:
the run stops at that read, whatever the bound on the loop. -/
theorem EvictPage_first_read_out_of_range :
    Except.map (fun (m : PhysicalMemManager) =>
        (m.tpr.map (fun r => r.free), m.free_page_list, m.i_clock, m.frame m.i_clock))
      (twoFramesFresh.calls
        [MemCall.AddPhysicalToVirtualMapping 8 (some 1) 0, MemCall.UnlockPage 0,
          MemCall.AddPhysicalToVirtualMapping 8 (some 1) 1, MemCall.UnlockPage 1]) =
      Except.ok ([false, false], [], -1, Except.error Fault.outOfBounds) ∧
    (∀ fuel : Nat, Except.map PhysicalMemManager.tpr
      (twoFramesFresh.calls
        [MemCall.AddPhysicalToVirtualMapping 8 (some 1) 0, MemCall.UnlockPage 0,
          MemCall.AddPhysicalToVirtualMapping 8 (some 1) 1, MemCall.UnlockPage 1,
          MemCall.AddPhysicalToVirtualMapping (fuel + 1) (some 1) 2]) =
      Except.error Fault.outOfBounds) ∧
    (∀ fuel : Nat, Except.map PhysicalMemManager.tpr
      (twoFramesFresh.calls
        [MemCall.AddPhysicalToVirtualMapping 8 (some 1) 0, MemCall.UnlockPage 0,
          MemCall.AddPhysicalToVirtualMapping 8 (some 1) 1, MemCall.UnlockPage 1,
          MemCall.EvictPage (fuel + 1)]) =
      Except.error Fault.outOfBounds) :=
  ⟨rfl, fun _ => rfl, fun _ => rfl⟩

/-- C25 (eviction terminates when a candidate exists), the code at the failing input.  Four
frames, all occupied, hand at frame 0 (inside the array), frames 0, 1, 2 locked and frame 3
unlocked with U = 0: however many iterations are followed, `EvictPage` has not returned; the
hand advances modulo `NumPhysPages-1` and goes round frames 0, 1, 2 for ever without reaching
the unlocked frame 3. -/
theorem EvictPage_never_returns :
    fourFramesLastUnlocked.NumPhysPages = 4 ∧
    fourFramesLastUnlocked.i_clock = 0 ∧
    fourFramesLastUnlocked.tpr.map (fun r => (r.free, r.locked)) =
      [(false, true), (false, true), (false, true), (false, false)] ∧
    fourFramesLastUnlocked.bitU 2 3 = some false ∧
    (∀ fuel : Nat, fourFramesLastUnlocked.EvictPage fuel = Except.error Fault.fuel) := by
  refine ⟨rfl, rfl, rfl, rfl, fun fuel => ?_⟩
  apply PhysicalMemManager.EvictPage_loop_stuck
  refine ⟨by decide, by decide, by decide, ?_⟩
  intro i hi0 hi1
  have hi1b : i < 3 := hi1
  have hcases : i = 0 ∨ i = 1 ∨ i = 2 := by omega
  rcases hcases with h | h | h
  · subst h
    exact ⟨_, 1, _, rfl, rfl, rfl, rfl⟩
  · subst h
    exact ⟨_, 1, _, rfl, rfl, rfl, rfl⟩
  · subst h
    exact ⟨_, 2, _, rfl, rfl, rfl, rfl⟩

section RoundTripLemmas

open PhysicalMemManager

theorem PhysicalMemManager.AddPhysicalToVirtualMapping_of_free (fuel : Nat)
    (m : PhysicalMemManager) (owner : Option AddrSpace) (v : Int) (f : Int) (rest : List Int)
    (r : tpr_c) (hl : m.free_page_list = f :: rest) (hp : m.frame f = Except.ok r)
    (hfree : r.free = true) :
    m.AddPhysicalToVirtualMapping fuel owner v = Except.ok (f,
      (({ m with free_page_list := rest } : PhysicalMemManager).setFrame f
        { r with free := false }).setFrame f
          { free := false, locked := true, virtualPage := v, owner := owner }) := by
  have h0 := (PhysicalMemManager.frame_lt m f r hp).1
  have hne : f ≠ -1 := by omega
  have hfr : PhysicalMemManager.frame
      ({ m with free_page_list := rest } : PhysicalMemManager) f = Except.ok r := hp
  have hff : m.FindFreePage = Except.ok (f,
      ({ m with free_page_list := rest } : PhysicalMemManager).setFrame f
        { r with free := false }) := by
    simp only [PhysicalMemManager.FindFreePage, Listint.IsEmpty, Listint.Remove, hl,
      List.isEmpty_cons, Bool.false_eq_true, if_false, hfr, hfree, if_true]
  have hfr2 := PhysicalMemManager.frame_setFrame
    ({ m with free_page_list := rest } : PhysicalMemManager) f r { r with free := false } hfr
  simp only [PhysicalMemManager.AddPhysicalToVirtualMapping, hff, hne, if_false, hfr2]

theorem PhysicalMemManager.Remove_eval (m : PhysicalMemManager) (f : Int) (r : tpr_c)
    (a : AddrSpace) (hp : m.frame f = Except.ok r) (hfree : r.free = false)
    (ho : r.owner = some a) :
    m.RemovePhysicalToVirtualMapping f = Except.ok
      { (m.setFrame f { r with free := true, locked := false }).clearValidIfTable a
          r.virtualPage with
        free_page_list := Listint.Prepend
          ((m.setFrame f { r with free := true, locked := false }).clearValidIfTable a
            r.virtualPage).free_page_list f } := by
  simp only [PhysicalMemManager.RemovePhysicalToVirtualMapping, hp, hfree,
    Bool.false_eq_true, if_false]
  rw [ho]

end RoundTripLemmas

/-- C26 (allocate-then-release round trip).  In every state `m` of a manager (a state reached
from the constructor by calls that return) whose free list is `f :: rest`:
`AddPhysicalToVirtualMapping(a, v)` returns `f`, and `RemovePhysicalToVirtualMapping(f)` called
next returns and leaves a state whose free list is the list of `m` (same frames, same order), in
which frame `f` is free and unlocked again and the record of every other frame is the one it
has in `m`. -/
theorem allocate_release_round_trip (N : Nat) (garbage : Nat → Int)
    (tts : AddrSpace → Option TranslationTable) (sw : SwapManager) (cs : List MemCall)
    (m : PhysicalMemManager) (fuel : Nat) (a : AddrSpace) (v : Int) (f : Int)
    (rest : List Int)
    (h : (PhysicalMemManager.create N garbage tts sw).calls cs = Except.ok m)
    (hl : m.free_page_list = f :: rest) :
    ∃ m1 m2 : PhysicalMemManager,
      m.AddPhysicalToVirtualMapping fuel (some a) v = Except.ok (f, m1) ∧
      m1.RemovePhysicalToVirtualMapping f = Except.ok m2 ∧
      m2.free_page_list = m.free_page_list ∧
      m2.frame f =
        Except.ok { free := true, locked := false, virtualPage := v, owner := some a } ∧
      (∀ i : Int, i ≠ f → m2.frame i = m.frame i) ∧
      m2.i_clock = m.i_clock := by
  have hc := PhysicalMemManager.listConsistent_calls cs _ m
    (PhysicalMemManager.listConsistent_create N garbage tts sw) h
  obtain ⟨r, hp, hfree⟩ := (hc.2 f).mp (by rw [hl]; exact List.mem_cons_self f rest)
  have h0 := (PhysicalMemManager.frame_lt m f r hp).1
  have hadd := PhysicalMemManager.AddPhysicalToVirtualMapping_of_free fuel m (some a) v f rest
    r hl hp hfree
  -- the states after the allocation and inside the release
  have hfr0 : PhysicalMemManager.frame
      (({ m with free_page_list := rest } : PhysicalMemManager).setFrame f
        { r with free := false }) f = Except.ok { r with free := false } :=
    PhysicalMemManager.frame_setFrame
      ({ m with free_page_list := rest } : PhysicalMemManager) f r _ hp
  generalize hm0 : (({ m with free_page_list := rest } : PhysicalMemManager).setFrame f
        { r with free := false }) = m0 at hadd hfr0
  have hm0l : m0.free_page_list = rest := by rw [← hm0]; rfl
  have hm0c : m0.i_clock = m.i_clock := by rw [← hm0]; rfl
  have hm0f : ∀ i : Int, i ≠ f → m0.frame i = m.frame i := by
    intro i hi
    rw [← hm0, PhysicalMemManager.frame_setFrame_ne _ i f _ h0 hi]
    rfl
  have hfr1 := PhysicalMemManager.frame_setFrame m0 f _
    ({ free := false, locked := true, virtualPage := v, owner := some a } : tpr_c) hfr0
  generalize hm1 : m0.setFrame f
    ({ free := false, locked := true, virtualPage := v, owner := some a } : tpr_c) = m1
    at hadd hfr1
  have hm1l : m1.free_page_list = rest := by rw [← hm1]; exact hm0l
  have hm1c : m1.i_clock = m.i_clock := by rw [← hm1]; exact hm0c
  have hm1f : ∀ i : Int, i ≠ f → m1.frame i = m.frame i := by
    intro i hi
    rw [← hm1, PhysicalMemManager.frame_setFrame_ne m0 i f _ h0 hi]
    exact hm0f i hi
  have hrem := PhysicalMemManager.Remove_eval m1 f _ a hfr1 rfl rfl
  have hfrS := PhysicalMemManager.frame_setFrame m1 f _
    ({ free := true, locked := false, virtualPage := v, owner := some a } : tpr_c) hfr1
  generalize hmS : m1.setFrame f
    ({ free := true, locked := false, virtualPage := v, owner := some a } : tpr_c) = mS
    at hfrS
  have hmSl : mS.free_page_list = rest := by rw [← hmS]; exact hm1l
  have hmSc : mS.i_clock = m.i_clock := by rw [← hmS]; exact hm1c
  have hmSf : ∀ i : Int, i ≠ f → mS.frame i = m.frame i := by
    intro i hi
    rw [← hmS, PhysicalMemManager.frame_setFrame_ne m1 i f _ h0 hi]
    exact hm1f i hi
  have hrem2 : m1.RemovePhysicalToVirtualMapping f = Except.ok
      { mS.clearValidIfTable a v with
        free_page_list := Listint.Prepend (mS.clearValidIfTable a v).free_page_list f } := by
    rw [hrem, ← hmS]
  have htpr : ({ mS.clearValidIfTable a v with
      free_page_list := Listint.Prepend (mS.clearValidIfTable a v).free_page_list f } :
      PhysicalMemManager).tpr = mS.tpr :=
    PhysicalMemManager.clearValidIfTable_tpr mS a v
  refine ⟨m1, _, hadd, hrem2, ?_, ?_, ?_, ?_⟩
  · show Listint.Prepend (mS.clearValidIfTable a v).free_page_list f = m.free_page_list
    rw [PhysicalMemManager.clearValidIfTable_free_page_list, hmSl, hl]
    rfl
  · rw [PhysicalMemManager.frame_congr _ mS f htpr]
    exact hfrS
  · intro i hi
    rw [PhysicalMemManager.frame_congr _ mS i htpr]
    exact hmSf i hi
  · show (mS.clearValidIfTable a v).i_clock = m.i_clock
    rw [← hmSc]
    unfold PhysicalMemManager.clearValidIfTable
    split <;> rfl

/-- Witness of C26: on a fresh manager of two frames (free list 0, 1) frame 0 is allocated for
page 3 of address space 7 and released: the free list is 0, 1 again and both frames are
free. -/
theorem allocate_release_round_trip_witness :
    (PhysicalMemManager.create 2 (fun _ => 0) (fun _ => none)
      { slotOf := fun n => n, written := [] }).free_page_list = [0, 1] ∧
    ∃ m1 m2 : PhysicalMemManager,
      (PhysicalMemManager.create 2 (fun _ => 0) (fun _ => none)
        { slotOf := fun n => n, written := [] }).AddPhysicalToVirtualMapping 0 (some 7) 3 =
        Except.ok (0, m1) ∧
      m1.RemovePhysicalToVirtualMapping 0 = Except.ok m2 ∧
      m2.free_page_list = [0, 1] ∧
      m2.frame 0 =
        Except.ok { free := true, locked := false, virtualPage := 3, owner := some 7 } := by
  obtain ⟨m1, m2, h1, h2, h3, h4, _⟩ :=
    allocate_release_round_trip 2 (fun _ => 0) (fun _ => none)
      { slotOf := fun n => n, written := [] } [] _ 0 7 3 0 [1] rfl rfl
  exact ⟨rfl, m1, m2, h1, h2, h3, h4⟩

/-- C14 (UnlockPage), the code at the failing input.  `UnlockPage(-1)`: for every state of the
manager the only range test, `ASSERT(num_page < NumPhysPages)`, passes, and the next statement
reads `tpr[-1]`, outside the table; no `ASSERT` has failed when that read happens, and the run
stops at the read (an out-of-bounds fault, which is not the assertion failure).  Shown for
every state and, evaluated, on the full table of four frames. -/
theorem UnlockPage_negative_index :
    (∀ m : PhysicalMemManager,
      (-1 : Int) < m.NumPhysPages ∧ m.frame (-1) = Except.error Fault.outOfBounds ∧
      m.UnlockPage (-1) = Except.error Fault.outOfBounds) ∧
    (fourFrames 0 (fun _ => true)).UnlockPage (-1) = Except.error Fault.outOfBounds ∧
    (fourFrames 0 (fun _ => true)).UnlockPage (-1) ≠ Except.error Fault.assertion := by
  refine ⟨fun m => ?_, rfl, fun h => nomatch h⟩
  have hN : (-1 : Int) < m.NumPhysPages := by
    unfold PhysicalMemManager.NumPhysPages
    omega
  have hfr : m.frame (-1) = Except.error Fault.outOfBounds := by
    simp [PhysicalMemManager.frame]
  refine ⟨hN, hfr, ?_⟩
  simp only [PhysicalMemManager.UnlockPage, hN, not_true_eq_false, if_false, hfr]

/-- C23 (page content source selection), the code at the failing input.  Two frames, none free,
hand at frame 0; frame 0 is unlocked and recorded for page 5 of address space 1, whose entry is
not valid, not on swap, has its M bit set and has locator 4096.  `PageFault(5)` reads the
locator 4096 (line 56), then `AddPhysicalToVirtualMapping` evicts frame 0: the page is written
to swap, slot 77 becomes its locator and its on-swap bit is set.  The on-swap bit is read after
that (line 62), so the frame is filled by `GetPageSwap(4096)`: from swap, with the locator read
before the allocation, while the locator of the entry is 77.  With locator -1 at the time of the
fault the same run ends in `GetPageSwap(77)`, the locator being read again by the waiting
loop. -/
theorem PageFault_stale_locator :
    Option.map (fun (tt : TranslationTable) => tt 5)
      ((Kernel.ownFrameRecorded 4096).g_physical_mem_manager.translationTable 1) =
      some { valid := false, io := false, swap := false, U := false, M := true
             physicalPage := 0, addrDisk := 4096 } ∧
    Except.map (fun (r : ExceptionType × Kernel) =>
        (r.1, r.2.loads, r.2.g_physical_mem_manager.g_swap_manager.written,
          Option.map (fun (tt : TranslationTable) => (tt.getBitSwap 5, tt.getAddrDisk 5))
            (r.2.g_physical_mem_manager.translationTable 1)))
      (PageFault 4 (Kernel.ownFrameRecorded 4096) 1 5) =
      Except.ok (ExceptionType.NO_EXCEPTION, [PageLoad.GetPageSwap 4096 0], [0],
        some (true, 77)) ∧
    Except.map (fun (r : ExceptionType × Kernel) =>
        (r.1, r.2.loads, r.2.g_physical_mem_manager.g_swap_manager.written,
          Option.map (fun (tt : TranslationTable) => (tt.getBitSwap 5, tt.getAddrDisk 5))
            (r.2.g_physical_mem_manager.translationTable 1)))
      (PageFault 4 (Kernel.ownFrameRecorded (-1)) 1 5) =
      Except.ok (ExceptionType.NO_EXCEPTION, [PageLoad.GetPageSwap 77 0], [0],
        some (true, 77)) :=
  ⟨rfl, rfl, rfl⟩

end Nachos


